import Mathlib

/-!
Shallow embedding of the game engine in `src/game_logic.py` (class `GameState`).

Python semantics: when a class body defines the same method several times, the
last definition wins.  The effective methods embedded here are therefore
`apply_gravity` (lines 491-556), `_rotate_counterclockwise` (lines 345-409) and
`rotate_faller` (lines 411-422), together with the uniquely-defined methods.

Representation choices:
* a Python field cell is a string such as `' '`, `'R'`, `'r'`, `'LR'`, `'*R'`;
  it is embedded as `List Char`;
* coordinates are `Int` (rotation arithmetic such as `r_pivot - 1` can go
  negative before the bounds check in `_can_move`, so `Nat` truncation would be
  unfaithful); loop indices produced by `range(...)` are `Nat`;
* the faller's `segments` entry is always a two-element list in the source, so
  it is embedded as a pair; `orientation` is always the string `'horizontal'`
  or `'vertical'`; colors are single characters as supplied by the driver;
* the unbounded `while True` cascade loop of `apply_gravity` is embedded with
  explicit fuel; the Boolean returned by `cascadeLoop` records whether the
  loop reached its `break` (normal exit) before the fuel ran out.
-/

namespace DrMario

/-- A field cell: the Python string stored in `self.field[r][c]`. -/
abbrev Cell := List Char

/-- The Python one-space string `' '` denoting an empty cell. -/
def emptyCell : Cell := [' ']

/-- The field `self.field`: a list of rows, each a list of cells. -/
abbrev Field := List (List Cell)

/-- One faller segment `(row, col, color)`. -/
abbrev Seg := Int × Int × Char

/-- The faller dictionary: `segments` (always a 2-list in the source, embedded
as a pair), `orientation` (`'horizontal'` or `'vertical'`) and `landed`. -/
structure Faller where
  segments : Seg × Seg
  orientation : String
  landed : Bool
  deriving DecidableEq, Repr

/-- The `GameState` object.  The constructor attribute `matching` is written
once and never read anywhere in the source, so it is omitted. -/
structure GameState where
  rows : Nat
  cols : Nat
  field : Field
  faller : Option Faller
  gameOver : Bool
  deriving DecidableEq, Repr

/-- `self.field[r][c]` for `Nat` indices (Python `range` loop variables are
non-negative and all such accesses in the source are in bounds; `getD` never
falls back on its default under those conditions). -/
def getCellN (f : Field) (r c : Nat) : Cell := (f.getD r []).getD c []

/-- `self.field[r][c] = v` for `Nat` indices (`List.set` is the identity out of
range, which is never exercised by in-bounds writes). -/
def setCellN (f : Field) (r c : Nat) (v : Cell) : Field :=
  f.set r ((f.getD r []).set c v)

/-- `self.field[r][c]` for `Int` coordinates.  Every such read in the source is
guarded by `0 <= r < rows and 0 <= c < cols`, under which `toNat` is exact. -/
def getCell (f : Field) (r c : Int) : Cell := getCellN f r.toNat c.toNat

/-- `self.field[r][c] = v` for `Int` coordinates (used with in-bounds
coordinates only, see `getCell`). -/
def setCell (f : Field) (r c : Int) (v : Cell) : Field :=
  setCellN f r.toNat c.toNat v

/-- The all-empty field built by `__init__` when no initial field is given. -/
def emptyField (rows cols : Nat) : Field :=
  List.replicate rows (List.replicate cols emptyCell)

/-- `GameState.__init__`: raises `ValueError` for rows < 4 or cols < 3 or a
dimension mismatch of the provided contents, else builds the state. -/
def initGameState (rows cols : Nat) (initialField : Option Field) :
    Except String GameState :=
  if rows < 4 ∨ cols < 3 then
    .error "Field dimensions must be at least 4 rows and 3 columns"
  else
    match initialField with
    | some f =>
      if f.length ≠ rows ∨ f.any (fun row => row.length ≠ cols) then
        .error "Initial field dimensions do not match rows and columns."
      else .ok ⟨rows, cols, f, none, false⟩
    | none => .ok ⟨rows, cols, emptyField rows cols, none, false⟩

/-- `0 <= r < self.rows and 0 <= c < self.cols`. -/
def inBounds (rows cols : Nat) (r c : Int) : Prop :=
  0 ≤ r ∧ r < (rows : Int) ∧ 0 ≤ c ∧ c < (cols : Int)

instance (rows cols : Nat) (r c : Int) : Decidable (inBounds rows cols r c) :=
  inferInstanceAs (Decidable (_ ∧ _ ∧ _ ∧ _))

/-- The per-segment test of `GameState._can_move` (body of its `for` loop):
the target cell must be in bounds, empty, and — when a faller is active — must
not coincide with one of the faller's own current cells. -/
def canMoveSeg (s : GameState) (seg : Seg) (dx dy : Int) : Prop :=
  let newR := seg.1 + dy
  let newC := seg.2.1 + dx
  inBounds s.rows s.cols newR newC ∧ getCell s.field newR newC = emptyCell ∧
    (match s.faller with
     | none => True
     | some fl =>
       ¬ ((fl.segments.1.1 = newR ∧ fl.segments.1.2.1 = newC) ∨
          (fl.segments.2.1 = newR ∧ fl.segments.2.2.1 = newC)))

instance (s : GameState) (seg : Seg) (dx dy : Int) :
    Decidable (canMoveSeg s seg dx dy) := by
  unfold canMoveSeg
  cases s.faller <;> exact inferInstanceAs (Decidable (_ ∧ _ ∧ _))

/-- `GameState._can_move(faller_segments, dx, dy)`.  All call sites in the
source pass the default `dx = dy = 0` and a two-element segment list. -/
def _can_move (s : GameState) (segs : Seg × Seg) (dx dy : Int) : Prop :=
  canMoveSeg s segs.1 dx dy ∧ canMoveSeg s segs.2 dx dy

instance (s : GameState) (segs : Seg × Seg) (dx dy : Int) :
    Decidable (_can_move s segs dx dy) :=
  inferInstanceAs (Decidable (_ ∧ _))

/-- `GameState.move_faller(direction)`. -/
def move_faller (s : GameState) (direction : String) : GameState :=
  match s.faller with
  | none => s
  | some fl =>
    if fl.landed then s
    else
      let dx : Int := if direction = "<" then -1 else if direction = ">" then 1 else 0
      let newSegments : Seg × Seg :=
        ((fl.segments.1.1, fl.segments.1.2.1 + dx, fl.segments.1.2.2),
         (fl.segments.2.1, fl.segments.2.2.1 + dx, fl.segments.2.2.2))
      if _can_move s newSegments 0 0 then
        { s with faller := some { fl with segments := newSegments } }
      else s

/-- Replace the faller with new segments and a new orientation (the mutation
performed by every successful branch of the rotation methods). -/
def setFaller (s : GameState) (fl : Faller) (segs : Seg × Seg) (orient : String) :
    GameState :=
  { s with faller := some { fl with segments := segs, orientation := orient } }

/-- `GameState._rotate_clockwise` (lines 141-183).  Note the control flow of
the wall kicks: each `return` sits inside the inner `if`, so when the shifted
position is free but the rotated one is not, the method falls through to the
next kick. -/
def _rotate_clockwise (s : GameState) : GameState :=
  match s.faller with
  | none => s
  | some fl =>
    let seg0 := fl.segments.1
    let seg1 := fl.segments.2
    let rPivot := seg1.1
    let cPivot := seg1.2.1
    if fl.orientation = "horizontal" then
      let newSegments : Seg × Seg :=
        ((rPivot - 1, cPivot, seg0.2.2), (rPivot, cPivot, seg1.2.2))
      if _can_move s newSegments 0 0 then setFaller s fl newSegments "vertical"
      else
        let newSegmentsLeft : Seg × Seg :=
          ((seg0.1, seg0.2.1 - 1, seg0.2.2), (seg1.1, seg1.2.1 - 1, seg1.2.2))
        let rotatedLeft : Seg × Seg :=
          ((rPivot - 1, cPivot - 1, seg0.2.2), (rPivot, cPivot - 1, seg1.2.2))
        if _can_move s newSegmentsLeft 0 0 ∧ _can_move s rotatedLeft 0 0 then
          setFaller s fl rotatedLeft "vertical"
        else
          let newSegmentsRight : Seg × Seg :=
            ((seg0.1, seg0.2.1 + 1, seg0.2.2), (seg1.1, seg1.2.1 + 1, seg1.2.2))
          let rotatedRight : Seg × Seg :=
            ((rPivot - 1, cPivot + 1, seg0.2.2), (rPivot, cPivot + 1, seg1.2.2))
          if _can_move s newSegmentsRight 0 0 ∧ _can_move s rotatedRight 0 0 then
            setFaller s fl rotatedRight "vertical"
          else s
    else if fl.orientation = "vertical" then
      let newSegments : Seg × Seg :=
        ((rPivot, cPivot - 1, seg0.2.2), (rPivot, cPivot, seg1.2.2))
      if _can_move s newSegments 0 0 then setFaller s fl newSegments "horizontal"
      else s
    else s

/-- `GameState._rotate_counterclockwise`: the effective (second) definition at
lines 345-409, a chain of candidate placements each guarded by `_can_move`. -/
def _rotate_counterclockwise (s : GameState) : GameState :=
  match s.faller with
  | none => s
  | some fl =>
    let seg0 := fl.segments.1
    let seg1 := fl.segments.2
    let rPivot := seg1.1
    let cPivot := seg1.2.1
    if fl.orientation = "horizontal" then
      let cand1 : Seg × Seg :=
        ((rPivot - 1, cPivot - 1, seg0.2.2), (rPivot, cPivot - 1, seg1.2.2))
      let cand2 : Seg × Seg :=
        ((rPivot - 1, cPivot, seg0.2.2), (rPivot, cPivot, seg1.2.2))
      let cand3 : Seg × Seg :=
        ((rPivot - 1, cPivot - 2, seg0.2.2), (rPivot, cPivot - 2, seg1.2.2))
      let cand4 : Seg × Seg :=
        ((rPivot, cPivot - 1, seg0.2.2), (rPivot + 1, cPivot - 1, seg1.2.2))
      if _can_move s cand1 0 0 then setFaller s fl cand1 "vertical"
      else if _can_move s cand2 0 0 then setFaller s fl cand2 "vertical"
      else if _can_move s cand3 0 0 then setFaller s fl cand3 "vertical"
      else if _can_move s cand4 0 0 then setFaller s fl cand4 "vertical"
      else s
    else if fl.orientation = "vertical" then
      let cand1 : Seg × Seg :=
        ((rPivot, cPivot, seg0.2.2), (rPivot, cPivot + 1, seg1.2.2))
      let cand2 : Seg × Seg :=
        ((rPivot, cPivot + 1, seg0.2.2), (rPivot, cPivot + 2, seg1.2.2))
      let cand3 : Seg × Seg :=
        ((rPivot, cPivot - 1, seg0.2.2), (rPivot, cPivot, seg1.2.2))
      let cand4 : Seg × Seg :=
        ((rPivot + 1, cPivot, seg0.2.2), (rPivot + 1, cPivot + 1, seg1.2.2))
      if _can_move s cand1 0 0 then setFaller s fl cand1 "horizontal"
      else if _can_move s cand2 0 0 then setFaller s fl cand2 "horizontal"
      else if _can_move s cand3 0 0 then setFaller s fl cand3 "horizontal"
      else if _can_move s cand4 0 0 then setFaller s fl cand4 "horizontal"
      else s
    else s

/-- `GameState.rotate_faller(direction)` (effective definition, lines 411-422). -/
def rotate_faller (s : GameState) (direction : String) : GameState :=
  match s.faller with
  | none => s
  | some fl =>
    if fl.landed then s
    else if direction = "A" then _rotate_clockwise s
    else if direction = "B" then _rotate_counterclockwise s
    else s

/-- `GameState.create_faller(color1, color2)`, returning the mutated state and
the Boolean result. -/
def create_faller (s : GameState) (color1 color2 : Char) : GameState × Bool :=
  if s.gameOver then (s, false)
  else if s.faller.isSome then (s, false)
  else if s.cols % 2 = 1 then
    let middleCol : Int := (s.cols / 2 : Nat)
    if 0 < middleCol ∧ middleCol < (s.cols : Int) then
      ({ s with faller := some ⟨((1, middleCol - 1, color1), (1, middleCol, color2)),
          "horizontal", false⟩ }, true)
    else ({ s with gameOver := true }, false)
  else
    let leftCol : Int := (s.cols / 2 : Nat) - 1
    let rightCol : Int := (s.cols / 2 : Nat)
    if getCell s.field 0 leftCol = emptyCell ∧ getCell s.field 0 rightCol = emptyCell ∧
       (leftCol = 0 ∨ getCell s.field 0 (leftCol - 1) = emptyCell) ∧
       (rightCol = (s.cols : Int) - 1 ∨ getCell s.field 0 (rightCol + 1) = emptyCell) then
      ({ s with faller := some ⟨((1, leftCol, color1), (1, rightCol, color2)),
          "horizontal", false⟩ }, true)
    else if getCell s.field 0 leftCol = emptyCell ∧ 1 < s.rows ∧
        getCell s.field 1 leftCol = emptyCell then
      ({ s with faller := some ⟨((1, leftCol, color1), (2, leftCol, color2)),
          "vertical", false⟩ }, true)
    else if getCell s.field 0 rightCol = emptyCell ∧ 1 < s.rows ∧
        getCell s.field 1 rightCol = emptyCell then
      ({ s with faller := some ⟨((0, rightCol, color1), (1, rightCol, color2)),
          "vertical", false⟩ }, true)
    else ({ s with gameOver := true }, false)

/-- `GameState.add_virus(row, col, color)`: the three `ValueError` cases become
`Except.error`; on success the color is stored in uppercase. -/
def add_virus (s : GameState) (row col : Int) (color : Char) : Except String GameState :=
  if ¬ inBounds s.rows s.cols row col then .error "out of bounds"
  else if getCell s.field row col ≠ emptyCell then .error "already occupied"
  else
    let colorUpper := color.toUpper
    if colorUpper ∉ (['R', 'B', 'Y'] : List Char) then .error "invalid color"
    else .ok { s with field := setCell s.field row col [colorUpper] }

/-- Python `str.islower()` restricted to the ASCII alphabet used by the field
cells: true iff the string has at least one cased (alphabetic) character and
no uppercase character. -/
def pyIsLower (cell : Cell) : Prop :=
  (∃ ch ∈ cell, ch.isAlpha) ∧ ∀ ch ∈ cell, ¬ ch.isUpper

instance (cell : Cell) : Decidable (pyIsLower cell) :=
  inferInstanceAs (Decidable (_ ∧ _))

/-- `GameState.has_viruses()`: a cell counts as a virus when Python's
`cell.islower()` holds or the cell has length > 1 and contains some lowercase
character. -/
def has_viruses (s : GameState) : Bool :=
  s.field.any fun row => row.any fun cell =>
    decide (pyIsLower cell) || (decide (1 < cell.length) && cell.any fun ch => ch.isLower)

/-- `cell.startswith('*')`. -/
def starred (cell : Cell) : Prop := cell.head? = some '*'

instance (cell : Cell) : Decidable (starred cell) :=
  inferInstanceAs (Decidable (_ = _))

/-- `isinstance(cell, str) and len(cell) == 2 and cell[0] in 'LR'`. -/
def isHorizontalCell (cell : Cell) : Prop :=
  cell.length = 2 ∧ (cell.headD ' ' = 'L' ∨ cell.headD ' ' = 'R')

instance (cell : Cell) : Decidable (isHorizontalCell cell) :=
  inferInstanceAs (Decidable (_ ∧ _))

/-- Structural helper for `findDrop`: the counter starts at `rows - 1 - le`,
which bounds the number of loop iterations (each one increases `le` and
requires `le < rows - 1`), so the loop guard always fails before the counter
does and the two functions agree with the Python `while` loop. -/
def findDropAux (f : Field) (rows c : Nat) : Nat → Nat → Nat
  | 0, le => le
  | n + 1, le =>
    if le < rows - 1 ∧ getCellN f (le + 1) c = emptyCell then
      findDropAux f rows c n (le + 1)
    else le

/-- The `while` loop computing `lowest_empty` / `other_lowest`: starting from
`le`, step down while `le < rows - 1` and the cell below is empty. -/
def findDrop (f : Field) (rows c le : Nat) : Nat :=
  findDropAux f rows c (rows - 1 - le) le

/-- The body of the nested `for` loops of `GameState._apply_field_gravity`,
acting on the pair (field, moved) at scan position `(r, c)`. -/
def fieldGravityStep (rows cols : Nat) (fm : Field × Bool) (rc : Nat × Nat) :
    Field × Bool :=
  let f := fm.1
  let r := rc.1
  let c := rc.2
  let cell := getCellN f r c
  if cell = emptyCell ∨ starred cell then fm
  else if isHorizontalCell cell ∧ cell.headD ' ' ≠ 'L' then fm
  else if r < rows - 1 ∧ getCellN f (r + 1) c = emptyCell then
    let lowestEmpty := findDrop f rows c (r + 1)
    let f1 := setCellN f lowestEmpty c cell
    let f2 := setCellN f1 r c emptyCell
    if isHorizontalCell cell then
      let otherC := c + 1
      if otherC < cols ∧ getCellN f2 r otherC ≠ emptyCell then
        let otherLowest := findDrop f2 rows otherC (r + 1)
        let f3 := setCellN f2 otherLowest otherC (getCellN f2 r otherC)
        let f4 := setCellN f3 r otherC emptyCell
        (f4, true)
      else (f2, true)
    else (f2, true)
  else fm

/-- The scan order of `_apply_field_gravity`: `r` from `rows - 2` down to `0`,
and for each `r`, `c` from `cols - 1` down to `0`. -/
def gravityPositions (rows cols : Nat) : List (Nat × Nat) :=
  (List.range (rows - 1)).reverse.flatMap fun r =>
    (List.range cols).reverse.map fun c => (r, c)

/-- `GameState._apply_field_gravity()`, returning the new field and the
`moved` flag. -/
def _apply_field_gravity (rows cols : Nat) (f : Field) : Field × Bool :=
  (gravityPositions rows cols).foldl (fieldGravityStep rows cols) (f, false)

/-- `cell[1:] if cell.startswith('*') else cell`: the color string used by
`_check_match` (note that `'L'`/`'R'` tags are NOT stripped here). -/
def baseColor (cell : Cell) : Cell :=
  if starred cell then cell.tail else cell

/-- One directional `while` loop of `_check_match`: starting at `(r, c)`,
collect positions while in bounds, non-empty and of the sought color, stepping
by `(dr, dc)`.  The fuel argument dominates the loop: every direction used
moves one coordinate monotonically, so the walk leaves the grid after at most
`max rows cols` steps, and all call sites pass fuel `rows + cols`. -/
def scanDir (rows cols : Nat) (f : Field) (color : Cell) (dr dc : Int) :
    Int → Int → Nat → List (Int × Int)
  | _, _, 0 => []
  | r, c, fuel + 1 =>
    if inBounds rows cols r c then
      let cell := getCell f r c
      if cell ≠ emptyCell ∧ baseColor cell = color then
        (r, c) :: scanDir rows cols f color dr dc (r + dr) (c + dc) fuel
      else []
    else []

/-- One direction of `_check_match`: scan forward from `(r+dr, c+dc)`,
backward from `(r-dr, c-dc)` (Python inserts each backward hit at index 0, so
the backward hits end up reversed at the front), with `(r, c)` in between. -/
def checkMatchDir (rows cols : Nat) (f : Field) (color : Cell) (r c dr dc : Int) :
    List (Int × Int) :=
  let pos := scanDir rows cols f color dr dc (r + dr) (c + dc) (rows + cols)
  let neg := scanDir rows cols f color (-dr) (-dc) (r - dr) (c - dc) (rows + cols)
  neg.reverse ++ (r, c) :: pos

/-- `GameState._check_match(row, col)`: try the four axes (right, down,
down-right, down-left) and keep the longest run of length at least 3. -/
def _check_match (rows cols : Nat) (f : Field) (r c : Nat) : List (Int × Int) :=
  if getCellN f r c = emptyCell then []
  else
    let color := baseColor (getCellN f r c)
    ([(0, 1), (1, 0), (1, 1), (1, -1)] : List (Int × Int)).foldl
      (fun best d =>
        let cells := checkMatchDir rows cols f color r c d.1 d.2
        if 3 ≤ cells.length ∧ best.length < cells.length then cells
        else best)
      []

/-- The inner marking loop of `_process_matches`: mark each not-yet-marked
position of `matches`, stripping an `'L'`/`'R'` tag (`len(cell) > 1 and
cell[0] in 'LR'`) and otherwise prefixing `'*'`. -/
def markCell (cell : Cell) : Cell :=
  if 1 < cell.length ∧ (cell.headD ' ' = 'L' ∨ cell.headD ' ' = 'R') then
    '*' :: cell.tail
  else '*' :: cell

/-- Marking step for one matched position. -/
def markStep (fb : Field × Bool) (p : Int × Int) : Field × Bool :=
  let cell := getCell fb.1 p.1 p.2
  if ¬ starred cell then (setCell fb.1 p.1 p.2 (markCell cell), true)
  else fb

/-- The body of the two `for` loops of `GameState._process_matches` at scan
position `(r, c)`. -/
def processMatchStep (rows cols : Nat) (fb : Field × Bool) (rc : Nat × Nat) :
    Field × Bool :=
  let cell := getCellN fb.1 rc.1 rc.2
  if cell ≠ emptyCell ∧ ¬ starred cell then
    let ms := _check_match rows cols fb.1 rc.1 rc.2
    if 3 ≤ ms.length then ms.foldl markStep fb
    else fb
  else fb

/-- Row-major ascending scan order used by `_process_matches`, the
mark-removal loops of `apply_gravity`, and `has_viruses`. -/
def allPositions (rows cols : Nat) : List (Nat × Nat) :=
  (List.range rows).flatMap fun r => (List.range cols).map fun c => (r, c)

/-- `GameState._process_matches()`, returning the new field and the
`matches_found` flag. -/
def _process_matches (rows cols : Nat) (f : Field) : Field × Bool :=
  (allPositions rows cols).foldl (processMatchStep rows cols) (f, false)

/-- One step of the mark-removal double loop of `apply_gravity`. -/
def removeStep (fb : Field × Bool) (rc : Nat × Nat) : Field × Bool :=
  if starred (getCellN fb.1 rc.1 rc.2) then
    (setCellN fb.1 rc.1 rc.2 emptyCell, true)
  else fb

/-- The mark-removal double loop of `apply_gravity`: clear every starred cell
to empty, reporting whether anything was removed. -/
def removeMarked (rows cols : Nat) (f : Field) : Field × Bool :=
  (allPositions rows cols).foldl removeStep (f, false)

/-- One iteration of the `while True` cascade loop of `apply_gravity`
(lines 524-554): remove marks, apply field gravity, search matches; in the
match branch remove the fresh marks and apply gravity again.  Returns the
field after the iteration body and whether the loop continues (false means
the `break` was reached). -/
def cascadeStep (rows cols : Nat) (f : Field) : Field × Bool :=
  let rm := removeMarked rows cols f
  let g := _apply_field_gravity rows cols rm.1
  let pm := _process_matches rows cols g.1
  if pm.2 then
    let rm2 := removeMarked rows cols pm.1
    let g2 := _apply_field_gravity rows cols rm2.1
    (g2.1, true)
  else if rm.2 ∨ g.2 then (pm.1, true)
  else (pm.1, false)

/-- The cascade loop, fuelled.  The returned Boolean is true when the loop
exited through its `break` (the Python loop is unbounded; `false` means the
fuel ran out first). -/
def cascadeLoop (rows cols : Nat) (f : Field) : Nat → Field × Bool
  | 0 => (f, false)
  | fuel + 1 =>
    let st := cascadeStep rows cols f
    if st.2 then cascadeLoop rows cols st.1 fuel else (st.1, true)

/-- Burn one faller segment into the field on landing: horizontal pieces are
tagged `'L'` (at the leftmost column `leftC`) or `'R'`, vertical pieces become
plain single-character cells. -/
def burnSeg (f : Field) (horizontal : Bool) (leftC : Int) (seg : Seg) : Field :=
  if horizontal then
    if seg.2.1 = leftC then setCell f seg.1 seg.2.1 ['L', seg.2.2]
    else setCell f seg.1 seg.2.1 ['R', seg.2.2]
  else setCell f seg.1 seg.2.1 [seg.2.2]

/-- The landing loop of `apply_gravity`: write both segments into the field
(`left_c` is recomputed per segment in the source but is constant). -/
def burnFaller (f : Field) (fl : Faller) : Field :=
  let horizontal := fl.orientation = "horizontal"
  let leftC := min fl.segments.1.2.1 fl.segments.2.2.1
  burnSeg (burnSeg f horizontal leftC fl.segments.1) horizontal leftC fl.segments.2

/-- The faller-handling phase of `apply_gravity` (lines 501-521): try to move
the faller one row down; when `_can_move` refuses, mark it landed, burn its
segments into the field and clear it. -/
def fallerPhase (s : GameState) : GameState :=
  match s.faller with
  | none => s
  | some fl =>
    if fl.landed then s
    else
      let newSegments : Seg × Seg :=
        ((fl.segments.1.1 + 1, fl.segments.1.2.1, fl.segments.1.2.2),
         (fl.segments.2.1 + 1, fl.segments.2.2.1, fl.segments.2.2.2))
      if _can_move s newSegments 0 0 then
        { s with faller := some { fl with segments := newSegments } }
      else
        { s with field := burnFaller s.field fl, faller := none }

/-- `GameState.apply_gravity()` (effective definition, lines 491-556): guard
on `game_over`, run the faller phase, then the cascade loop.  The local
`moved` variable of the source never influences control flow in this final
draft and is only the (unused by all callers) return value, so it is not
modelled. -/
def apply_gravity (s : GameState) (fuel : Nat) : GameState :=
  if s.gameOver then s
  else
    let s1 := fallerPhase s
    { s1 with field := (cascadeLoop s1.rows s1.cols s1.field fuel).1 }

/-! ### Derived predicates and example states used by the theorems -/

/-- A faller segment sits in bounds and on an empty field cell. -/
def segOK (rows cols : Nat) (f : Field) (seg : Seg) : Prop :=
  inBounds rows cols seg.1 seg.2.1 ∧ getCell f seg.1 seg.2.1 = emptyCell

instance (rows cols : Nat) (f : Field) (seg : Seg) :
    Decidable (segOK rows cols f seg) := inferInstanceAs (Decidable (_ ∧ _))

/-- If a faller is active, both of its segments are in bounds and on empty
field cells. -/
def fallerOK (s : GameState) : Prop :=
  match s.faller with
  | none => True
  | some fl =>
    segOK s.rows s.cols s.field fl.segments.1 ∧
    segOK s.rows s.cols s.field fl.segments.2

instance (s : GameState) : Decidable (fallerOK s) := by
  unfold fallerOK
  cases s.faller <;> infer_instance

/-- The target cell differs from both of the faller's current cells (the
extra condition `_can_move` imposes beyond bounds and emptiness). -/
def notOwnCell (fl : Faller) (r c : Int) : Prop :=
  ¬ ((fl.segments.1.1 = r ∧ fl.segments.1.2.1 = c) ∨
     (fl.segments.2.1 = r ∧ fl.segments.2.2.1 = c))

instance (fl : Faller) (r c : Int) : Decidable (notOwnCell fl r c) :=
  inferInstanceAs (Decidable (¬ _))

/-- Both segments translated one row down. -/
def downSegs (fl : Faller) : Seg × Seg :=
  ((fl.segments.1.1 + 1, fl.segments.1.2.1, fl.segments.1.2.2),
   (fl.segments.2.1 + 1, fl.segments.2.2.1, fl.segments.2.2.2))

/-- Both segments translated `dx` columns sideways. -/
def shiftSegs (fl : Faller) (dx : Int) : Seg × Seg :=
  ((fl.segments.1.1, fl.segments.1.2.1 + dx, fl.segments.1.2.2),
   (fl.segments.2.1, fl.segments.2.2.1 + dx, fl.segments.2.2.2))

/-- The condition under which a pair of destination segments is accepted:
each destination cell is in bounds, empty in the field, and distinct from
both of the faller's own current cells. -/
def segsFree (s : GameState) (fl : Faller) (segs : Seg × Seg) : Prop :=
  (segOK s.rows s.cols s.field segs.1 ∧ notOwnCell fl segs.1.1 segs.1.2.1) ∧
  (segOK s.rows s.cols s.field segs.2 ∧ notOwnCell fl segs.2.1 segs.2.2.1)

instance (s : GameState) (fl : Faller) (segs : Seg × Seg) :
    Decidable (segsFree s fl segs) := inferInstanceAs (Decidable (_ ∧ _))

/-- A move or rotate call of the engine API. -/
inductive MRCall where
  | move (d : String)
  | rot (d : String)

/-- Dispatch one move/rotate call. -/
def applyCall (s : GameState) : MRCall → GameState
  | .move d => move_faller s d
  | .rot d => rotate_faller s d

/-- Run a sequence of move/rotate calls. -/
def applyCalls (s : GameState) (cs : List MRCall) : GameState :=
  cs.foldl applyCall s

/-- A fresh all-empty game state. -/
def egState (rows cols : Nat) : GameState :=
  ⟨rows, cols, emptyField rows cols, none, false⟩

/-- The state produced by `add_virus(0, 0, 'r')` on an empty 4×3 state. -/
def c1After : GameState :=
  ⟨4, 3, setCell (emptyField 4 3) 0 0 ['R'], none, false⟩

/-- A 4×3 state holding a vertical, non-landed faller at (1,1)-(2,1) over an
otherwise empty field. -/
def c2s : GameState :=
  ⟨4, 3, emptyField 4 3, some ⟨((1, 1, 'R'), (2, 1, 'B')), "vertical", false⟩, false⟩

/-- A 4×4 state holding a horizontal, non-landed faller at (1,1)-(1,2) over an
otherwise empty field. -/
def c3s : GameState :=
  ⟨4, 4, emptyField 4 4, some ⟨((1, 1, 'R'), (1, 2, 'Y')), "horizontal", false⟩, false⟩

/-- 4×3 field: a horizontal pair `LR`/`RR` in the top row whose left half can
fall freely while the right half's column is fully occupied by `Y` cells. -/
def c4f : Field :=
  [[['L', 'R'], ['R', 'R'], [' ']],
   [[' '], ['Y'], [' ']],
   [[' '], ['Y'], [' ']],
   [[' '], ['Y'], [' ']]]

/-- What `_apply_field_gravity` actually produces on `c4f`: the left half
lands at row 3, the right half is written at row 1 of its own column,
overwriting the `Y` cell there (only two of the three `Y` cells survive). -/
def c4res : Field :=
  [[[' '], [' '], [' ']],
   [[' '], ['R', 'R'], [' ']],
   [[' '], ['Y'], [' ']],
   [['L', 'R'], ['Y'], [' ']]]

/-- A 4×3 state (odd column count) whose spawn cells (1,0) and (1,1) are both
occupied by viruses. -/
def c5s : GameState :=
  ⟨4, 3,
   [[[' '], [' '], [' ']],
    [['y'], ['y'], [' ']],
    [[' '], [' '], [' ']],
    [[' '], [' '], [' ']]],
   none, false⟩

/-- The states reached from a fresh 4×3 state by `add_virus(1,0,'r')`, then
`add_virus(1,1,'r')`. -/
def c6v1 : GameState :=
  ⟨4, 3, setCell (emptyField 4 3) 1 0 ['R'], none, false⟩

def c6v2 : GameState :=
  ⟨4, 3, setCell (setCell (emptyField 4 3) 1 0 ['R']) 1 1 ['R'], none, false⟩

/-- The state `create_faller` then builds on `c6v2`: its faller overlaps the
two occupied cells. -/
def c6bad : GameState :=
  { c6v2 with faller := some ⟨((1, 0, 'R'), (1, 1, 'B')), "horizontal", false⟩ }

/-- 4×5 field: a row of three same-colored, non-virus capsule cells
(`LR`, `RR`, `R` — all red) flanked by empty cells. -/
def c7f : Field :=
  [[[' '], [' '], [' '], [' '], [' ']],
   [[' '], ['L', 'R'], ['R', 'R'], ['R'], [' ']],
   [[' '], [' '], [' '], [' '], [' ']],
   [[' '], [' '], [' '], [' '], [' ']]]

/-- The two candidate spawn columns used by `create_faller` for even column
counts: `cols // 2 - 1` and `cols // 2`. -/
def spawnLeftCol (s : GameState) : Int := ((s.cols / 2 : Nat) : Int) - 1

def spawnRightCol (s : GameState) : Int := ((s.cols / 2 : Nat) : Int)

/-- The occupancy test `create_faller` runs before its horizontal placement
(row-0 cells of the two spawn columns plus their outward neighbours). -/
def spawnHorizFree (s : GameState) : Prop :=
  getCell s.field 0 (spawnLeftCol s) = emptyCell ∧
  getCell s.field 0 (spawnRightCol s) = emptyCell ∧
  (spawnLeftCol s = 0 ∨ getCell s.field 0 (spawnLeftCol s - 1) = emptyCell) ∧
  (spawnRightCol s = (s.cols : Int) - 1 ∨
    getCell s.field 0 (spawnRightCol s + 1) = emptyCell)

instance (s : GameState) : Decidable (spawnHorizFree s) :=
  inferInstanceAs (Decidable (_ ∧ _ ∧ _ ∧ _))

/-- The occupancy test for the vertical fallback on the left spawn column. -/
def spawnVertLeftFree (s : GameState) : Prop :=
  getCell s.field 0 (spawnLeftCol s) = emptyCell ∧ 1 < s.rows ∧
  getCell s.field 1 (spawnLeftCol s) = emptyCell

instance (s : GameState) : Decidable (spawnVertLeftFree s) :=
  inferInstanceAs (Decidable (_ ∧ _ ∧ _))

/-- The occupancy test for the vertical fallback on the right spawn column. -/
def spawnVertRightFree (s : GameState) : Prop :=
  getCell s.field 0 (spawnRightCol s) = emptyCell ∧ 1 < s.rows ∧
  getCell s.field 1 (spawnRightCol s) = emptyCell

instance (s : GameState) : Decidable (spawnVertRightFree s) :=
  inferInstanceAs (Decidable (_ ∧ _ ∧ _))

/-- The field has exactly the declared dimensions (guaranteed by
`__init__` and preserved by every operation). -/
def wellFormed (rows cols : Nat) (f : Field) : Prop :=
  f.length = rows ∧ ∀ row ∈ f, row.length = cols

instance (rows cols : Nat) (f : Field) : Decidable (wellFormed rows cols f) :=
  inferInstanceAs (Decidable (_ ∧ _))

/-- A cell the gravity scan of `_apply_field_gravity` does not skip: neither
empty, nor marked, nor the right half of a horizontal pair. -/
def processableCell (cell : Cell) : Prop :=
  ¬ cell = emptyCell ∧ ¬ starred cell ∧
  ¬ (isHorizontalCell cell ∧ cell.headD ' ' ≠ 'L')

instance (cell : Cell) : Decidable (processableCell cell) :=
  inferInstanceAs (Decidable (_ ∧ _ ∧ _))

/-- No cell that the gravity scan would process can fall: every processable
cell above the bottom row has a non-empty cell directly below it. -/
def settled (rows cols : Nat) (f : Field) : Prop :=
  ∀ r < rows - 1, ∀ c < cols,
    processableCell (getCellN f r c) → getCellN f (r + 1) c ≠ emptyCell

instance (rows cols : Nat) (f : Field) : Decidable (settled rows cols f) := by
  unfold settled; infer_instance

/-- `settled` at a single position: if the gravity scan would process the
cell at `(r, c)`, the cell directly below it is occupied. -/
def settledAt (f : Field) (r c : Nat) : Prop :=
  processableCell (getCellN f r c) → getCellN f (r + 1) c ≠ emptyCell

instance (f : Field) (r c : Nat) : Decidable (settledAt f r c) := by
  unfold settledAt; infer_instance

/-- The two writes `_apply_field_gravity` performs when it drops the cell at
`(r, c)` of `f`: the cell is copied to the lowest empty row of its column and
its old position is cleared (the `f2` of `fieldGravityStep`'s move branch). -/
def gravDropLeft (f : Field) (rows r c : Nat) : Field :=
  setCellN (setCellN f (findDrop f rows c (r + 1)) c (getCellN f r c)) r c
    emptyCell

/-- The two further writes of the horizontal-pair branch of
`_apply_field_gravity`: the right-half cell at `(r, c+1)` of `f2` is copied to
the independently computed lowest row of column `c+1` — possibly overwriting —
and its old position is cleared (the `f4` of `fieldGravityStep`). -/
def gravDropRight (f2 : Field) (rows r c : Nat) : Field :=
  setCellN (setCellN f2 (findDrop f2 rows (c + 1) (r + 1)) (c + 1)
    (getCellN f2 r (c + 1))) r (c + 1) emptyCell

/-- The field holds no `'*'`-marked cell. -/
def unmarked (rows cols : Nat) (f : Field) : Prop :=
  ∀ r < rows, ∀ c < cols, ¬ starred (getCellN f r c)

instance (rows cols : Nat) (f : Field) : Decidable (unmarked rows cols f) := by
  unfold unmarked; infer_instance

/-- Number of non-empty cells among the in-bounds positions. -/
def cellCount (rows cols : Nat) (f : Field) : Nat :=
  (allPositions rows cols).countP fun rc => decide (getCellN f rc.1 rc.2 ≠ emptyCell)

/-- Number of marked cells among the in-bounds positions. -/
def starCount (rows cols : Nat) (f : Field) : Nat :=
  (allPositions rows cols).countP fun rc => decide (starred (getCellN f rc.1 rc.2))

/-- 4×5 field: a plain red 3-run on the bottom row with a blue cell above
its middle; used to exhibit clearing and compaction. -/
def c7grav : Field :=
  [[[' '], [' '], [' '], [' '], [' ']],
   [[' '], [' '], [' '], [' '], [' ']],
   [[' '], [' '], ['B'], [' '], [' ']],
   [[' '], ['R'], ['R'], ['R'], [' ']]]

/-- `c7grav` after marking, clearing and one gravity pass: the run is gone
and the blue cell has fallen onto the bottom row. -/
def c7gravFinal : Field :=
  [[[' '], [' '], [' '], [' '], [' ']],
   [[' '], [' '], [' '], [' '], [' ']],
   [[' '], [' '], [' '], [' '], [' ']],
   [[' '], [' '], ['B'], [' '], [' ']]]

/-- Vertical red 3-run. -/
def c7vert : Field :=
  [[[' '], [' '], [' ']],
   [[' '], ['R'], [' ']],
   [[' '], ['R'], [' ']],
   [[' '], ['R'], [' ']]]

/-- Down-right diagonal red 3-run. -/
def c7diag1 : Field :=
  [[['R'], [' '], [' ']],
   [[' '], ['R'], [' ']],
   [[' '], [' '], ['R']],
   [[' '], [' '], [' ']]]

/-- Down-left diagonal red 3-run. -/
def c7diag2 : Field :=
  [[[' '], [' '], ['R']],
   [[' '], ['R'], [' ']],
   [['R'], [' '], [' ']],
   [[' '], [' '], [' ']]]

/-- A red 2-run only: below the minimum run length. -/
def c7two : Field :=
  [[[' '], [' '], [' ']],
   [[' '], [' '], [' ']],
   [[' '], [' '], [' ']],
   [['R'], ['R'], [' ']]]

/-! ### Theorems -/

/-- `_can_move` (with the default zero offsets, as at every call site) accepts
a segment pair exactly when each destination is in bounds, empty, and not one
of the active faller's own cells. -/
theorem can_move_iff_segsFree (s : GameState) (fl : Faller)
    (h : s.faller = some fl) (segs : Seg × Seg) :
    _can_move s segs 0 0 ↔ segsFree s fl segs := by
  simp only [_can_move, canMoveSeg, segsFree, segOK, notOwnCell, h, add_zero]
  tauto

/-- **C1** (code_bug).  `add_virus(0, 0, 'r')` on a fresh 4×3 state succeeds
on an in-bounds empty cell with a valid color, but stores the uppercase `'R'`;
`has_viruses` only recognises lowercase letters as viruses, so it returns
`false` immediately after a virus was successfully added — contradicting both
the claim and the source's own docstrings. -/
theorem addVirus_hasViruses_contradiction :
    inBounds 4 3 0 0 ∧ getCell (egState 4 3).field 0 0 = emptyCell ∧
    add_virus (egState 4 3) 0 0 'r' = .ok c1After ∧
    getCellN c1After.field 0 0 = ['R'] ∧
    has_viruses c1After = false :=
  ⟨by decide, rfl, rfl, rfl, rfl⟩

/-- **C2** (amended).  For every state with an active, non-landed faller, the
faller phase of `apply_gravity` moves the faller down exactly one row when
both one-row-down destination cells are in bounds, empty in the field, and
distinct from the faller's own current cells; otherwise it lands: the faller
becomes absent and its two segments are written into the field, horizontal
pieces tagged `'L'` (at the leftmost column) / `'R'`, vertical pieces as plain
single-character cells.  In particular a vertical faller, whose lower
destination coincides with its own bottom cell, is never moved down. -/
theorem fallerPhase_drop_or_land (s : GameState) (fl : Faller)
    (h : s.faller = some fl) (hl : fl.landed = false) :
    (segsFree s fl (downSegs fl) →
      fallerPhase s = { s with faller := some { fl with segments := downSegs fl } }) ∧
    (¬ segsFree s fl (downSegs fl) →
      fallerPhase s = { s with field := burnFaller s.field fl, faller := none }) ∧
    (fl.segments.2.1 = fl.segments.1.1 + 1 ∧ fl.segments.2.2.1 = fl.segments.1.2.1 →
      ¬ segsFree s fl (downSegs fl)) ∧
    (fl.orientation = "horizontal" →
      burnFaller s.field fl =
        setCell (setCell s.field fl.segments.1.1 fl.segments.1.2.1
            (if fl.segments.1.2.1 = min fl.segments.1.2.1 fl.segments.2.2.1
             then ['L', fl.segments.1.2.2] else ['R', fl.segments.1.2.2]))
          fl.segments.2.1 fl.segments.2.2.1
          (if fl.segments.2.2.1 = min fl.segments.1.2.1 fl.segments.2.2.1
           then ['L', fl.segments.2.2.2] else ['R', fl.segments.2.2.2])) ∧
    (fl.orientation ≠ "horizontal" →
      burnFaller s.field fl =
        setCell (setCell s.field fl.segments.1.1 fl.segments.1.2.1 [fl.segments.1.2.2])
          fl.segments.2.1 fl.segments.2.2.1 [fl.segments.2.2.2]) := by
  refine ⟨?_, ?_, ?_, ?_, ?_⟩
  · intro hfree
    have hcan : _can_move s (downSegs fl) 0 0 :=
      (can_move_iff_segsFree s fl h (downSegs fl)).mpr hfree
    simp only [downSegs] at hcan
    simp [fallerPhase, h, hl, hcan, downSegs]
  · intro hfree
    have hcan : ¬ _can_move s (downSegs fl) 0 0 :=
      fun hc => hfree ((can_move_iff_segsFree s fl h (downSegs fl)).mp hc)
    simp only [downSegs] at hcan
    simp [fallerPhase, h, hl, hcan, downSegs]
  · rintro ⟨h1, h2⟩ ⟨⟨_, hno⟩, _⟩
    exact hno (Or.inr ⟨by simpa [downSegs] using h1, by simpa [downSegs] using h2⟩)
  · intro ho
    unfold burnFaller burnSeg
    simp only [ho, decide_True, if_true]
    split <;> split <;> rfl
  · intro ho
    unfold burnFaller burnSeg
    simp [ho]

/-- Witness for `fallerPhase_drop_or_land`: the horizontal faller of `c3s`
drops one row. -/
theorem fallerPhase_drop_or_land_witness :
    fallerPhase c3s =
      { c3s with faller := some ⟨((2, 1, 'R'), (2, 2, 'Y')), "horizontal", false⟩ } :=
  (fallerPhase_drop_or_land c3s ⟨((1, 1, 'R'), (1, 2, 'Y')), "horizontal", false⟩
    rfl rfl).1 (by decide)

/-- **C2** (counterexample).  A vertical, non-landed faller over a completely
empty 4×3 field: both one-row-down destination cells are in bounds and empty
in the field, yet the faller phase of `apply_gravity` does not move it down —
it lands and burns it instead (`_can_move` rejects the lower destination
because it coincides with the faller's own bottom cell). -/
theorem verticalFaller_lands_despite_empty_destination :
    c2s.gameOver = false ∧ (c2s.faller.map Faller.landed) = some false ∧
    inBounds 4 3 2 1 ∧ getCell c2s.field 2 1 = emptyCell ∧
    inBounds 4 3 3 1 ∧ getCell c2s.field 3 1 = emptyCell ∧
    (fallerPhase c2s).faller = none ∧
    (fallerPhase c2s).field = setCell (setCell c2s.field 1 1 ['R']) 2 1 ['B'] :=
  ⟨rfl, rfl, by decide, rfl, by decide, rfl, rfl, rfl⟩

/-- **C3** (amended).  `move_faller(direction)` translates both segments by
±1 column, and the translation applies exactly when both destination cells
are in bounds, empty in the field, and distinct from the faller's own current
cells; otherwise it is a no-op, as it is when the faller is absent or already
landed.  In particular a horizontal faller with adjacent cells can never move
sideways, because the trailing destination is one of its own cells. -/
theorem move_faller_translate_spec (s : GameState) (d : String) :
    (s.faller = none → move_faller s d = s) ∧
    (∀ fl, s.faller = some fl → fl.landed = true → move_faller s d = s) ∧
    (∀ fl, s.faller = some fl → fl.landed = false →
      (segsFree s fl (shiftSegs fl (if d = "<" then -1 else if d = ">" then 1 else 0)) →
        move_faller s d = { s with faller := some { fl with
          segments := shiftSegs fl (if d = "<" then -1 else if d = ">" then 1 else 0) } }) ∧
      (¬ segsFree s fl (shiftSegs fl (if d = "<" then -1 else if d = ">" then 1 else 0)) →
        move_faller s d = s)) ∧
    (∀ fl, s.faller = some fl →
      fl.segments.2.1 = fl.segments.1.1 →
      fl.segments.2.2.1 = fl.segments.1.2.1 + 1 →
      move_faller s d = s) := by
  refine ⟨?_, ?_, ?_, ?_⟩
  · intro h; simp [move_faller, h]
  · intro fl h hl; simp [move_faller, h, hl]
  · intro fl h hl
    constructor
    · intro hfree
      have hcan := (can_move_iff_segsFree s fl h _).mpr hfree
      simp only [shiftSegs] at hcan
      simp [move_faller, h, hl, hcan, shiftSegs]
    · intro hfree
      have hcan : ¬ _can_move s
          (shiftSegs fl (if d = "<" then -1 else if d = ">" then 1 else 0)) 0 0 :=
        fun hc => hfree ((can_move_iff_segsFree s fl h _).mp hc)
      simp only [shiftSegs] at hcan
      simp [move_faller, h, hl, hcan, shiftSegs]
  · intro fl h hrow hcol
    by_cases hl : fl.landed
    · simp [move_faller, h, hl]
    · have hnf : ¬ _can_move s
          (shiftSegs fl (if d = "<" then -1 else if d = ">" then 1 else 0)) 0 0 := by
        intro hc
        have hfree := (can_move_iff_segsFree s fl h _).mp hc
        by_cases h1 : d = "<"
        · have hno := hfree.2.2
          exact hno (Or.inl ⟨by simp [shiftSegs, h1, hrow],
            by simp [shiftSegs, h1]; omega⟩)
        · by_cases h2 : d = ">"
          · have hno := hfree.1.2
            exact hno (Or.inr ⟨by simp [shiftSegs, h1, h2, hrow],
              by simp [shiftSegs, h1, h2]; omega⟩)
          · have hno := hfree.1.2
            exact hno (Or.inl ⟨by simp [shiftSegs, h1, h2],
              by simp [shiftSegs, h1, h2]⟩)
      simp only [shiftSegs] at hnf
      simp [move_faller, h, hl, hnf]

/-- Witness for `move_faller_translate_spec`: the vertical faller of `c2s`
moves one column to the left. -/
theorem move_faller_translate_spec_witness :
    move_faller c2s "<" =
      { c2s with faller := some ⟨((1, 0, 'R'), (2, 0, 'B')), "vertical", false⟩ } :=
  (((move_faller_translate_spec c2s "<").2.2.1
    ⟨((1, 1, 'R'), (2, 1, 'B')), "vertical", false⟩ rfl rfl).1) (by decide)

/-- **C3** (counterexample).  A horizontal, non-landed faller over a
completely empty 4×4 field: both one-column-left destination cells are in
bounds and empty in the field, yet `move_faller('<')` is a no-op
(`_can_move` rejects the left destination of the right segment because it
coincides with the faller's own left cell). -/
theorem horizontalFaller_move_noop_despite_empty_destination :
    (c3s.faller.map Faller.landed) = some false ∧
    inBounds 4 4 1 0 ∧ getCell c3s.field 1 0 = emptyCell ∧
    inBounds 4 4 1 1 ∧ getCell c3s.field 1 1 = emptyCell ∧
    move_faller c3s "<" = c3s ∧ move_faller c3s ">" = c3s :=
  ⟨rfl, by decide, rfl, by decide, rfl, by decide, by decide⟩

/-- **C4** (code_bug).  On `c4f` the left half of the horizontal pair drops
from row 0 to row 3, but its right-half partner is dropped independently in
its own column: it is written at row 1 — a different row than the left half —
and overwrites the occupied `Y` cell there, so one `Y` cell disappears.  This
contradicts the claim and the source's own comment "Move the other part down
to the same row as the first part". -/
theorem fieldGravity_splits_pair_and_overwrites :
    _apply_field_gravity 4 3 c4f = (c4res, true) ∧
    getCellN c4f 0 0 = ['L', 'R'] ∧ getCellN c4f 0 1 = ['R', 'R'] ∧
    getCellN c4f 1 1 = ['Y'] ∧
    getCellN c4res 3 0 = ['L', 'R'] ∧ getCellN c4res 1 1 = ['R', 'R'] ∧
    (c4f.foldl (fun n row => n + row.count ['Y']) 0) = 3 ∧
    (c4res.foldl (fun n row => n + row.count ['Y']) 0) = 2 :=
  ⟨by decide, rfl, rfl, rfl, rfl, rfl, by decide, by decide⟩

/-- **C5** (amended).  `create_faller` is a silent no-op (returns false,
`gameOver` unchanged) when the game is already over or a faller is active.
For an odd column count it always succeeds, placing a horizontal pair at row 1
on columns `cols//2 - 1` and `cols//2` regardless of occupancy.  For an even
column count it places the horizontal pair at row 1 of the two center columns
when the row-0 spawn cells and their outward neighbours are free; otherwise it
tries a vertical pair on the left then the right spawn column; it returns
false and sets `gameOver` exactly when all three placements are blocked. -/
theorem create_faller_spawn_spec (s : GameState) (c1 c2 : Char) :
    (s.gameOver = true → create_faller s c1 c2 = (s, false)) ∧
    (s.gameOver = false → s.faller.isSome → create_faller s c1 c2 = (s, false)) ∧
    (s.gameOver = false → s.faller = none → s.cols % 2 = 1 → 3 ≤ s.cols →
      create_faller s c1 c2 =
        ({ s with faller := some ⟨((1, ((s.cols / 2 : Nat) : Int) - 1, c1),
            (1, ((s.cols / 2 : Nat) : Int), c2)), "horizontal", false⟩ }, true)) ∧
    (s.gameOver = false → s.faller = none → s.cols % 2 = 0 →
      (spawnHorizFree s → create_faller s c1 c2 =
        ({ s with faller := some ⟨((1, spawnLeftCol s, c1), (1, spawnRightCol s, c2)),
            "horizontal", false⟩ }, true)) ∧
      (¬ spawnHorizFree s → spawnVertLeftFree s → create_faller s c1 c2 =
        ({ s with faller := some ⟨((1, spawnLeftCol s, c1), (2, spawnLeftCol s, c2)),
            "vertical", false⟩ }, true)) ∧
      (¬ spawnHorizFree s → ¬ spawnVertLeftFree s → spawnVertRightFree s →
        create_faller s c1 c2 =
        ({ s with faller := some ⟨((0, spawnRightCol s, c1), (1, spawnRightCol s, c2)),
            "vertical", false⟩ }, true)) ∧
      (((create_faller s c1 c2).2 = false ∧ (create_faller s c1 c2).1.gameOver = true) ↔
        (¬ spawnHorizFree s ∧ ¬ spawnVertLeftFree s ∧ ¬ spawnVertRightFree s))) := by
  refine ⟨?_, ?_, ?_, ?_⟩
  · intro hgo; simp [create_faller, hgo]
  · intro hgo hfs; simp [create_faller, hgo, hfs]
  · intro hgo hfl hodd hcols
    have hguard : 0 < ((s.cols / 2 : Nat) : Int) ∧ ((s.cols / 2 : Nat) : Int) < (s.cols : Int) := by
      constructor <;> push_cast <;> omega
    unfold create_faller
    rw [if_neg (by simp [hgo]), if_neg (by simp [hfl]), if_pos hodd, if_pos hguard]
  · intro hgo hfl heven
    have hoddF : ¬ (s.cols % 2 = 1) := by omega
    have hcf : create_faller s c1 c2 =
        (if spawnHorizFree s then
          ({ s with faller := some ⟨((1, spawnLeftCol s, c1), (1, spawnRightCol s, c2)),
              "horizontal", false⟩ }, true)
         else if spawnVertLeftFree s then
          ({ s with faller := some ⟨((1, spawnLeftCol s, c1), (2, spawnLeftCol s, c2)),
              "vertical", false⟩ }, true)
         else if spawnVertRightFree s then
          ({ s with faller := some ⟨((0, spawnRightCol s, c1), (1, spawnRightCol s, c2)),
              "vertical", false⟩ }, true)
         else ({ s with gameOver := true }, false)) := by
      unfold create_faller
      rw [if_neg (by simp [hgo]), if_neg (by simp [hfl]), if_neg hoddF]
      rfl
    refine ⟨?_, ?_, ?_, ?_⟩
    · intro hh
      rw [hcf, if_pos hh]
    · intro hh hvl
      rw [hcf, if_neg hh, if_pos hvl]
    · intro hh hvl hvr
      rw [hcf, if_neg hh, if_neg hvl, if_pos hvr]
    · rw [hcf]
      split_ifs with hh hvl hvr <;> simp [*]

/-- Witness for `create_faller_spawn_spec`: on a fresh 4×3 state the odd-width
branch places the horizontal pair at row 1, columns 0 and 1. -/
theorem create_faller_spawn_spec_witness :
    create_faller (egState 4 3) 'R' 'B' =
      ({ egState 4 3 with faller := some ⟨((1, 0, 'R'), (1, 1, 'B')),
          "horizontal", false⟩ }, true) :=
  (create_faller_spawn_spec (egState 4 3) 'R' 'B').2.2.1 rfl rfl rfl (by decide)

/-- **C5** (counterexample).  On a 4×3 state (odd column count) whose two
spawn cells are occupied by viruses, `create_faller` does not fail: it returns
`true`, leaves `gameOver` false, and places the new faller directly on top of
the occupied cells. -/
theorem createFaller_succeeds_on_occupied_spawn :
    getCellN c5s.field 1 0 ≠ emptyCell ∧ getCellN c5s.field 1 1 ≠ emptyCell ∧
    create_faller c5s 'R' 'B' =
      ({ c5s with faller := some ⟨((1, 0, 'R'), (1, 1, 'B')), "horizontal", false⟩ },
       true) ∧
    (create_faller c5s 'R' 'B').1.gameOver = false :=
  ⟨by decide, by decide, by decide, rfl⟩

/-- A segment accepted by the zero-offset `_can_move` test is in bounds and
on an empty field cell. -/
theorem canMoveSeg_segOK (s : GameState) (seg : Seg) (h : canMoveSeg s seg 0 0) :
    segOK s.rows s.cols s.field seg := by
  simp only [canMoveSeg, add_zero] at h
  exact ⟨h.1, h.2.1⟩

/-- Any rotation branch that fires passed `_can_move` on the segments it
installs, so the updated faller is in bounds and on empty cells. -/
theorem setFaller_fallerOK (s : GameState) (fl : Faller) (segs : Seg × Seg)
    (o : String) (hcan : _can_move s segs 0 0) : fallerOK (setFaller s fl segs o) :=
  ⟨canMoveSeg_segOK s _ hcan.1, canMoveSeg_segOK s _ hcan.2⟩

/-- Every branch of `move_faller` either leaves the state unchanged or
installs `_can_move`-approved segments. -/
theorem move_faller_shape (s : GameState) (d : String) :
    move_faller s d = s ∨
    ∃ fl segs o, _can_move s segs 0 0 ∧ move_faller s d = setFaller s fl segs o := by
  cases hf : s.faller with
  | none => left; simp [move_faller, hf]
  | some fl =>
    simp only [move_faller, hf]
    set dx := (if d = "<" then (-1 : Int) else if d = ">" then 1 else 0) with hdx
    split
    · exact Or.inl rfl
    · split
      · rename_i hcan
        exact Or.inr ⟨fl, _, fl.orientation, hcan, rfl⟩
      · exact Or.inl rfl

/-- Every branch of `_rotate_clockwise` either leaves the state unchanged or
installs `_can_move`-approved segments. -/
theorem rotate_cw_shape (s : GameState) :
    _rotate_clockwise s = s ∨
    ∃ fl segs o, _can_move s segs 0 0 ∧ _rotate_clockwise s = setFaller s fl segs o := by
  cases hf : s.faller with
  | none => left; simp [_rotate_clockwise, hf]
  | some fl =>
    simp only [_rotate_clockwise, hf]
    split
    · split
      · rename_i hcan
        exact Or.inr ⟨fl, _, _, hcan, rfl⟩
      · split
        · rename_i hcan
          exact Or.inr ⟨fl, _, _, hcan.2, rfl⟩
        · split
          · rename_i hcan
            exact Or.inr ⟨fl, _, _, hcan.2, rfl⟩
          · exact Or.inl rfl
    · split
      · split
        · rename_i hcan
          exact Or.inr ⟨fl, _, _, hcan, rfl⟩
        · exact Or.inl rfl
      · exact Or.inl rfl

/-- Every branch of `_rotate_counterclockwise` either leaves the state
unchanged or installs `_can_move`-approved segments. -/
theorem rotate_ccw_shape (s : GameState) :
    _rotate_counterclockwise s = s ∨
    ∃ fl segs o, _can_move s segs 0 0 ∧
      _rotate_counterclockwise s = setFaller s fl segs o := by
  cases hf : s.faller with
  | none => left; simp [_rotate_counterclockwise, hf]
  | some fl =>
    simp only [_rotate_counterclockwise, hf]
    split
    · split
      · rename_i hcan
        exact Or.inr ⟨fl, _, _, hcan, rfl⟩
      · split
        · rename_i hcan
          exact Or.inr ⟨fl, _, _, hcan, rfl⟩
        · split
          · rename_i hcan
            exact Or.inr ⟨fl, _, _, hcan, rfl⟩
          · split
            · rename_i hcan
              exact Or.inr ⟨fl, _, _, hcan, rfl⟩
            · exact Or.inl rfl
    · split
      · split
        · rename_i hcan
          exact Or.inr ⟨fl, _, _, hcan, rfl⟩
        · split
          · rename_i hcan
            exact Or.inr ⟨fl, _, _, hcan, rfl⟩
          · split
            · rename_i hcan
              exact Or.inr ⟨fl, _, _, hcan, rfl⟩
            · split
              · rename_i hcan
                exact Or.inr ⟨fl, _, _, hcan, rfl⟩
              · exact Or.inl rfl
      · exact Or.inl rfl

/-- `rotate_faller` dispatches to the two rotation helpers or does nothing. -/
theorem rotate_faller_shape (s : GameState) (d : String) :
    rotate_faller s d = s ∨
    ∃ fl segs o, _can_move s segs 0 0 ∧ rotate_faller s d = setFaller s fl segs o := by
  cases hf : s.faller with
  | none => left; simp [rotate_faller, hf]
  | some fl =>
    simp only [rotate_faller, hf]
    split
    · exact Or.inl rfl
    · split
      · exact rotate_cw_shape s
      · split
        · exact rotate_ccw_shape s
        · exact Or.inl rfl

/-- A state of the shape produced by any move/rotate branch keeps the faller
invariant and leaves field and dimensions unchanged. -/
theorem shape_preserves (s s' : GameState) (h : fallerOK s)
    (hs : s' = s ∨ ∃ fl segs o, _can_move s segs 0 0 ∧ s' = setFaller s fl segs o) :
    fallerOK s' ∧ s'.field = s.field ∧ s'.rows = s.rows ∧ s'.cols = s.cols := by
  rcases hs with rfl | ⟨fl, segs, o, hcan, rfl⟩
  · exact ⟨h, rfl, rfl, rfl⟩
  · exact ⟨setFaller_fallerOK s fl segs o hcan, rfl, rfl, rfl⟩

/-- Any single move/rotate call preserves the faller invariant, the field and
the dimensions. -/
theorem applyCall_preserves (s : GameState) (c : MRCall) (h : fallerOK s) :
    fallerOK (applyCall s c) ∧ (applyCall s c).field = s.field ∧
    (applyCall s c).rows = s.rows ∧ (applyCall s c).cols = s.cols := by
  cases c with
  | move d => exact shape_preserves s _ h (move_faller_shape s d)
  | rot d => exact shape_preserves s _ h (rotate_faller_shape s d)

/-- **C6** (amended).  If the active faller's two segments are in bounds and
on empty field cells, then after any sequence of `move_faller` /
`rotate_faller` calls they still are, and the field itself is unchanged: no
such call ever places a segment out of bounds or onto an occupied cell.  (The
initial condition is necessary: `create_faller` can spawn a faller on
occupied cells, see the counterexample.) -/
theorem moveRotate_sequence_safety (s : GameState) (cs : List MRCall)
    (h : fallerOK s) :
    fallerOK (applyCalls s cs) ∧ (applyCalls s cs).field = s.field ∧
    (applyCalls s cs).rows = s.rows ∧ (applyCalls s cs).cols = s.cols := by
  induction cs generalizing s with
  | nil => exact ⟨h, rfl, rfl, rfl⟩
  | cons c cs ih =>
    have h1 := applyCall_preserves s c h
    have h2 := ih (applyCall s c) h1.1
    have hstep : applyCalls s (c :: cs) = applyCalls (applyCall s c) cs := rfl
    rw [hstep]
    exact ⟨h2.1, h2.2.1.trans h1.2.1, h2.2.2.1.trans h1.2.2.1, h2.2.2.2.trans h1.2.2.2⟩

/-- Witness for `moveRotate_sequence_safety`: a concrete sequence of a move
and both rotations on the horizontal faller of `c3s`. -/
theorem moveRotate_sequence_safety_witness :
    fallerOK (applyCalls c3s [MRCall.move "<", MRCall.rot "B", MRCall.rot "A"]) ∧
    (applyCalls c3s [MRCall.move "<", MRCall.rot "B", MRCall.rot "A"]).field = c3s.field ∧
    (applyCalls c3s [MRCall.move "<", MRCall.rot "B", MRCall.rot "A"]).rows = c3s.rows ∧
    (applyCalls c3s [MRCall.move "<", MRCall.rot "B", MRCall.rot "A"]).cols = c3s.cols :=
  moveRotate_sequence_safety c3s [MRCall.move "<", MRCall.rot "B", MRCall.rot "A"]
    (by decide)

/-- **C6** (counterexample).  A state reachable through the engine API alone —
two `add_virus` calls then `create_faller` on a fresh 4×3 state — carries a
faller both of whose segments sit on occupied field cells; with the empty
sequence of move/rotate calls the claimed postcondition ("both segments occupy
cells that were empty in the field") already fails. -/
theorem reachable_faller_on_occupied_cells :
    add_virus (egState 4 3) 1 0 'r' = .ok c6v1 ∧
    add_virus c6v1 1 1 'r' = .ok c6v2 ∧
    create_faller c6v2 'R' 'B' = (c6bad, true) ∧
    applyCalls c6bad [] = c6bad ∧
    (∀ fl, c6bad.faller = some fl →
      getCell c6bad.field fl.segments.1.1 fl.segments.1.2.1 ≠ emptyCell ∧
      getCell c6bad.field fl.segments.2.1 fl.segments.2.2.1 ≠ emptyCell) :=
  ⟨rfl, rfl, by decide, rfl, by decide⟩

set_option maxRecDepth 4000 in
/-- **C7** (counterexample).  A row of exactly three same-colored (red),
non-virus cells flanked by empties, where the three cells are stored as
`'LR'`, `'RR'`, `'R'`: `_check_match` compares the raw strings (only a `'*'`
prefix is stripped, `'L'`/`'R'` tags are not), so no run is detected and a
resolution pass marks nothing. -/
theorem taggedRun_not_marked :
    getCellN c7f 1 1 = ['L', 'R'] ∧ getCellN c7f 1 2 = ['R', 'R'] ∧
    getCellN c7f 1 3 = ['R'] ∧
    getCellN c7f 1 0 = emptyCell ∧ getCellN c7f 1 4 = emptyCell ∧
    _process_matches 4 5 c7f = (c7f, false) :=
  ⟨rfl, rfl, rfl, rfl, rfl, by decide⟩

/-! ### Basic field lemmas -/

/-- Reading a written in-bounds cell gives the written value. -/
theorem getCellN_setCellN_self (f : Field) (r c : Nat) (v : Cell)
    (hr : r < f.length) (hc : c < (f.getD r []).length) :
    getCellN (setCellN f r c v) r c = v := by
  unfold getCellN setCellN
  simp only [List.getD_eq_getElem?_getD]
  rw [List.getElem?_set, if_pos rfl, if_pos hr]
  simp only [Option.getD_some]
  rw [List.getElem?_set, if_pos rfl,
    if_pos (by simpa [List.getD_eq_getElem?_getD] using hc)]
  rfl

/-- Writing one cell does not change any other cell. -/
theorem getCellN_setCellN_ne (f : Field) (r c r' c' : Nat) (v : Cell)
    (h : r ≠ r' ∨ c ≠ c') :
    getCellN (setCellN f r c v) r' c' = getCellN f r' c' := by
  unfold getCellN setCellN
  simp only [List.getD_eq_getElem?_getD]
  by_cases hr : r = r'
  · subst hr
    have hc : c ≠ c' := h.resolve_left (by simp)
    rw [List.getElem?_set, if_pos rfl]
    by_cases hl : r < f.length
    · rw [if_pos hl]
      simp only [Option.getD_some]
      rw [List.getElem?_set_ne hc]
    · rw [if_neg hl]
      have hnone : f[r]? = none := by
        rw [List.getElem?_eq_none_iff]; omega
      simp [hnone]
  · rw [List.getElem?_set_ne hr]

/-- `setCellN` keeps the field well-formed. -/
theorem wellFormed_setCellN (rows cols : Nat) (f : Field) (r c : Nat) (v : Cell)
    (h : wellFormed rows cols f) : wellFormed rows cols (setCellN f r c v) := by
  obtain ⟨hlen, hrows⟩ := h
  constructor
  · rw [setCellN, List.length_set, hlen]
  · intro row hrow
    by_cases hl : r < f.length
    · rcases List.mem_or_eq_of_mem_set hrow with hmem | rfl
      · exact hrows row hmem
      · rw [List.length_set]
        refine hrows _ ?_
        rw [List.getD_eq_getElem?_getD, List.getElem?_eq_getElem hl,
          Option.getD_some]
        exact List.getElem_mem hl
    · rw [setCellN, List.set_eq_of_length_le (by omega)] at hrow
      exact hrows row hrow

/-- Membership in the ascending scan order. -/
theorem mem_allPositions (rows cols r c : Nat) :
    (r, c) ∈ allPositions rows cols ↔ r < rows ∧ c < cols := by
  simp only [allPositions, List.mem_flatMap, List.mem_map, List.mem_range]
  constructor
  · rintro ⟨a, ha, b, hb, heq⟩
    obtain ⟨rfl, rfl⟩ := Prod.mk.injEq .. ▸ And.intro (congrArg Prod.fst heq) (congrArg Prod.snd heq)
    exact ⟨ha, hb⟩
  · rintro ⟨hr, hc⟩
    exact ⟨r, hr, c, hc, rfl⟩

/-- Membership in the gravity scan order. -/
theorem mem_gravityPositions (rows cols r c : Nat) :
    (r, c) ∈ gravityPositions rows cols ↔ r < rows - 1 ∧ c < cols := by
  simp only [gravityPositions, List.mem_flatMap, List.mem_map, List.mem_reverse,
    List.mem_range]
  constructor
  · rintro ⟨a, ha, b, hb, heq⟩
    obtain ⟨rfl, rfl⟩ := Prod.mk.injEq .. ▸ And.intro (congrArg Prod.fst heq) (congrArg Prod.snd heq)
    exact ⟨ha, hb⟩
  · rintro ⟨hr, hc⟩
    exact ⟨r, hr, c, hc, rfl⟩

/-- A fold whose step fixes the accumulator is the identity. -/
theorem foldl_fixed {α β : Type} (step : β → α → β) (l : List α) (b : β)
    (h : ∀ a ∈ l, step b a = b) : l.foldl step b = b := by
  induction l with
  | nil => rfl
  | cons a l ih =>
    rw [List.foldl_cons, h a (by simp)]
    exact ih fun x hx => h x (by simp [hx])

/-- A fold preserves any invariant its step preserves. -/
theorem foldl_hold {α β : Type} (step : β → α → β) (P : β → Prop) (l : List α)
    (h : ∀ b a, a ∈ l → P b → P (step b a)) (b : β) (hb : P b) :
    P (l.foldl step b) := by
  induction l generalizing b with
  | nil => exact hb
  | cons a l ih =>
    rw [List.foldl_cons]
    exact ih (fun b' x hx hp => h b' x (by simp [hx]) hp) _ (h b a (by simp) hb)

/-- A fold with a monotone completion flag keeps the flag set. -/
theorem foldl_flag_mono {α : Type} (step : Field × Bool → α → Field × Bool)
    (hmono : ∀ fb a, fb.2 = true → (step fb a).2 = true) (l : List α)
    (fb : Field × Bool) (hb : fb.2 = true) : (l.foldl step fb).2 = true :=
  foldl_hold step (fun x => x.2 = true) l (fun b a _ => hmono b a) fb hb

/-- If the flag is monotone and a step with unset result flag is the identity,
then a fold ending with the flag unset left the accumulator untouched. -/
theorem foldl_false_fixed {α : Type} (step : Field × Bool → α → Field × Bool)
    (hmono : ∀ fb a, fb.2 = true → (step fb a).2 = true)
    (hfix : ∀ fb a, (step fb a).2 = false → step fb a = fb)
    (l : List α) (fb : Field × Bool) (hres : (l.foldl step fb).2 = false) :
    l.foldl step fb = fb := by
  induction l generalizing fb with
  | nil => rfl
  | cons a l ih =>
    rw [List.foldl_cons] at hres ⊢
    have h2 : (step fb a).2 = false := by
      cases hsa : (step fb a).2
      · rfl
      · rw [foldl_flag_mono step hmono l _ hsa] at hres; cases hres
    rw [hfix fb a h2] at hres ⊢
    exact ih fb hres

/-! ### No-op lemmas on settled, unmarked, match-free fields -/

/-- On a settled field every gravity scan step is a no-op. -/
theorem fieldGravityStep_settled (rows cols : Nat) (f : Field) (b : Bool)
    (r c : Nat) (hs : settled rows cols f) (hr : r < rows - 1) (hc : c < cols) :
    fieldGravityStep rows cols (f, b) (r, c) = (f, b) := by
  unfold fieldGravityStep
  simp only
  split
  · rfl
  · split
    · rfl
    · rename_i h1 h2
      rw [if_neg]
      rintro ⟨-, hbelow⟩
      exact hs r hr c hc ⟨(not_or.mp h1).1, (not_or.mp h1).2, h2⟩ hbelow

/-- On a settled field `_apply_field_gravity` changes nothing and reports no
movement. -/
theorem applyFieldGravity_settled (rows cols : Nat) (f : Field)
    (hs : settled rows cols f) : _apply_field_gravity rows cols f = (f, false) := by
  unfold _apply_field_gravity
  refine foldl_fixed _ _ _ ?_
  rintro ⟨r, c⟩ hp
  obtain ⟨hr, hc⟩ := (mem_gravityPositions rows cols r c).mp hp
  exact fieldGravityStep_settled rows cols f false r c hs hr hc

/-- On an unmarked field the mark-removal pass changes nothing and reports no
removal. -/
theorem removeMarked_unmarked (rows cols : Nat) (f : Field)
    (hu : unmarked rows cols f) : removeMarked rows cols f = (f, false) := by
  unfold removeMarked
  refine foldl_fixed _ _ _ ?_
  rintro ⟨r, c⟩ hp
  obtain ⟨hr, hc⟩ := (mem_allPositions rows cols r c).mp hp
  unfold removeStep
  rw [if_neg (hu r hr c hc)]

/-- The marking step keeps the found flag set. -/
theorem markStep_flag_mono (fb : Field × Bool) (p : Int × Int)
    (h : fb.2 = true) : (markStep fb p).2 = true := by
  simp only [markStep]
  split <;> simp [h]

/-- A marking step that reports no find changed nothing. -/
theorem markStep_false_fixed (fb : Field × Bool) (p : Int × Int)
    (h : (markStep fb p).2 = false) : markStep fb p = fb := by
  simp only [markStep] at h ⊢
  split at h
  · cases h
  · rename_i hcond
    rw [if_neg hcond]

/-- The match-processing step keeps the found flag set. -/
theorem processMatchStep_flag_mono (rows cols : Nat) (fb : Field × Bool)
    (rc : Nat × Nat) (h : fb.2 = true) :
    (processMatchStep rows cols fb rc).2 = true := by
  simp only [processMatchStep]
  split
  · split
    · exact foldl_flag_mono markStep (fun fb' p => markStep_flag_mono fb' p) _ fb h
    · exact h
  · exact h

/-- A match-processing step that reports no find changed nothing. -/
theorem processMatchStep_false_fixed (rows cols : Nat) (fb : Field × Bool)
    (rc : Nat × Nat) (h : (processMatchStep rows cols fb rc).2 = false) :
    processMatchStep rows cols fb rc = fb := by
  simp only [processMatchStep] at h ⊢
  split at h
  · rename_i h1
    split at h
    · rename_i h2
      rw [if_pos h1, if_pos h2]
      exact foldl_false_fixed markStep (fun fb' p => markStep_flag_mono fb' p)
        markStep_false_fixed _ fb h
    · rename_i h2
      rw [if_pos h1, if_neg h2]
  · rename_i h1
    rw [if_neg h1]

/-- When `_process_matches` reports no match, the field is unchanged. -/
theorem processMatches_false_fixed (rows cols : Nat) (f : Field)
    (h : (_process_matches rows cols f).2 = false) :
    (_process_matches rows cols f).1 = f := by
  have hfix := foldl_false_fixed (processMatchStep rows cols)
    (fun fb rc => processMatchStep_flag_mono rows cols fb rc)
    (fun fb rc => processMatchStep_false_fixed rows cols fb rc)
    (allPositions rows cols) (f, false) h
  unfold _process_matches
  rw [show (allPositions rows cols).foldl (processMatchStep rows cols) (f, false) =
    (f, false) from hfix]

/-- On a settled, unmarked, match-free field one cascade iteration reaches
the `break` with the field untouched. -/
theorem cascadeStep_stable (rows cols : Nat) (f : Field)
    (hs : settled rows cols f) (hu : unmarked rows cols f)
    (hnm : (_process_matches rows cols f).2 = false) :
    cascadeStep rows cols f = (f, false) := by
  unfold cascadeStep
  rw [removeMarked_unmarked rows cols f hu]
  simp only
  rw [applyFieldGravity_settled rows cols f hs]
  simp only
  rw [if_neg (by rw [hnm]; simp)]
  rw [if_neg (by simp)]
  rw [processMatches_false_fixed rows cols f hnm]

/-- On a settled, unmarked, match-free field the cascade loop leaves the
field untouched for every fuel value. -/
theorem cascadeLoop_stable (rows cols : Nat) (f : Field) (fuel : Nat)
    (hs : settled rows cols f) (hu : unmarked rows cols f)
    (hnm : (_process_matches rows cols f).2 = false) :
    (cascadeLoop rows cols f fuel).1 = f := by
  cases fuel with
  | zero => rfl
  | succ n =>
    unfold cascadeLoop
    rw [cascadeStep_stable rows cols f hs hu hnm]
    simp

/-- `fallerPhase` does nothing when no faller is active. -/
theorem fallerPhase_none (s : GameState) (h : s.faller = none) :
    fallerPhase s = s := by
  unfold fallerPhase
  rw [h]

/-- **C9** (confirmed).  On a fully settled state — no active faller, no cell
that can fall, no possible match, no marked cell — `apply_gravity` is a no-op
for any fuel value, and so is any number of repetitions of it: the state is
unchanged bit-for-bit. -/
theorem applyGravityStep_idempotent_on_settled (s : GameState) (fuel n : Nat)
    (hf : s.faller = none) (hs : settled s.rows s.cols s.field)
    (hu : unmarked s.rows s.cols s.field)
    (hnm : (_process_matches s.rows s.cols s.field).2 = false) :
    apply_gravity s fuel = s ∧ (fun t => apply_gravity t fuel)^[n] s = s := by
  have h1 : apply_gravity s fuel = s := by
    unfold apply_gravity
    by_cases hgo : s.gameOver = true
    · rw [if_pos hgo]
    · rw [if_neg hgo]
      simp only [fallerPhase_none s hf]
      rw [cascadeLoop_stable s.rows s.cols s.field fuel hs hu hnm]
  refine ⟨h1, ?_⟩
  induction n with
  | zero => rfl
  | succ n ih => rw [Function.iterate_succ_apply, h1, ih]

/-- Witness for `applyGravityStep_idempotent_on_settled`: a fresh, empty 4×3
state, fuel 12, three repetitions. -/
theorem applyGravityStep_idempotent_on_settled_witness :
    apply_gravity (egState 4 3) 12 = egState 4 3 ∧
    (fun t => apply_gravity t 12)^[3] (egState 4 3) = egState 4 3 :=
  applyGravityStep_idempotent_on_settled (egState 4 3) 12 3 rfl
    (by decide) (by decide) (by decide)

/-! ### Well-formedness and unmarkedness preservation -/

/-- The empty cell is not marked. -/
theorem emptyCell_not_starred : ¬ starred emptyCell := by decide

/-- Writing an unmarked value keeps the field unmarked. -/
theorem unmarked_setCellN (rows cols : Nat) (f : Field) (r c : Nat) (v : Cell)
    (hwf : wellFormed rows cols f) (hum : unmarked rows cols f)
    (hv : ¬ starred v) : unmarked rows cols (setCellN f r c v) := by
  obtain ⟨hlen, hrows⟩ := hwf
  intro r' hr' c' hc'
  by_cases he : r = r' ∧ c = c'
  · obtain ⟨rfl, rfl⟩ := he
    have hrow : (f.getD r []).length = cols := by
      refine hrows _ ?_
      have hr0 : r < f.length := by omega
      rw [List.getD_eq_getElem?_getD, List.getElem?_eq_getElem hr0,
        Option.getD_some]
      exact List.getElem_mem hr0
    rw [getCellN_setCellN_self f r c v (by omega) (by omega)]
    exact hv
  · rw [getCellN_setCellN_ne f r c r' c' v (by tauto)]
    exact hum r' hr' c' hc'

/-- `removeStep` preserves well-formedness. -/
theorem removeStep_wf (rows cols : Nat) (fb : Field × Bool) (rc : Nat × Nat)
    (h : wellFormed rows cols fb.1) : wellFormed rows cols (removeStep fb rc).1 := by
  simp only [removeStep]
  split
  · exact wellFormed_setCellN rows cols _ _ _ _ h
  · exact h

/-- `markStep` preserves well-formedness. -/
theorem markStep_wf (rows cols : Nat) (fb : Field × Bool) (p : Int × Int)
    (h : wellFormed rows cols fb.1) : wellFormed rows cols (markStep fb p).1 := by
  simp only [markStep]
  split
  · exact wellFormed_setCellN rows cols _ _ _ _ h
  · exact h

/-- `fieldGravityStep` preserves well-formedness. -/
theorem fieldGravityStep_wf (rows cols : Nat) (fb : Field × Bool) (rc : Nat × Nat)
    (h : wellFormed rows cols fb.1) :
    wellFormed rows cols (fieldGravityStep rows cols fb rc).1 := by
  simp only [fieldGravityStep]
  split
  · exact h
  · split
    · exact h
    · split
      · split
        · split
          · exact wellFormed_setCellN rows cols _ _ _ _
              (wellFormed_setCellN rows cols _ _ _ _
                (wellFormed_setCellN rows cols _ _ _ _
                  (wellFormed_setCellN rows cols _ _ _ _ h)))
          · exact wellFormed_setCellN rows cols _ _ _ _
              (wellFormed_setCellN rows cols _ _ _ _ h)
        · exact wellFormed_setCellN rows cols _ _ _ _
            (wellFormed_setCellN rows cols _ _ _ _ h)
      · exact h

/-- `processMatchStep` preserves well-formedness. -/
theorem processMatchStep_wf (rows cols : Nat) (fb : Field × Bool) (rc : Nat × Nat)
    (h : wellFormed rows cols fb.1) :
    wellFormed rows cols (processMatchStep rows cols fb rc).1 := by
  simp only [processMatchStep]
  split
  · split
    · exact foldl_hold markStep (fun x => wellFormed rows cols x.1) _
        (fun b a _ hb => markStep_wf rows cols b a hb) fb h
    · exact h
  · exact h

/-- `removeMarked` preserves well-formedness. -/
theorem removeMarked_wf (rows cols : Nat) (f : Field) (h : wellFormed rows cols f) :
    wellFormed rows cols (removeMarked rows cols f).1 :=
  foldl_hold removeStep (fun x => wellFormed rows cols x.1) _
    (fun b a _ hb => removeStep_wf rows cols b a hb) (f, false) h

/-- `_apply_field_gravity` preserves well-formedness. -/
theorem applyFieldGravity_wf (rows cols : Nat) (f : Field)
    (h : wellFormed rows cols f) :
    wellFormed rows cols (_apply_field_gravity rows cols f).1 :=
  foldl_hold (fieldGravityStep rows cols) (fun x => wellFormed rows cols x.1) _
    (fun b a _ hb => fieldGravityStep_wf rows cols b a hb) (f, false) h

/-- `_process_matches` preserves well-formedness. -/
theorem processMatches_wf (rows cols : Nat) (f : Field)
    (h : wellFormed rows cols f) :
    wellFormed rows cols (_process_matches rows cols f).1 :=
  foldl_hold (processMatchStep rows cols) (fun x => wellFormed rows cols x.1) _
    (fun b a _ hb => processMatchStep_wf rows cols b a hb) (f, false) h

/-- A gravity step on an unmarked, well-formed field yields an unmarked,
well-formed field: everything it writes is either a copy of an existing
(hence unmarked) cell or the empty cell. -/
theorem fieldGravityStep_unmarked (rows cols : Nat) (fb : Field × Bool)
    (rc : Nat × Nat) (hrc : rc.1 < rows - 1 ∧ rc.2 < cols)
    (h : wellFormed rows cols fb.1 ∧ unmarked rows cols fb.1) :
    wellFormed rows cols (fieldGravityStep rows cols fb rc).1 ∧
    unmarked rows cols (fieldGravityStep rows cols fb rc).1 := by
  obtain ⟨hwf, hum⟩ := h
  refine ⟨fieldGravityStep_wf rows cols fb rc hwf, ?_⟩
  simp only [fieldGravityStep]
  split
  · exact hum
  · split
    · exact hum
    · split
      · rename_i hskip hskip2 hfall
        have hcell : ¬ starred (getCellN fb.1 rc.1 rc.2) := (not_or.mp hskip).2
        have s1wf : wellFormed rows cols
            (setCellN fb.1 (findDrop fb.1 rows rc.2 (rc.1 + 1)) rc.2
              (getCellN fb.1 rc.1 rc.2)) :=
          wellFormed_setCellN _ _ _ _ _ _ hwf
        have s1um : unmarked rows cols
            (setCellN fb.1 (findDrop fb.1 rows rc.2 (rc.1 + 1)) rc.2
              (getCellN fb.1 rc.1 rc.2)) :=
          unmarked_setCellN _ _ _ _ _ _ hwf hum hcell
        have s2wf : wellFormed rows cols
            (setCellN (setCellN fb.1 (findDrop fb.1 rows rc.2 (rc.1 + 1)) rc.2
              (getCellN fb.1 rc.1 rc.2)) rc.1 rc.2 emptyCell) :=
          wellFormed_setCellN _ _ _ _ _ _ s1wf
        have s2um : unmarked rows cols
            (setCellN (setCellN fb.1 (findDrop fb.1 rows rc.2 (rc.1 + 1)) rc.2
              (getCellN fb.1 rc.1 rc.2)) rc.1 rc.2 emptyCell) :=
          unmarked_setCellN _ _ _ _ _ _ s1wf s1um emptyCell_not_starred
        split
        · split
          · rename_i hother
            refine unmarked_setCellN _ _ _ _ _ _ ?_ ?_ emptyCell_not_starred
            · exact wellFormed_setCellN _ _ _ _ _ _ s2wf
            · refine unmarked_setCellN _ _ _ _ _ _ s2wf s2um ?_
              exact s2um rc.1 (by omega) (rc.2 + 1) hother.1
          · exact s2um
        · exact s2um
      · exact hum

/-- `_apply_field_gravity` keeps an unmarked field unmarked. -/
theorem applyFieldGravity_unmarked (rows cols : Nat) (f : Field)
    (hwf : wellFormed rows cols f) (hum : unmarked rows cols f) :
    unmarked rows cols (_apply_field_gravity rows cols f).1 :=
  (foldl_hold (fieldGravityStep rows cols)
    (fun x => wellFormed rows cols x.1 ∧ unmarked rows cols x.1) _
    (fun b a ha hb => fieldGravityStep_unmarked rows cols b a
      (by obtain ⟨a1, a2⟩ := a; exact (mem_gravityPositions rows cols a1 a2).mp ha) hb)
    (f, false) ⟨hwf, hum⟩).2

/-- Pointwise description of the mark-removal fold: a position covered by the
scan ends empty when it was marked and untouched otherwise; positions outside
the scanned list are untouched. -/
theorem removeFold_getCell (rows cols : Nat) :
    ∀ (l : List (Nat × Nat)) (fb : Field × Bool),
    wellFormed rows cols fb.1 → (∀ p ∈ l, p.1 < rows ∧ p.2 < cols) →
    ∀ r c : Nat, r < rows → c < cols →
    ((r, c) ∈ l → getCellN (l.foldl removeStep fb).1 r c =
      (if starred (getCellN fb.1 r c) then emptyCell else getCellN fb.1 r c)) ∧
    ((r, c) ∉ l → getCellN (l.foldl removeStep fb).1 r c = getCellN fb.1 r c) := by
  intro l
  induction l with
  | nil =>
    intro fb _ _ r c _ _
    exact ⟨fun h => absurd h (by simp), fun _ => rfl⟩
  | cons a l ih =>
    intro fb hwf hl r c hr hc
    have hwf' : wellFormed rows cols (removeStep fb a).1 :=
      removeStep_wf rows cols fb a hwf
    have hl' : ∀ p ∈ l, p.1 < rows ∧ p.2 < cols := fun p hp => hl p (by simp [hp])
    have ihs := ih (removeStep fb a) hwf' hl' r c hr hc
    constructor
    · intro hmem
      by_cases ha : a = (r, c)
      · subst ha
        have hrowlen : (fb.1.getD r []).length = cols := by
          refine hwf.2 _ ?_
          have hr0 : r < fb.1.length := by rw [hwf.1]; exact hr
          rw [List.getD_eq_getElem?_getD, List.getElem?_eq_getElem hr0,
            Option.getD_some]
          exact List.getElem_mem hr0
        have hstep : getCellN (removeStep fb (r, c)).1 r c =
            (if starred (getCellN fb.1 r c) then emptyCell else getCellN fb.1 r c) := by
          simp only [removeStep]
          split
          · exact getCellN_setCellN_self fb.1 r c emptyCell
              (by rw [hwf.1]; exact hr) (by rw [hrowlen]; exact hc)
          · rfl
        by_cases hmem2 : (r, c) ∈ l
        · rw [List.foldl_cons, (ihs.1 hmem2), hstep]
          by_cases hst : starred (getCellN fb.1 r c)
          · simp [hst, emptyCell_not_starred]
          · simp [hst]
        · rw [List.foldl_cons, (ihs.2 hmem2), hstep]
      · have hmem2 : (r, c) ∈ l := by
          rcases List.mem_cons.mp hmem with h | h
          · exact absurd h.symm ha
          · exact h
        have hne : getCellN (removeStep fb a).1 r c = getCellN fb.1 r c := by
          simp only [removeStep]
          split
          · refine getCellN_setCellN_ne fb.1 a.1 a.2 r c emptyCell ?_
            obtain ⟨a1, a2⟩ := a
            simp only [ne_eq, Prod.mk.injEq] at ha
            exact not_and_or.mp ha
          · rfl
        rw [List.foldl_cons, ihs.1 hmem2, hne]
    · intro hmem
      have ha : a ≠ (r, c) := fun h => hmem (by simp [h])
      have hmem2 : (r, c) ∉ l := fun h => hmem (by simp [h])
      have hne : getCellN (removeStep fb a).1 r c = getCellN fb.1 r c := by
        simp only [removeStep]
        split
        · refine getCellN_setCellN_ne fb.1 a.1 a.2 r c emptyCell ?_
          obtain ⟨a1, a2⟩ := a
          simp only [ne_eq, Prod.mk.injEq] at ha
          exact not_and_or.mp ha
        · rfl
      rw [List.foldl_cons, ihs.2 hmem2, hne]

/-- The mark-removal loop empties exactly the marked cells. -/
theorem removeMarked_getCell (rows cols : Nat) (f : Field)
    (hwf : wellFormed rows cols f) (r c : Nat) (hr : r < rows) (hc : c < cols) :
    getCellN (removeMarked rows cols f).1 r c =
      (if starred (getCellN f r c) then emptyCell else getCellN f r c) := by
  refine (removeFold_getCell rows cols (allPositions rows cols) (f, false) hwf
    ?_ r c hr hc).1 ((mem_allPositions rows cols r c).mpr ⟨hr, hc⟩)
  rintro ⟨p1, p2⟩ hp
  exact (mem_allPositions rows cols p1 p2).mp hp

/-- The mark-removal loop leaves no marked cell behind. -/
theorem removeMarked_result_unmarked (rows cols : Nat) (f : Field)
    (hwf : wellFormed rows cols f) :
    unmarked rows cols (removeMarked rows cols f).1 := by
  intro r hr c hc
  rw [removeMarked_getCell rows cols f hwf r c hr hc]
  split
  · exact emptyCell_not_starred
  · rename_i hst
    exact hst

/-- A cascade iteration whose continue flag is unset took the `break` branch:
the resulting field is the post-match field, and no match was found there. -/
theorem cascadeStep_break (rows cols : Nat) (f : Field)
    (h : (cascadeStep rows cols f).2 = false) :
    (cascadeStep rows cols f).1 =
      (_process_matches rows cols
        (_apply_field_gravity rows cols (removeMarked rows cols f).1).1).1 ∧
    (_process_matches rows cols
      (_apply_field_gravity rows cols (removeMarked rows cols f).1).1).2 = false := by
  simp only [cascadeStep] at h ⊢
  split at h
  · cases h
  · split at h
    · cases h
    · rename_i h1 h2
      rw [if_neg h1, if_neg h2]
      constructor
      · rfl
      · cases hpm : (_process_matches rows cols
          (_apply_field_gravity rows cols (removeMarked rows cols f).1).1).2
        · rfl
        · exact absurd hpm h1

/-- The cascade step preserves well-formedness. -/
theorem cascadeStep_wf (rows cols : Nat) (f : Field) (h : wellFormed rows cols f) :
    wellFormed rows cols (cascadeStep rows cols f).1 := by
  simp only [cascadeStep]
  split
  · exact applyFieldGravity_wf rows cols _
      (removeMarked_wf rows cols _
        (processMatches_wf rows cols _
          (applyFieldGravity_wf rows cols _ (removeMarked_wf rows cols f h))))
  · split
    · exact processMatches_wf rows cols _
        (applyFieldGravity_wf rows cols _ (removeMarked_wf rows cols f h))
    · exact processMatches_wf rows cols _
        (applyFieldGravity_wf rows cols _ (removeMarked_wf rows cols f h))

/-- When the cascade loop exits through its `break`, the resulting field
holds no marked cell (and stays well-formed). -/
theorem cascadeLoop_exit_unmarked (rows cols : Nat) :
    ∀ (fuel : Nat) (f : Field), wellFormed rows cols f →
    (cascadeLoop rows cols f fuel).2 = true →
    unmarked rows cols (cascadeLoop rows cols f fuel).1 ∧
    wellFormed rows cols (cascadeLoop rows cols f fuel).1 := by
  intro fuel
  induction fuel with
  | zero => intro f _ hexit; cases hexit
  | succ n ih =>
    intro f hwf hexit
    unfold cascadeLoop at hexit ⊢
    by_cases hst : (cascadeStep rows cols f).2 = true
    · rw [if_pos hst] at hexit ⊢
      exact ih _ (cascadeStep_wf rows cols f hwf) hexit
    · rw [if_neg hst]
      have hst' : (cascadeStep rows cols f).2 = false := by
        cases h2 : (cascadeStep rows cols f).2
        · rfl
        · exact absurd h2 hst
      obtain ⟨heq, hnm⟩ := cascadeStep_break rows cols f hst'
      have hum : unmarked rows cols (cascadeStep rows cols f).1 := by
        rw [heq, processMatches_false_fixed rows cols _ hnm]
        exact applyFieldGravity_unmarked rows cols _
          (removeMarked_wf rows cols f hwf)
          (removeMarked_result_unmarked rows cols f hwf)
      exact ⟨hum, cascadeStep_wf rows cols f hwf⟩

/-- `create_faller` never touches the field. -/
theorem create_faller_field (s : GameState) (c1 c2 : Char) :
    (create_faller s c1 c2).1.field = s.field := by
  simp only [create_faller]
  split_ifs <;> rfl

/-- `move_faller` never touches the field. -/
theorem move_faller_field (s : GameState) (d : String) :
    (move_faller s d).field = s.field := by
  rcases move_faller_shape s d with h | ⟨fl, segs, o, _, h⟩ <;> rw [h] <;> rfl

/-- `rotate_faller` never touches the field. -/
theorem rotate_faller_field (s : GameState) (d : String) :
    (rotate_faller s d).field = s.field := by
  rcases rotate_faller_shape s d with h | ⟨fl, segs, o, _, h⟩ <;> rw [h] <;> rfl

/-- `fallerPhase` preserves the dimensions. -/
theorem fallerPhase_dims (s : GameState) :
    (fallerPhase s).rows = s.rows ∧ (fallerPhase s).cols = s.cols := by
  cases hf : s.faller with
  | none => rw [fallerPhase_none s hf]; exact ⟨rfl, rfl⟩
  | some fl =>
    simp only [fallerPhase, hf]
    split
    · exact ⟨rfl, rfl⟩
    · split <;> exact ⟨rfl, rfl⟩

/-- `setCell` preserves well-formedness (the `Int` wrapper of `setCellN`). -/
theorem wellFormed_setCell (rows cols : Nat) (f : Field) (r c : Int) (v : Cell)
    (h : wellFormed rows cols f) : wellFormed rows cols (setCell f r c v) :=
  wellFormed_setCellN rows cols f r.toNat c.toNat v h

/-- Burning the faller preserves well-formedness. -/
theorem burnFaller_wf (rows cols : Nat) (f : Field) (fl : Faller)
    (h : wellFormed rows cols f) : wellFormed rows cols (burnFaller f fl) := by
  simp only [burnFaller, burnSeg]
  split_ifs <;>
    exact wellFormed_setCell rows cols _ _ _ _ (wellFormed_setCell rows cols _ _ _ _ h)

/-- The faller phase preserves well-formedness of the field. -/
theorem fallerPhase_wf (s : GameState) (h : wellFormed s.rows s.cols s.field) :
    wellFormed s.rows s.cols (fallerPhase s).field := by
  cases hf : s.faller with
  | none => rw [fallerPhase_none s hf]; exact h
  | some fl =>
    simp only [fallerPhase, hf]
    split
    · exact h
    · split
      · exact h
      · exact burnFaller_wf s.rows s.cols s.field fl h

/-- **C10** (confirmed).  Provided the state carries no marked cell, no
engine operation leaves one at the API boundary: whenever the cascade loop of
`apply_gravity` reaches its `break` within the given fuel, the resulting
field is unmarked (every marked cell produced during match resolution was
cleared before returning); a game-over `apply_gravity` call, `create_faller`,
`move_faller` and `rotate_faller` leave the field untouched; and a successful
`add_virus` writes an unmarked cell. -/
theorem no_marked_cells_at_api (s : GameState) (fuel : Nat)
    (hwf : wellFormed s.rows s.cols s.field)
    (hum : unmarked s.rows s.cols s.field) :
    (s.gameOver = false →
      (cascadeLoop (fallerPhase s).rows (fallerPhase s).cols
        (fallerPhase s).field fuel).2 = true →
      unmarked s.rows s.cols (apply_gravity s fuel).field) ∧
    (s.gameOver = true → apply_gravity s fuel = s) ∧
    (∀ c1 c2, (create_faller s c1 c2).1.field = s.field) ∧
    (∀ d, (move_faller s d).field = s.field) ∧
    (∀ d, (rotate_faller s d).field = s.field) ∧
    (∀ r c col t, add_virus s r c col = Except.ok t →
      unmarked s.rows s.cols t.field) := by
  refine ⟨?_, ?_, create_faller_field s, move_faller_field s,
    rotate_faller_field s, ?_⟩
  · intro hgo hexit
    have hdims := fallerPhase_dims s
    have hwf1 : wellFormed (fallerPhase s).rows (fallerPhase s).cols
        (fallerPhase s).field := by
      rw [hdims.1, hdims.2]
      exact fallerPhase_wf s hwf
    have hres := cascadeLoop_exit_unmarked (fallerPhase s).rows
      (fallerPhase s).cols fuel (fallerPhase s).field hwf1 hexit
    have hfield : (apply_gravity s fuel).field =
        (cascadeLoop (fallerPhase s).rows (fallerPhase s).cols
          (fallerPhase s).field fuel).1 := by
      unfold apply_gravity
      rw [if_neg (by rw [hgo]; simp)]
    rw [hfield, ← hdims.1, ← hdims.2]
    exact hres.1
  · intro hgo
    unfold apply_gravity
    rw [if_pos hgo]
  · intro r c col t h
    simp only [add_virus] at h
    split_ifs at h with h1 h2 h3
    injection h with h4
    subst h4
    have hstar : ¬ starred [col.toUpper] := by
      intro hs
      have : col.toUpper = '*' := by
        simpa [starred] using hs
      rw [this] at h3
      simp at h3
    exact unmarked_setCellN s.rows s.cols s.field r.toNat c.toNat [col.toUpper]
      hwf hum hstar

set_option maxRecDepth 8000 in
/-- Witness for `no_marked_cells_at_api`: the 4×3 state `c2s` with fuel 12:
its landed faller cascades without leaving marks, and the other operations
leave the field untouched. -/
theorem no_marked_cells_at_api_witness :
    unmarked c2s.rows c2s.cols (apply_gravity c2s 12).field ∧
    (create_faller c2s 'R' 'B').1.field = c2s.field ∧
    (move_faller c2s ">").field = c2s.field ∧
    (rotate_faller c2s "A").field = c2s.field :=
  ⟨(no_marked_cells_at_api c2s 12 (by decide) (by decide)).1 rfl (by decide),
   (no_marked_cells_at_api c2s 12 (by decide) (by decide)).2.2.1 'R' 'B',
   (no_marked_cells_at_api c2s 12 (by decide) (by decide)).2.2.2.1 ">",
   (no_marked_cells_at_api c2s 12 (by decide) (by decide)).2.2.2.2.1 "A"⟩

/-! ### Pointwise behaviour of match marking (for the run-marking theorem) -/

/-- A marked cell always starts with `'*'`. -/
theorem markCell_starred (cell : Cell) : starred (markCell cell) := by
  unfold markCell starred
  split <;> rfl

/-- Marking a plain single-character cell just prefixes the star. -/
theorem markCell_single (x : Char) : markCell [x] = ['*', x] := by
  simp [markCell]

/-- Marking strips a horizontal `'L'`/`'R'` tag, keeping the color. -/
theorem markCell_tagged (t x : Char) (ht : t = 'L' ∨ t = 'R') :
    markCell [t, x] = ['*', x] := by
  unfold markCell
  rw [if_pos ⟨by simp, by simpa using ht⟩]
  rfl

/-- Writing to a position that is out of range leaves every cell unchanged. -/
theorem getCellN_setCellN_oob (f : Field) (r c : Nat) (v : Cell)
    (h : ¬ (r < f.length ∧ c < (f.getD r []).length)) :
    ∀ r' c', getCellN (setCellN f r c v) r' c' = getCellN f r' c' := by
  intro r' c'
  by_cases he : r = r' ∧ c = c'
  · obtain ⟨rfl, rfl⟩ := he
    by_cases hr : r < f.length
    · have hc : ¬ c < (f.getD r []).length := fun hcc => h ⟨hr, hcc⟩
      unfold getCellN setCellN
      simp only [List.getD_eq_getElem?_getD]
      rw [List.getElem?_set, if_pos rfl, if_pos hr]
      simp only [Option.getD_some]
      rw [List.getElem?_set, if_pos rfl, if_neg ?_]
      · have hrow : (f.getD r [])[c]? = none := by
          rw [List.getElem?_eq_none_iff]
          omega
        rw [List.getD_eq_getElem?_getD] at hrow
        simp [hrow]
      · intro hcc
        apply hc
        rw [List.getD_eq_getElem?_getD]
        exact hcc
    · unfold setCellN
      rw [List.set_eq_of_length_le (by omega)]
  · exact getCellN_setCellN_ne f r c r' c' v (by tauto)

/-- Whatever `markStep` does to a position: it either leaves the cell alone
or replaces a previously unmarked cell by its marked version. -/
theorem markStep_pointwise (fb : Field × Bool) (p : Int × Int) (r c : Nat) :
    getCellN (markStep fb p).1 r c = getCellN fb.1 r c ∨
    (¬ starred (getCellN fb.1 r c) ∧
     getCellN (markStep fb p).1 r c = markCell (getCellN fb.1 r c)) := by
  simp only [markStep]
  split
  · rename_i hst
    by_cases hpos : p.1.toNat = r ∧ p.2.toNat = c
    · obtain ⟨h1, h2⟩ := hpos
      have hcv : getCell fb.1 p.1 p.2 = getCellN fb.1 r c := by
        unfold getCell
        rw [h1, h2]
      by_cases hin : r < fb.1.length ∧ c < (fb.1.getD r []).length
      · right
        refine ⟨by rw [← hcv]; exact hst, ?_⟩
        unfold setCell
        rw [h1, h2, getCellN_setCellN_self fb.1 r c _ hin.1 hin.2, hcv]
      · left
        unfold setCell
        rw [h1, h2]
        exact getCellN_setCellN_oob fb.1 r c _ hin r c
    · left
      unfold setCell
      exact getCellN_setCellN_ne fb.1 p.1.toNat p.2.toNat r c _ (not_and_or.mp hpos)
  · left; rfl

/-- `markStep` never removes a star. -/
theorem markStep_preserves_star (fb : Field × Bool) (p : Int × Int) (r c : Nat)
    (h : starred (getCellN fb.1 r c)) : starred (getCellN (markStep fb p).1 r c) := by
  rcases markStep_pointwise fb p r c with heq | ⟨hns, _⟩
  · rw [heq]; exact h
  · exact absurd h hns

/-- The whole inner marking fold never removes a star. -/
theorem markFold_preserves_star (l : List (Int × Int)) (fb : Field × Bool)
    (r c : Nat) (h : starred (getCellN fb.1 r c)) :
    starred (getCellN (l.foldl markStep fb).1 r c) := by
  induction l generalizing fb with
  | nil => exact h
  | cons q l ih =>
    rw [List.foldl_cons]
    exact ih (markStep fb q) (markStep_preserves_star fb q r c h)

/-- The inner marking fold either keeps a cell or marks a previously
unmarked cell. -/
theorem markFold_pointwise (l : List (Int × Int)) (fb : Field × Bool) (r c : Nat) :
    getCellN (l.foldl markStep fb).1 r c = getCellN fb.1 r c ∨
    (¬ starred (getCellN fb.1 r c) ∧
     getCellN (l.foldl markStep fb).1 r c = markCell (getCellN fb.1 r c)) := by
  induction l generalizing fb with
  | nil => left; rfl
  | cons q l ih =>
    rw [List.foldl_cons]
    rcases markStep_pointwise fb q r c with heq | ⟨hns, heq⟩
    · rcases ih (markStep fb q) with h2 | ⟨hns2, h2⟩
      · left; rw [h2, heq]
      · right
        rw [heq] at hns2 h2
        exact ⟨hns2, h2⟩
    · rcases ih (markStep fb q) with h2 | ⟨hns2, h2⟩
      · right; rw [h2, heq]; exact ⟨hns, rfl⟩
      · rw [heq] at hns2
        exact absurd (markCell_starred _) hns2

/-- The outer match-processing step either keeps a cell or marks a
previously unmarked cell. -/
theorem processMatchStep_pointwise (rows cols : Nat) (fb : Field × Bool)
    (rc : Nat × Nat) (r c : Nat) :
    getCellN (processMatchStep rows cols fb rc).1 r c = getCellN fb.1 r c ∨
    (¬ starred (getCellN fb.1 r c) ∧
     getCellN (processMatchStep rows cols fb rc).1 r c =
       markCell (getCellN fb.1 r c)) := by
  simp only [processMatchStep]
  split
  · split
    · exact markFold_pointwise _ fb r c
    · left; rfl
  · left; rfl

/-- The outer match-processing step never removes a star. -/
theorem processMatchStep_preserves_star (rows cols : Nat) (fb : Field × Bool)
    (rc : Nat × Nat) (r c : Nat) (h : starred (getCellN fb.1 r c)) :
    starred (getCellN (processMatchStep rows cols fb rc).1 r c) := by
  rcases processMatchStep_pointwise rows cols fb rc r c with heq | ⟨hns, _⟩
  · rw [heq]; exact h
  · exact absurd h hns

/-- Unfolding one accepted scan step. -/
theorem scanDir_cons (rows cols : Nat) (f : Field) (color : Cell) (dr dc : Int)
    (r c : Int) (m : Nat) (hin : inBounds rows cols r c)
    (hcell : getCell f r c ≠ emptyCell ∧ baseColor (getCell f r c) = color) :
    scanDir rows cols f color dr dc r c (m + 1) =
      (r, c) :: scanDir rows cols f color dr dc (r + dr) (c + dc) m := by
  simp only [scanDir]
  rw [if_pos hin, if_pos hcell]

/-- Every position produced by a scan is in bounds. -/
theorem scanDir_bounds (rows cols : Nat) (f : Field) (color : Cell) (dr dc : Int) :
    ∀ (fuel : Nat) (r c : Int) (p : Int × Int),
      p ∈ scanDir rows cols f color dr dc r c fuel → inBounds rows cols p.1 p.2 := by
  intro fuel
  induction fuel with
  | zero => intro r c p hp; cases hp
  | succ m ih =>
    intro r c p hp
    simp only [scanDir] at hp
    split at hp
    · split at hp
      · rcases List.mem_cons.mp hp with rfl | hp2
        · assumption
        · exact ih _ _ p hp2
      · cases hp
    · cases hp

/-- Every position of a direction candidate is in bounds, provided the
origin is. -/
theorem checkMatchDir_bounds (rows cols : Nat) (f : Field) (color : Cell)
    (r c dr dc : Int) (h0 : inBounds rows cols r c) (p : Int × Int)
    (hp : p ∈ checkMatchDir rows cols f color r c dr dc) :
    inBounds rows cols p.1 p.2 := by
  unfold checkMatchDir at hp
  rcases List.mem_append.mp hp with h | h
  · exact scanDir_bounds rows cols f color (-dr) (-dc) _ _ _ p (List.mem_reverse.mp h)
  · rcases List.mem_cons.mp h with rfl | h2
    · exact h0
    · exact scanDir_bounds rows cols f color dr dc _ _ _ p h2

/-- The origin belongs to every direction candidate. -/
theorem mem_checkMatchDir (rows cols : Nat) (f : Field) (color : Cell)
    (r c dr dc : Int) : (r, c) ∈ checkMatchDir rows cols f color r c dr dc := by
  unfold checkMatchDir
  simp

/-- Once the direction fold holds a qualifying candidate, the result is a
qualifying candidate: length at least 3, containing the origin, in bounds. -/
theorem checkMatchFold_invariant (rows cols : Nat) (f : Field) (color : Cell)
    (r c : Int) (h0 : inBounds rows cols r c) :
    ∀ (dirs : List (Int × Int)) (best : List (Int × Int)),
    3 ≤ best.length → (r, c) ∈ best →
    (∀ p ∈ best, inBounds rows cols p.1 p.2) →
    3 ≤ (dirs.foldl (fun best d =>
        if 3 ≤ (checkMatchDir rows cols f color r c d.1 d.2).length ∧
            best.length < (checkMatchDir rows cols f color r c d.1 d.2).length then
          checkMatchDir rows cols f color r c d.1 d.2
        else best) best).length ∧
    (r, c) ∈ (dirs.foldl (fun best d =>
        if 3 ≤ (checkMatchDir rows cols f color r c d.1 d.2).length ∧
            best.length < (checkMatchDir rows cols f color r c d.1 d.2).length then
          checkMatchDir rows cols f color r c d.1 d.2
        else best) best) ∧
    (∀ p ∈ (dirs.foldl (fun best d =>
        if 3 ≤ (checkMatchDir rows cols f color r c d.1 d.2).length ∧
            best.length < (checkMatchDir rows cols f color r c d.1 d.2).length then
          checkMatchDir rows cols f color r c d.1 d.2
        else best) best), inBounds rows cols p.1 p.2) := by
  intro dirs
  induction dirs with
  | nil => intro best h1 h2 h3; exact ⟨h1, h2, h3⟩
  | cons d dirs ih =>
    intro best h1 h2 h3
    rw [List.foldl_cons]
    by_cases hrep : 3 ≤ (checkMatchDir rows cols f color r c d.1 d.2).length ∧
        best.length < (checkMatchDir rows cols f color r c d.1 d.2).length
    · rw [if_pos hrep]
      exact ih _ hrep.1 (mem_checkMatchDir rows cols f color r c d.1 d.2)
        (checkMatchDir_bounds rows cols f color r c d.1 d.2 h0)
    · rw [if_neg hrep]
      exact ih best h1 h2 h3

/-- `getCell` at natural-number coordinates. -/
theorem getCell_natCast (f : Field) (a b : Nat) :
    getCell f (a : Int) (b : Int) = getCellN f a b := by
  simp [getCell]

/-- A run cell — plain `[x]` or marked `['*', x]` with a valid color `x` —
passes the scan's acceptance test for color `[x]`. -/
theorem run_cell_accepts (x : Char) (hx : x ∈ (['R', 'B', 'Y'] : List Char))
    (cell : Cell) (hcell : cell = [x] ∨ cell = ['*', x]) :
    cell ≠ emptyCell ∧ baseColor cell = [x] := by
  simp only [List.mem_cons, List.not_mem_nil, or_false] at hx
  rcases hx with rfl | rfl | rfl <;> rcases hcell with rfl | rfl <;> decide

/-- If the first `k` positions along the scan direction are all accepted,
the scan returns at least `k` positions. -/
theorem scanDir_min_length (rows cols : Nat) (f : Field) (color : Cell)
    (dr dc : Int) :
    ∀ (k : Nat) (r c : Int) (fuel : Nat), k ≤ fuel →
    (∀ j : Nat, j < k → inBounds rows cols (r + j * dr) (c + j * dc) ∧
       getCell f (r + j * dr) (c + j * dc) ≠ emptyCell ∧
       baseColor (getCell f (r + j * dr) (c + j * dc)) = color) →
    k ≤ (scanDir rows cols f color dr dc r c fuel).length := by
  intro k
  induction k with
  | zero => intro r c fuel _ _; omega
  | succ k ih =>
    intro r c fuel hfuel hacc
    obtain ⟨m, rfl⟩ : ∃ m, fuel = m + 1 := ⟨fuel - 1, by omega⟩
    have h0 := hacc 0 (by omega)
    rw [show (r + (0 : Nat) * dr : Int) = r by push_cast; ring,
      show (c + (0 : Nat) * dc : Int) = c by push_cast; ring] at h0
    rw [scanDir_cons rows cols f color dr dc r c m h0.1 ⟨h0.2.1, h0.2.2⟩]
    rw [List.length_cons]
    have hshift : ∀ j : Nat, j < k →
        inBounds rows cols ((r + dr) + j * dr) ((c + dc) + j * dc) ∧
        getCell f ((r + dr) + j * dr) ((c + dc) + j * dc) ≠ emptyCell ∧
        baseColor (getCell f ((r + dr) + j * dr) ((c + dc) + j * dc)) = color := by
      intro j hj
      have := hacc (j + 1) (by omega)
      rw [show (r + ((j : Nat) + 1 : Nat) * dr : Int) = (r + dr) + j * dr by
            push_cast; ring,
          show (c + ((j : Nat) + 1 : Nat) * dc : Int) = (c + dc) + j * dc by
            push_cast; ring] at this
      exact this
    have := ih (r + dr) (c + dc) m (by omega) hshift
    omega

/-- Length of a direction candidate in terms of its two scans. -/
theorem checkMatchDir_length (rows cols : Nat) (f : Field) (color : Cell)
    (r c dr dc : Int) :
    (checkMatchDir rows cols f color r c dr dc).length =
      (scanDir rows cols f color (-dr) (-dc) (r - dr) (c - dc) (rows + cols)).length
      + 1 +
      (scanDir rows cols f color dr dc (r + dr) (c + dc) (rows + cols)).length := by
  unfold checkMatchDir
  simp [List.length_append]
  omega

/-- Rows of a well-formed field have length `cols`. -/
theorem row_length (rows cols : Nat) (f : Field) (hwf : wellFormed rows cols f)
    (r : Nat) (hr : r < rows) : (f.getD r []).length = cols := by
  refine hwf.2 _ ?_
  have hr0 : r < f.length := by rw [hwf.1]; exact hr
  rw [List.getD_eq_getElem?_getD, List.getElem?_eq_getElem hr0, Option.getD_some]
  exact List.getElem_mem hr0

/-- An unstarred cell is its own base color. -/
theorem baseColor_of_not_starred (cell : Cell) (h : ¬ starred cell) :
    baseColor cell = cell := by
  unfold baseColor
  rw [if_neg h]

/-- After the inner marking fold, every listed in-bounds position is
starred. -/
theorem markFold_stars_mem (rows cols : Nat) :
    ∀ (l : List (Int × Int)) (fb : Field × Bool),
    wellFormed rows cols fb.1 →
    (∀ q ∈ l, inBounds rows cols q.1 q.2) →
    ∀ p ∈ l, starred (getCellN (l.foldl markStep fb).1 p.1.toNat p.2.toNat) := by
  intro l
  induction l with
  | nil => intro fb _ _ p hp; cases hp
  | cons q l ih =>
    intro fb hwf hl p hp
    rw [List.foldl_cons]
    rcases List.mem_cons.mp hp with rfl | hp2
    · have hq := hl p (by simp)
      have hstar : starred (getCellN (markStep fb p).1 p.1.toNat p.2.toNat) := by
        simp only [markStep]
        split
        · rename_i hns
          have hr : p.1.toNat < fb.1.length := by
            rw [hwf.1]
            obtain ⟨hq1, hq2, _, _⟩ := hq
            omega
          have hc : p.2.toNat < (fb.1.getD p.1.toNat []).length := by
            rw [row_length rows cols fb.1 hwf p.1.toNat (by rw [← hwf.1]; exact hr)]
            obtain ⟨_, _, hq3, hq4⟩ := hq
            omega
          unfold setCell
          rw [getCellN_setCellN_self fb.1 p.1.toNat p.2.toNat _ hr hc]
          exact markCell_starred _
        · rename_i hns
          rw [not_not] at hns
          exact hns
      exact markFold_preserves_star l (markStep fb p) p.1.toNat p.2.toNat hstar
    · exact ih (markStep fb q) (markStep_wf rows cols fb q hwf)
        (fun q' hq' => hl q' (by simp [hq'])) p hp2

/-- When the first-axis candidate of `_check_match` has length at least 3,
the overall result qualifies: length at least 3, contains the origin, and
all its positions are in bounds. -/
theorem check_match_qualifies (rows cols : Nat) (g : Field) (r c : Nat)
    (hr : r < rows) (hc : c < cols)
    (hne : getCellN g r c ≠ emptyCell)
    (hdir1 : 3 ≤ (checkMatchDir rows cols g (baseColor (getCellN g r c))
      (r : Int) (c : Int) 0 1).length) :
    3 ≤ (_check_match rows cols g r c).length ∧
    ((r : Int), (c : Int)) ∈ _check_match rows cols g r c ∧
    ∀ p ∈ _check_match rows cols g r c, inBounds rows cols p.1 p.2 := by
  have hb0 : inBounds rows cols (r : Int) (c : Int) := by
    unfold inBounds
    omega
  simp only [_check_match]
  rw [if_neg hne, List.foldl_cons]
  dsimp only
  rw [if_pos ⟨hdir1, by
    rw [List.length_nil]
    exact lt_of_lt_of_le (by norm_num) hdir1⟩]
  exact checkMatchFold_invariant rows cols g (baseColor (getCellN g r c))
    (r : Int) (c : Int) hb0 [(1, 0), (1, 1), (1, -1)] _ hdir1
    (mem_checkMatchDir rows cols g _ (r : Int) (c : Int) 0 1)
    (checkMatchDir_bounds rows cols g _ (r : Int) (c : Int) 0 1 hb0)

/-- With a horizontal run of three run cells at columns `c`, `c+1`, `c+2`,
the horizontal candidate through any of the three has length at least 3. -/
theorem run_dir1_min3 (rows cols : Nat) (g : Field) (r c : Nat) (x : Char)
    (hx : x ∈ (['R', 'B', 'Y'] : List Char)) (hr : r < rows) (hc : c + 2 < cols)
    (hfuel : 2 ≤ rows + cols)
    (h0 : getCellN g r c = [x] ∨ getCellN g r c = ['*', x])
    (h1 : getCellN g r (c + 1) = [x] ∨ getCellN g r (c + 1) = ['*', x])
    (h2 : getCellN g r (c + 2) = [x] ∨ getCellN g r (c + 2) = ['*', x]) :
    ∀ i < 3, 3 ≤ (checkMatchDir rows cols g [x]
      (r : Int) ((c + i : Nat) : Int) 0 1).length := by
  have haccept : ∀ j : Nat, j < 3 →
      getCellN g r (c + j) ≠ emptyCell ∧ baseColor (getCellN g r (c + j)) = [x] := by
    intro j hj
    interval_cases j
    · simpa using run_cell_accepts x hx _ h0
    · simpa using run_cell_accepts x hx _ h1
    · simpa using run_cell_accepts x hx _ h2
  have hcellI : ∀ j : Nat, j < 3 →
      getCell g (r : Int) ((c + j : Nat) : Int) ≠ emptyCell ∧
      baseColor (getCell g (r : Int) ((c + j : Nat) : Int)) = [x] := by
    intro j hj
    rw [getCell_natCast]
    exact haccept j hj
  intro i hi
  rw [checkMatchDir_length]
  interval_cases i
  · -- origin at column c: the forward scan picks up c+1 and c+2
    have hpos : 2 ≤ (scanDir rows cols g [x] 0 1
        ((r : Int) + 0) (((c + 0 : Nat) : Int) + 1) (rows + cols)).length := by
      refine scanDir_min_length rows cols g [x] 0 1 2 _ _ (rows + cols) hfuel ?_
      intro j hj
      have e1 : ((r : Int) + 0 + j * 0) = ((r : Nat) : Int) := by push_cast; ring
      have e2 : ((((c + 0 : Nat) : Int)) + 1 + j * 1) = (((c + (j + 1) : Nat)) : Int) := by
        push_cast; ring
      rw [e1, e2]
      refine ⟨by unfold inBounds; omega, ?_, ?_⟩
      · exact (hcellI (j + 1) (by omega)).1
      · exact (hcellI (j + 1) (by omega)).2
    omega
  · -- origin at column c+1: one forward hit (c+2), one backward hit (c)
    have hpos : 1 ≤ (scanDir rows cols g [x] 0 1
        ((r : Int) + 0) (((c + 1 : Nat) : Int) + 1) (rows + cols)).length := by
      refine scanDir_min_length rows cols g [x] 0 1 1 _ _ (rows + cols) (by omega) ?_
      intro j hj
      interval_cases j
      have e1 : ((r : Int) + 0 + (0 : Nat) * 0) = ((r : Nat) : Int) := by push_cast; ring
      have e2 : ((((c + 1 : Nat) : Int)) + 1 + (0 : Nat) * 1) = (((c + 2 : Nat)) : Int) := by
        push_cast; ring
      rw [e1, e2]
      exact ⟨by unfold inBounds; omega, (hcellI 2 (by omega)).1, (hcellI 2 (by omega)).2⟩
    have hneg : 1 ≤ (scanDir rows cols g [x] (-0) (-1)
        ((r : Int) - 0) (((c + 1 : Nat) : Int) - 1) (rows + cols)).length := by
      refine scanDir_min_length rows cols g [x] (-0) (-1) 1 _ _ (rows + cols) (by omega) ?_
      intro j hj
      interval_cases j
      have e1 : ((r : Int) - 0 + (0 : Nat) * (-0)) = ((r : Nat) : Int) := by push_cast; ring
      have e2 : ((((c + 1 : Nat) : Int)) - 1 + (0 : Nat) * (-1)) = (((c + 0 : Nat)) : Int) := by
        push_cast; ring
      rw [e1, e2]
      exact ⟨by unfold inBounds; omega, (hcellI 0 (by omega)).1, (hcellI 0 (by omega)).2⟩
    omega
  · -- origin at column c+2: the backward scan picks up c+1 and c
    have hneg : 2 ≤ (scanDir rows cols g [x] (-0) (-1)
        ((r : Int) - 0) (((c + 2 : Nat) : Int) - 1) (rows + cols)).length := by
      refine scanDir_min_length rows cols g [x] (-0) (-1) 2 _ _ (rows + cols) hfuel ?_
      intro j hj
      interval_cases j
      · have e1 : ((r : Int) - 0 + (0 : Nat) * (-0)) = ((r : Nat) : Int) := by
          push_cast; ring
        have e2 : ((((c + 2 : Nat) : Int)) - 1 + (0 : Nat) * (-1)) = (((c + 1 : Nat)) : Int) := by
          push_cast; ring
        rw [e1, e2]
        exact ⟨by unfold inBounds; omega, (hcellI 1 (by omega)).1, (hcellI 1 (by omega)).2⟩
      · have e1 : ((r : Int) - 0 + (1 : Nat) * (-0)) = ((r : Nat) : Int) := by
          push_cast; ring
        have e2 : ((((c + 2 : Nat) : Int)) - 1 + (1 : Nat) * (-1)) = (((c + 0 : Nat)) : Int) := by
          push_cast; ring
        rw [e1, e2]
        exact ⟨by unfold inBounds; omega, (hcellI 0 (by omega)).1, (hcellI 0 (by omega)).2⟩
    omega

/-- A plain run cell is not starred. -/
theorem run_cell_not_starred (x : Char) (hx : x ∈ (['R', 'B', 'Y'] : List Char)) :
    ¬ starred [x] := by
  simp only [List.mem_cons, List.not_mem_nil, or_false] at hx
  rcases hx with rfl | rfl | rfl <;> decide

/-- A marked cell `['*', x]` is starred. -/
theorem star_cell_starred (x : Char) : starred ['*', x] := rfl

/-- The resolution pass `_process_matches` marks all three cells of a
horizontal run of three equal plain cells `[x]`. -/
theorem processMatches_marks_run (rows cols : Nat) (f : Field)
    (hwf : wellFormed rows cols f)
    (r c : Nat) (hr : r < rows) (hc : c + 2 < cols) (x : Char)
    (hx : x ∈ (['R', 'B', 'Y'] : List Char))
    (h0 : getCellN f r c = [x]) (h1 : getCellN f r (c + 1) = [x])
    (h2 : getCellN f r (c + 2) = [x]) :
    ∀ i < 3, getCellN (_process_matches rows cols f).1 r (c + i) = ['*', x] := by
  have hfuel : 2 ≤ rows + cols := by omega
  have hQstep : ∀ (fb : Field × Bool) (rc' : Nat × Nat),
      (wellFormed rows cols fb.1 ∧ ∀ i < 3,
        (getCellN fb.1 r (c + i) = [x] ∨ getCellN fb.1 r (c + i) = ['*', x])) →
      (wellFormed rows cols (processMatchStep rows cols fb rc').1 ∧ ∀ i < 3,
        (getCellN (processMatchStep rows cols fb rc').1 r (c + i) = [x] ∨
         getCellN (processMatchStep rows cols fb rc').1 r (c + i) = ['*', x])) := by
    rintro fb rc' ⟨hwf', hvals⟩
    refine ⟨processMatchStep_wf rows cols fb rc' hwf', ?_⟩
    intro i hi
    rcases processMatchStep_pointwise rows cols fb rc' r (c + i) with heq | ⟨hns, heq⟩
    · rw [heq]; exact hvals i hi
    · rcases hvals i hi with hv | hv
      · right; rw [heq, hv, markCell_single]
      · exact absurd (hv ▸ star_cell_starred x) hns
  have hQ0 : wellFormed rows cols (f, false).1 ∧ ∀ i < 3,
      (getCellN (f, false).1 r (c + i) = [x] ∨
       getCellN (f, false).1 r (c + i) = ['*', x]) := by
    refine ⟨hwf, ?_⟩
    intro i hi
    interval_cases i
    · left; simpa using h0
    · left; exact h1
    · left; exact h2
  intro i hi
  have hmem : (r, c + i) ∈ allPositions rows cols :=
    (mem_allPositions rows cols r (c + i)).mpr ⟨hr, by omega⟩
  obtain ⟨l1, l2, hsplit⟩ := List.append_of_mem hmem
  have hfold : _process_matches rows cols f =
      l2.foldl (processMatchStep rows cols)
        (processMatchStep rows cols
          (l1.foldl (processMatchStep rows cols) (f, false)) (r, c + i)) := by
    unfold _process_matches
    rw [hsplit, List.foldl_append, List.foldl_cons]
  have hQ1 := foldl_hold (processMatchStep rows cols)
    (fun fb => wellFormed rows cols fb.1 ∧ ∀ i < 3,
      (getCellN fb.1 r (c + i) = [x] ∨ getCellN fb.1 r (c + i) = ['*', x]))
    l1 (fun b a _ hb => hQstep b a hb) (f, false) hQ0
  have hstar : starred (getCellN (processMatchStep rows cols
      (l1.foldl (processMatchStep rows cols) (f, false)) (r, c + i)).1 r (c + i)) := by
    rcases hQ1.2 i hi with hv | hv
    · -- the cell is still plain: its own scan step marks it
      have hrun := run_cell_accepts x hx _ (Or.inl hv)
      have hne : getCellN (l1.foldl (processMatchStep rows cols) (f, false)).1
          r (c + i) ≠ emptyCell := hrun.1
      have hnst : ¬ starred (getCellN
          (l1.foldl (processMatchStep rows cols) (f, false)).1 r (c + i)) := by
        rw [hv]; exact run_cell_not_starred x hx
      have hdir1 : 3 ≤ (checkMatchDir rows cols
          (l1.foldl (processMatchStep rows cols) (f, false)).1
          (baseColor (getCellN (l1.foldl (processMatchStep rows cols) (f, false)).1
            r (c + i))) (r : Int) ((c + i : Nat) : Int) 0 1).length := by
        rw [hrun.2]
        exact run_dir1_min3 rows cols _ r c x hx hr hc hfuel
          (by simpa using hQ1.2 0 (by omega))
          (hQ1.2 1 (by omega)) (hQ1.2 2 (by omega)) i hi
      have hqual := check_match_qualifies rows cols _ r (c + i) hr (by omega)
        hne hdir1
      simp only [processMatchStep]
      rw [if_pos ⟨hne, hnst⟩, if_pos hqual.1]
      have := markFold_stars_mem rows cols
        (_check_match rows cols (l1.foldl (processMatchStep rows cols) (f, false)).1
          r (c + i))
        (l1.foldl (processMatchStep rows cols) (f, false)) hQ1.1 hqual.2.2
        ((r : Int), ((c + i : Nat) : Int)) hqual.2.1
      simpa using this
    · exact processMatchStep_preserves_star rows cols _ (r, c + i) r (c + i)
        (hv ▸ star_cell_starred x)
  have hstar2 := foldl_hold (processMatchStep rows cols)
    (fun fb => starred (getCellN fb.1 r (c + i))) l2
    (fun b a _ hb => processMatchStep_preserves_star rows cols b a r (c + i) hb)
    _ hstar
  have hQfin := foldl_hold (processMatchStep rows cols)
    (fun fb => wellFormed rows cols fb.1 ∧ ∀ i < 3,
      (getCellN fb.1 r (c + i) = [x] ∨ getCellN fb.1 r (c + i) = ['*', x]))
    (allPositions rows cols) (fun b a _ hb => hQstep b a hb) (f, false) hQ0
  have hstarF : starred (getCellN (_process_matches rows cols f).1 r (c + i)) := by
    rw [hfold]; exact hstar2
  rcases hQfin.2 i hi with hv | hv
  · exact absurd (hv ▸ hstarF) (run_cell_not_starred x hx)
  · exact hv

set_option maxRecDepth 8000 in
/-- **C7** (amended).  Given a field containing a row of exactly 3 non-virus
cells flanked by empties whose stored values are identical plain
single-character cells `[x]` of a valid color (the raw representation
matters: `'L'`/`'R'` tags are not stripped during comparison, see the
counterexample), one resolution pass marks all 3 cells — a marked cell
records the original color with any `'L'`/`'R'` tag stripped — the following
mark-removal pass empties them, and a gravity pass then compacts the cells
above (shown on `c7grav`); the minimum run length of 3 is applied uniformly
across all four axes, including both diagonals. -/
theorem match_run_resolution (rows cols : Nat) (f : Field)
    (hwf : wellFormed rows cols f) (r c : Nat) (hr : r < rows) (hc : c + 2 < cols)
    (x : Char) (hx : x ∈ (['R', 'B', 'Y'] : List Char))
    (h0 : getCellN f r c = [x]) (h1 : getCellN f r (c + 1) = [x])
    (h2 : getCellN f r (c + 2) = [x])
    (hflankL : c = 0 ∨ getCellN f r (c - 1) = emptyCell)
    (hflankR : c + 3 = cols ∨ getCellN f r (c + 3) = emptyCell) :
    (∀ i < 3, getCellN (_process_matches rows cols f).1 r (c + i) = ['*', x]) ∧
    (∀ i < 3, getCellN
      (removeMarked rows cols (_process_matches rows cols f).1).1 r (c + i)
        = emptyCell) ∧
    (∀ t y : Char, (t = 'L' ∨ t = 'R') → markCell [t, y] = ['*', y]) ∧
    ((_process_matches 4 5 c7grav).2 = true ∧
      (_apply_field_gravity 4 5
        (removeMarked 4 5 (_process_matches 4 5 c7grav).1).1).1 = c7gravFinal) ∧
    ((_process_matches 4 3 c7vert).2 = true ∧
     (_process_matches 4 3 c7diag1).2 = true ∧
     (_process_matches 4 3 c7diag2).2 = true ∧
     _process_matches 4 3 c7two = (c7two, false)) := by
  have hmarks := processMatches_marks_run rows cols f hwf r c hr hc x hx h0 h1 h2
  refine ⟨hmarks, ?_, markCell_tagged, by decide, by decide⟩
  intro i hi
  rw [removeMarked_getCell rows cols (_process_matches rows cols f).1
    (processMatches_wf rows cols f hwf) r (c + i) hr (by omega),
    hmarks i hi]
  rw [if_pos (star_cell_starred x)]

/-- Witness for `match_run_resolution`: the bottom-row run of `c7grav`. -/
theorem match_run_resolution_witness :
    getCellN (_process_matches 4 5 c7grav).1 3 (1 + 0) = ['*', 'R'] ∧
    getCellN (_process_matches 4 5 c7grav).1 3 (1 + 1) = ['*', 'R'] ∧
    getCellN (_process_matches 4 5 c7grav).1 3 (1 + 2) = ['*', 'R'] ∧
    getCellN (removeMarked 4 5 (_process_matches 4 5 c7grav).1).1 3 (1 + 0)
      = emptyCell :=
  ⟨(match_run_resolution 4 5 c7grav (by decide) 3 1 (by omega) (by omega) 'R'
      (by decide) rfl rfl rfl (Or.inr rfl) (Or.inr rfl)).1 0 (by omega),
   (match_run_resolution 4 5 c7grav (by decide) 3 1 (by omega) (by omega) 'R'
      (by decide) rfl rfl rfl (Or.inr rfl) (Or.inr rfl)).1 1 (by omega),
   (match_run_resolution 4 5 c7grav (by decide) 3 1 (by omega) (by omega) 'R'
      (by decide) rfl rfl rfl (Or.inr rfl) (Or.inr rfl)).1 2 (by omega),
   (match_run_resolution 4 5 c7grav (by decide) 3 1 (by omega) (by omega) 'R'
      (by decide) rfl rfl rfl (Or.inr rfl) (Or.inr rfl)).2.1 0 (by omega)⟩

/-! ### Cascade termination: the drop-search loop -/

/-- The drop search never moves up. -/
theorem findDropAux_ge (f : Field) (rows c : Nat) :
    ∀ (n le : Nat), le ≤ findDropAux f rows c n le := by
  intro n
  induction n with
  | zero => intro le; simp [findDropAux]
  | succ m ih =>
    intro le
    simp only [findDropAux]
    split
    · exact le_trans (by omega) (ih (le + 1))
    · exact le_rfl

/-- The drop search never passes the bottom row. -/
theorem findDropAux_le (f : Field) (rows c : Nat) :
    ∀ (n le : Nat), le ≤ rows - 1 → findDropAux f rows c n le ≤ rows - 1 := by
  intro n
  induction n with
  | zero => intro le h; simpa [findDropAux] using h
  | succ m ih =>
    intro le h
    simp only [findDropAux]
    split
    · rename_i hg
      exact ih (le + 1) (by omega)
    · exact h

/-- If the cell at the start row is empty, so is the cell at the row the
search stops at: it only steps onto empty cells. -/
theorem findDropAux_empty (f : Field) (rows c : Nat) :
    ∀ (n le : Nat), getCellN f le c = emptyCell →
      getCellN f (findDropAux f rows c n le) c = emptyCell := by
  intro n
  induction n with
  | zero => intro le h; simpa [findDropAux] using h
  | succ m ih =>
    intro le h
    simp only [findDropAux]
    split
    · rename_i hg
      exact ih (le + 1) hg.2
    · exact h

/-- With enough fuel the search stops only when the loop guard fails: either
at the bottom row or just above an occupied cell. -/
theorem findDropAux_stop (f : Field) (rows c : Nat) :
    ∀ (n le : Nat), rows - 1 ≤ n + le →
      ¬ (findDropAux f rows c n le < rows - 1 ∧
         getCellN f (findDropAux f rows c n le + 1) c = emptyCell) := by
  intro n
  induction n with
  | zero =>
    intro le h
    simp only [findDropAux]
    rintro ⟨h1, -⟩
    omega
  | succ m ih =>
    intro le h
    simp only [findDropAux]
    split
    · exact ih (le + 1) (by omega)
    · rename_i hg
      exact hg

/-- `findDrop` never moves up. -/
theorem findDrop_ge (f : Field) (rows c le : Nat) : le ≤ findDrop f rows c le :=
  findDropAux_ge f rows c _ le

/-- `findDrop` never passes the bottom row. -/
theorem findDrop_le (f : Field) (rows c le : Nat) (h : le ≤ rows - 1) :
    findDrop f rows c le ≤ rows - 1 :=
  findDropAux_le f rows c _ le h

/-- `findDrop` from an empty cell lands on an empty cell. -/
theorem findDrop_empty (f : Field) (rows c le : Nat)
    (h : getCellN f le c = emptyCell) :
    getCellN f (findDrop f rows c le) c = emptyCell :=
  findDropAux_empty f rows c _ le h

/-- `findDrop` stops at the bottom row or just above an occupied cell. -/
theorem findDrop_stop (f : Field) (rows c le : Nat) :
    ¬ (findDrop f rows c le < rows - 1 ∧
       getCellN f (findDrop f rows c le + 1) c = emptyCell) :=
  findDropAux_stop f rows c _ le (by omega)

/-! ### Cascade termination: shape of one gravity step -/

/-- A gravity scan step on a non-processable or non-falling cell does
nothing. -/
theorem fieldGravityStep_skip (rows cols : Nat) (f : Field) (b : Bool) (r c : Nat)
    (h : ¬ processableCell (getCellN f r c) ∨
         ¬ (r < rows - 1 ∧ getCellN f (r + 1) c = emptyCell)) :
    fieldGravityStep rows cols (f, b) (r, c) = (f, b) := by
  unfold fieldGravityStep
  simp only
  split
  · rfl
  · split
    · rfl
    · rename_i h1 h2
      rw [if_neg]
      intro h3
      rcases h with hp | hf
      · exact hp ⟨(not_or.mp h1).1, (not_or.mp h1).2, h2⟩
      · exact hf h3

/-- A gravity scan step that moves a cell without dragging a right half
performs exactly the two left writes. -/
theorem fieldGravityStep_move_plain (rows cols : Nat) (f : Field) (b : Bool)
    (r c : Nat) (hp : processableCell (getCellN f r c))
    (hf : r < rows - 1 ∧ getCellN f (r + 1) c = emptyCell)
    (hng : ¬ isHorizontalCell (getCellN f r c) ∨
      ¬ (c + 1 < cols ∧
         getCellN (gravDropLeft f rows r c) r (c + 1) ≠ emptyCell)) :
    fieldGravityStep rows cols (f, b) (r, c) = (gravDropLeft f rows r c, true) := by
  unfold fieldGravityStep
  simp only
  rw [if_neg (show ¬ (getCellN f r c = emptyCell ∨ starred (getCellN f r c))
    from fun h => h.elim hp.1 hp.2.1)]
  rw [if_neg hp.2.2, if_pos hf]
  rcases hng with hnh | hno
  · rw [if_neg hnh]; rfl
  · by_cases hh : isHorizontalCell (getCellN f r c)
    · rw [if_pos hh, if_neg (by simpa [gravDropLeft] using hno)]; rfl
    · rw [if_neg hh]; rfl

/-- A gravity scan step that moves a left half and drags its right half
performs exactly the four writes. -/
theorem fieldGravityStep_move_drag (rows cols : Nat) (f : Field) (b : Bool)
    (r c : Nat) (hp : processableCell (getCellN f r c))
    (hf : r < rows - 1 ∧ getCellN f (r + 1) c = emptyCell)
    (hh : isHorizontalCell (getCellN f r c))
    (ho : c + 1 < cols ∧
      getCellN (gravDropLeft f rows r c) r (c + 1) ≠ emptyCell) :
    fieldGravityStep rows cols (f, b) (r, c) =
      (gravDropRight (gravDropLeft f rows r c) rows r c, true) := by
  unfold fieldGravityStep
  simp only
  rw [if_neg (show ¬ (getCellN f r c = emptyCell ∨ starred (getCellN f r c))
    from fun h => h.elim hp.1 hp.2.1)]
  rw [if_neg hp.2.2, if_pos hf, if_pos hh,
    if_pos (by simpa [gravDropLeft] using ho)]
  rfl

/-- The empty cell is never processed by the gravity scan. -/
theorem emptyCell_not_processable : ¬ processableCell emptyCell := by decide

/-- After the left drop, the vacated source cell is empty. -/
theorem gravDropLeft_get_self (rows cols : Nat) (f : Field) (r c : Nat)
    (hwf : wellFormed rows cols f) (hr : r < rows) (hc : c < cols) :
    getCellN (gravDropLeft f rows r c) r c = emptyCell := by
  unfold gravDropLeft
  have hwf1 : wellFormed rows cols
      (setCellN f (findDrop f rows c (r + 1)) c (getCellN f r c)) :=
    wellFormed_setCellN rows cols f _ c _ hwf
  exact getCellN_setCellN_self _ r c _ (by rw [hwf1.1]; exact hr)
    (by rw [row_length rows cols _ hwf1 r hr]; exact hc)

/-- After the left drop, the landing cell holds the moved cell. -/
theorem gravDropLeft_get_drop (rows cols : Nat) (f : Field) (r c : Nat)
    (hwf : wellFormed rows cols f) (hc : c < cols)
    (hne : findDrop f rows c (r + 1) ≠ r)
    (hd : findDrop f rows c (r + 1) < rows) :
    getCellN (gravDropLeft f rows r c) (findDrop f rows c (r + 1)) c =
      getCellN f r c := by
  unfold gravDropLeft
  rw [getCellN_setCellN_ne _ r c _ c emptyCell (Or.inl (Ne.symm hne))]
  exact getCellN_setCellN_self f _ c _ (by rw [hwf.1]; exact hd)
    (by rw [row_length rows cols f hwf _ hd]; exact hc)

/-- The left drop touches no cell besides its source and its landing cell. -/
theorem gravDropLeft_get_other (rows : Nat) (f : Field) (r c a b : Nat)
    (h1 : ¬ (a = r ∧ b = c)) (h2 : ¬ (a = findDrop f rows c (r + 1) ∧ b = c)) :
    getCellN (gravDropLeft f rows r c) a b = getCellN f a b := by
  unfold gravDropLeft
  rw [getCellN_setCellN_ne _ r c a b _ (by omega),
    getCellN_setCellN_ne _ _ c a b _ (by omega)]

/-- After the right drag, the vacated right-half cell is empty. -/
theorem gravDropRight_get_self (rows cols : Nat) (f2 : Field) (r c : Nat)
    (hwf : wellFormed rows cols f2) (hr : r < rows) (hc : c + 1 < cols) :
    getCellN (gravDropRight f2 rows r c) r (c + 1) = emptyCell := by
  unfold gravDropRight
  have hwf1 : wellFormed rows cols
      (setCellN f2 (findDrop f2 rows (c + 1) (r + 1)) (c + 1)
        (getCellN f2 r (c + 1))) :=
    wellFormed_setCellN rows cols f2 _ (c + 1) _ hwf
  exact getCellN_setCellN_self _ r (c + 1) _ (by rw [hwf1.1]; exact hr)
    (by rw [row_length rows cols _ hwf1 r hr]; exact hc)

/-- After the right drag, its landing cell holds the dragged cell. -/
theorem gravDropRight_get_drop (rows cols : Nat) (f2 : Field) (r c : Nat)
    (hwf : wellFormed rows cols f2) (hc : c + 1 < cols)
    (hne : findDrop f2 rows (c + 1) (r + 1) ≠ r)
    (hd : findDrop f2 rows (c + 1) (r + 1) < rows) :
    getCellN (gravDropRight f2 rows r c) (findDrop f2 rows (c + 1) (r + 1))
      (c + 1) = getCellN f2 r (c + 1) := by
  unfold gravDropRight
  rw [getCellN_setCellN_ne _ r (c + 1) _ (c + 1) emptyCell (Or.inl (Ne.symm hne))]
  exact getCellN_setCellN_self f2 _ (c + 1) _ (by rw [hwf.1]; exact hd)
    (by rw [row_length rows cols f2 hwf _ hd]; exact hc)

/-- The right drag touches no cell besides its source and its landing cell. -/
theorem gravDropRight_get_other (rows : Nat) (f2 : Field) (r c a b : Nat)
    (h1 : ¬ (a = r ∧ b = c + 1))
    (h2 : ¬ (a = findDrop f2 rows (c + 1) (r + 1) ∧ b = c + 1)) :
    getCellN (gravDropRight f2 rows r c) a b = getCellN f2 a b := by
  unfold gravDropRight
  rw [getCellN_setCellN_ne _ r (c + 1) a b _ (by omega),
    getCellN_setCellN_ne _ _ (c + 1) a b _ (by omega)]

/-- `gravDropLeft` keeps the field well-formed. -/
theorem gravDropLeft_wf (rows cols : Nat) (f : Field) (r c : Nat)
    (hwf : wellFormed rows cols f) :
    wellFormed rows cols (gravDropLeft f rows r c) := by
  unfold gravDropLeft
  exact wellFormed_setCellN rows cols _ r c _
    (wellFormed_setCellN rows cols f _ c _ hwf)

/-- The central invariant step: a gravity scan step at `(r, c)` makes `(r, c)`
settled and keeps every position processed before it — all positions strictly
below row `r`, and those right of `c` in row `r` — settled. -/
theorem fieldGravityStep_settles (rows cols : Nat) (f : Field) (b : Bool)
    (r c : Nat) (hwf : wellFormed rows cols f) (hr : r < rows - 1) (hc : c < cols)
    (hprev : ∀ r' c', r' < rows - 1 → c' < cols →
      (r < r' ∨ (r' = r ∧ c < c')) → settledAt f r' c') :
    ∀ r' c', r' < rows - 1 → c' < cols →
      (r < r' ∨ (r' = r ∧ c ≤ c')) →
      settledAt (fieldGravityStep rows cols (f, b) (r, c)).1 r' c' := by
  by_cases hpf : processableCell (getCellN f r c) ∧ r < rows - 1 ∧
      getCellN f (r + 1) c = emptyCell
  case neg =>
    have hstep : (fieldGravityStep rows cols (f, b) (r, c)).1 = f := by
      rw [fieldGravityStep_skip rows cols f b r c (by tauto)]
    rw [hstep]
    intro r' c' h1 h2 h3
    by_cases hq : r' = r ∧ c' = c
    · obtain ⟨he1, he2⟩ := hq
      rw [he1, he2]
      intro hproc hbe
      exact hpf ⟨hproc, hr, hbe⟩
    · refine hprev r' c' h1 h2 ?_
      rcases h3 with h | ⟨rfl, hcc⟩
      · exact Or.inl h
      · exact Or.inr ⟨rfl, lt_of_le_of_ne hcc fun he => hq ⟨rfl, he.symm⟩⟩
  case pos =>
    obtain ⟨hp, -, hbelow⟩ := hpf
    obtain ⟨l, hl⟩ : ∃ n, findDrop f rows c (r + 1) = n := ⟨_, rfl⟩
    have hge : r + 1 ≤ l := by rw [← hl]; exact findDrop_ge f rows c (r + 1)
    have hle : l ≤ rows - 1 := by
      rw [← hl]; exact findDrop_le f rows c (r + 1) (by omega)
    have hstop : ¬ (l < rows - 1 ∧ getCellN f (l + 1) c = emptyCell) := by
      rw [← hl]; exact findDrop_stop f rows c (r + 1)
    have g1 : getCellN (gravDropLeft f rows r c) r c = emptyCell :=
      gravDropLeft_get_self rows cols f r c hwf (by omega) hc
    have g2 : getCellN (gravDropLeft f rows r c) l c = getCellN f r c := by
      rw [← hl]
      exact gravDropLeft_get_drop rows cols f r c hwf hc (by rw [hl]; omega)
        (by rw [hl]; omega)
    have g3 : ∀ a b' : Nat, ¬ (a = r ∧ b' = c) → ¬ (a = l ∧ b' = c) →
        getCellN (gravDropLeft f rows r c) a b' = getCellN f a b' := by
      intro a b' h1 h2
      exact gravDropLeft_get_other rows f r c a b' h1 (by rw [hl]; exact h2)
    have hwf2 : wellFormed rows cols (gravDropLeft f rows r c) :=
      gravDropLeft_wf rows cols f r c hwf
    by_cases hdrag : isHorizontalCell (getCellN f r c) ∧ c + 1 < cols ∧
        getCellN (gravDropLeft f rows r c) r (c + 1) ≠ emptyCell
    case neg =>
      have hng : ¬ isHorizontalCell (getCellN f r c) ∨
          ¬ (c + 1 < cols ∧
             getCellN (gravDropLeft f rows r c) r (c + 1) ≠ emptyCell) := by
        tauto
      have hstep : (fieldGravityStep rows cols (f, b) (r, c)).1 =
          gravDropLeft f rows r c := by
        rw [fieldGravityStep_move_plain rows cols f b r c hp ⟨hr, hbelow⟩ hng]
      rw [hstep]
      intro r' c' h1 h2 h3
      by_cases hq : r' = r ∧ c' = c
      · obtain ⟨he1, he2⟩ := hq
        rw [he1, he2]
        intro hproc
        rw [g1] at hproc
        exact absurd hproc emptyCell_not_processable
      · by_cases hq2 : r' = l ∧ c' = c
        · obtain ⟨he1, he2⟩ := hq2
          rw [he1, he2]
          intro _
          rw [g3 (l + 1) c (by omega) (by omega)]
          intro hbe
          exact hstop ⟨by omega, hbe⟩
        · have hcell : getCellN (gravDropLeft f rows r c) r' c' =
              getCellN f r' c' := g3 r' c' hq hq2
          intro hproc
          rw [hcell] at hproc
          have hrr : r ≤ r' := by rcases h3 with h | ⟨rfl, -⟩ <;> omega
          by_cases hb1 : r' + 1 = l ∧ c' = c
          · obtain ⟨hb, he⟩ := hb1
            rw [he, hb, g2]
            exact hp.1
          · rw [g3 (r' + 1) c' (by omega) hb1]
            refine hprev r' c' h1 h2 ?_ hproc
            rcases h3 with h | ⟨rfl, hcc⟩
            · exact Or.inl h
            · exact Or.inr ⟨rfl, lt_of_le_of_ne hcc fun he => hq ⟨rfl, he.symm⟩⟩
    case pos =>
      obtain ⟨hhor, hlt, hocc⟩ := hdrag
      have hstep : (fieldGravityStep rows cols (f, b) (r, c)).1 =
          gravDropRight (gravDropLeft f rows r c) rows r c := by
        rw [fieldGravityStep_move_drag rows cols f b r c hp ⟨hr, hbelow⟩ hhor
          ⟨hlt, hocc⟩]
      rw [hstep]
      obtain ⟨m, hm⟩ : ∃ n, findDrop (gravDropLeft f rows r c) rows (c + 1)
        (r + 1) = n := ⟨_, rfl⟩
      have mge : r + 1 ≤ m := by
        rw [← hm]; exact findDrop_ge _ rows (c + 1) (r + 1)
      have mle : m ≤ rows - 1 := by
        rw [← hm]; exact findDrop_le _ rows (c + 1) (r + 1) (by omega)
      have mstop : ¬ (m < rows - 1 ∧
          getCellN (gravDropLeft f rows r c) (m + 1) (c + 1) = emptyCell) := by
        rw [← hm]; exact findDrop_stop _ rows (c + 1) (r + 1)
      have g4 : getCellN (gravDropRight (gravDropLeft f rows r c) rows r c) r
          (c + 1) = emptyCell :=
        gravDropRight_get_self rows cols _ r c hwf2 (by omega) hlt
      have g5 : getCellN (gravDropRight (gravDropLeft f rows r c) rows r c) m
          (c + 1) = getCellN (gravDropLeft f rows r c) r (c + 1) := by
        rw [← hm]
        exact gravDropRight_get_drop rows cols _ r c hwf2 hlt (by rw [hm]; omega)
          (by rw [hm]; omega)
      have g6 : ∀ a b' : Nat, ¬ (a = r ∧ b' = c + 1) → ¬ (a = m ∧ b' = c + 1) →
          getCellN (gravDropRight (gravDropLeft f rows r c) rows r c) a b' =
            getCellN (gravDropLeft f rows r c) a b' := by
        intro a b' h1 h2
        exact gravDropRight_get_other rows _ r c a b' h1 (by rw [hm]; exact h2)
      intro r' c' h1 h2 h3
      by_cases hqA : r' = r ∧ c' = c + 1
      · obtain ⟨he1, he2⟩ := hqA
        rw [he1, he2]
        intro hproc
        rw [g4] at hproc
        exact absurd hproc emptyCell_not_processable
      · by_cases hqB : r' = r ∧ c' = c
        · obtain ⟨he1, he2⟩ := hqB
          rw [he1, he2]
          intro hproc
          rw [g6 r c (by omega) (by omega), g1] at hproc
          exact absurd hproc emptyCell_not_processable
        · by_cases hqC : r' = m ∧ c' = c + 1
          · obtain ⟨he1, he2⟩ := hqC
            rw [he1, he2]
            intro _
            rw [g6 (m + 1) (c + 1) (by omega) (by omega)]
            intro hbe
            exact mstop ⟨by omega, hbe⟩
          · by_cases hqD : r' = l ∧ c' = c
            · obtain ⟨he1, he2⟩ := hqD
              rw [he1, he2]
              intro _
              rw [g6 (l + 1) c (by omega) (by omega),
                g3 (l + 1) c (by omega) (by omega)]
              intro hbe
              exact hstop ⟨by omega, hbe⟩
            · have hcell : getCellN (gravDropRight (gravDropLeft f rows r c)
                  rows r c) r' c' = getCellN f r' c' := by
                rw [g6 r' c' hqA hqC, g3 r' c' hqB hqD]
              intro hproc
              rw [hcell] at hproc
              have hrr : r ≤ r' := by rcases h3 with h | ⟨rfl, -⟩ <;> omega
              by_cases hbA : r' + 1 = m ∧ c' = c + 1
              · obtain ⟨hb, he⟩ := hbA
                rw [he, hb, g5]
                exact hocc
              · by_cases hbB : r' + 1 = l ∧ c' = c
                · obtain ⟨hb, he⟩ := hbB
                  rw [he, g6 (r' + 1) c (by omega) (by omega), hb, g2]
                  exact hp.1
                · rw [g6 (r' + 1) c' (by omega) hbA,
                    g3 (r' + 1) c' (by omega) hbB]
                  refine hprev r' c' h1 h2 ?_ hproc
                  rcases h3 with h | ⟨rfl, hcc⟩
                  · exact Or.inl h
                  · right
                    have hcne : c' ≠ c := fun he => hqB ⟨rfl, he⟩
                    exact ⟨rfl, by omega⟩

/-- Folding the gravity step over one scan row (columns `m-1` down to `0`)
settles the whole row, provided everything below and the columns right of `m`
are already settled. -/
theorem gravRowFold_settles (rows cols r : Nat) (hr : r < rows - 1) :
    ∀ (m : Nat), m ≤ cols → ∀ (fb : Field × Bool), wellFormed rows cols fb.1 →
    (∀ r' c', r' < rows - 1 → c' < cols → (r < r' ∨ (r' = r ∧ m ≤ c')) →
      settledAt fb.1 r' c') →
    wellFormed rows cols
      (((List.range m).reverse.map (fun c => (r, c))).foldl
        (fieldGravityStep rows cols) fb).1 ∧
    ∀ r' c', r' < rows - 1 → c' < cols → (r < r' ∨ r' = r) →
      settledAt ((((List.range m).reverse.map (fun c => (r, c))).foldl
        (fieldGravityStep rows cols) fb).1) r' c' := by
  intro m
  induction m with
  | zero =>
    intro _ fb hwf hhyp
    refine ⟨hwf, ?_⟩
    intro r' c' h1 h2 h3
    refine hhyp r' c' h1 h2 ?_
    rcases h3 with h | rfl
    · exact Or.inl h
    · exact Or.inr ⟨rfl, Nat.zero_le c'⟩
  | succ m ih =>
    intro hm fb hwf hhyp
    have hsplit : (List.range (m + 1)).reverse = m :: (List.range m).reverse := by
      rw [List.range_succ, List.reverse_append]
      rfl
    rw [hsplit, List.map_cons, List.foldl_cons]
    have hstep := fieldGravityStep_settles rows cols fb.1 fb.2 r m hwf hr
      (by omega)
      (fun r' c' h1 h2 h3 => hhyp r' c' h1 h2 (by
        rcases h3 with h | ⟨he, hmc⟩
        · exact Or.inl h
        · exact Or.inr ⟨he, by omega⟩))
    have hwf' : wellFormed rows cols (fieldGravityStep rows cols fb (r, m)).1 :=
      fieldGravityStep_wf rows cols fb (r, m) hwf
    exact ih (by omega) (fieldGravityStep rows cols fb (r, m)) hwf'
      (fun r' c' h1 h2 h3 => hstep r' c' h1 h2 h3)

/-- Folding the gravity step over the scan rows `k-1` down to `0` settles
every position, provided rows `k` and below are already settled. -/
theorem gravRowsFold_settles (rows cols : Nat) :
    ∀ (k : Nat), k ≤ rows - 1 → ∀ (fb : Field × Bool), wellFormed rows cols fb.1 →
    (∀ r' c', r' < rows - 1 → c' < cols → k ≤ r' → settledAt fb.1 r' c') →
    wellFormed rows cols
      (((List.range k).reverse.flatMap (fun r =>
        (List.range cols).reverse.map (fun c => (r, c)))).foldl
        (fieldGravityStep rows cols) fb).1 ∧
    ∀ r' c', r' < rows - 1 → c' < cols →
      settledAt ((((List.range k).reverse.flatMap (fun r =>
        (List.range cols).reverse.map (fun c => (r, c)))).foldl
        (fieldGravityStep rows cols) fb).1) r' c' := by
  intro k
  induction k with
  | zero =>
    intro _ fb hwf hhyp
    exact ⟨hwf, fun r' c' h1 h2 => hhyp r' c' h1 h2 (Nat.zero_le r')⟩
  | succ k ih =>
    intro hk fb hwf hhyp
    have hsplit : (List.range (k + 1)).reverse = k :: (List.range k).reverse := by
      rw [List.range_succ, List.reverse_append]
      rfl
    rw [hsplit, List.flatMap_cons, List.foldl_append]
    have hrow := gravRowFold_settles rows cols k (by omega) cols le_rfl fb hwf
      (fun r' c' h1 h2 h3 => hhyp r' c' h1 h2 (by
        rcases h3 with h | ⟨-, hcc⟩ <;> omega))
    refine ih (by omega) _ hrow.1 ?_
    intro r' c' h1 h2 h3
    exact hrow.2 r' c' h1 h2 (by omega)

/-- `_apply_field_gravity` always leaves the field settled: once the scan has
processed a position, no later write can make its cell both processable and
unsupported again. -/
theorem applyFieldGravity_settles (rows cols : Nat) (f : Field)
    (hwf : wellFormed rows cols f) :
    settled rows cols (_apply_field_gravity rows cols f).1 := by
  unfold _apply_field_gravity gravityPositions
  intro r hrr c hcc
  exact (gravRowsFold_settles rows cols (rows - 1) le_rfl (f, false) hwf
    (fun r' c' h1 _ h3 => absurd h1 (by omega))).2 r c hrr hcc

/-! ### Cascade termination: counting -/

/-- `countP` splits along a second predicate. -/
theorem countP_split {α : Type} (l : List α) (p q : α → Bool) :
    l.countP p =
      (l.countP fun a => p a && q a) + (l.countP fun a => p a && !q a) := by
  induction l with
  | nil => rfl
  | cons a l ih =>
    rw [List.countP_cons, List.countP_cons, List.countP_cons, ih]
    cases hp : p a <;> cases hq : q a <;> simp [hp, hq] <;> omega

/-- Three pairwise distinct members of a duplicate-free list satisfying a
predicate force at least three hits. -/
theorem countP_three {α : Type} [DecidableEq α] (l : List α) (hnd : l.Nodup)
    (p : α → Bool) (x1 x2 x3 : α)
    (h1 : x1 ∈ l) (h2 : x2 ∈ l) (h3 : x3 ∈ l)
    (h12 : x1 ≠ x2) (h13 : x1 ≠ x3) (h23 : x2 ≠ x3)
    (hp1 : p x1 = true) (hp2 : p x2 = true) (hp3 : p x3 = true) :
    3 ≤ l.countP p := by
  rw [l.countP_eq_length_filter p]
  have hnf : (l.filter p).Nodup := hnd.filter p
  have hsub : ({x1, x2, x3} : Finset α) ⊆ (l.filter p).toFinset := by
    intro x hx
    simp only [Finset.mem_insert, Finset.mem_singleton] at hx
    rcases hx with rfl | rfl | rfl <;>
      exact List.mem_toFinset.mpr (List.mem_filter.mpr ⟨by assumption, by assumption⟩)
  have hc3 : ({x1, x2, x3} : Finset α).card = 3 := by
    rw [Finset.card_insert_of_not_mem (by simp [h12, h13]),
      Finset.card_insert_of_not_mem (by simp [h23]), Finset.card_singleton]
  calc 3 = ({x1, x2, x3} : Finset α).card := hc3.symm
    _ ≤ (l.filter p).toFinset.card := Finset.card_le_card hsub
    _ = (l.filter p).length := List.toFinset_card_of_nodup hnf

/-- If `B` implies `A` on a duplicate-free list holding three distinct
`A ∧ ¬B` elements, `A` counts at least three more than `B`. -/
theorem countP_add_three_le {α : Type} [DecidableEq α] (l : List α)
    (hnd : l.Nodup) (A B : α → Bool)
    (himp : ∀ a ∈ l, B a = true → A a = true)
    (x1 x2 x3 : α) (h1 : x1 ∈ l) (h2 : x2 ∈ l) (h3 : x3 ∈ l)
    (h12 : x1 ≠ x2) (h13 : x1 ≠ x3) (h23 : x2 ≠ x3)
    (hA1 : A x1 = true) (hA2 : A x2 = true) (hA3 : A x3 = true)
    (hB1 : B x1 = false) (hB2 : B x2 = false) (hB3 : B x3 = false) :
    l.countP B + 3 ≤ l.countP A := by
  have hsplit := countP_split l A B
  have he : (l.countP fun a => A a && B a) = l.countP B :=
    List.countP_congr fun a ha => by
      simp only [Bool.and_eq_true]
      exact ⟨fun h => h.2, fun h => ⟨himp a ha h, h⟩⟩
  have hge : 3 ≤ l.countP fun a => A a && !B a :=
    countP_three l hnd _ x1 x2 x3 h1 h2 h3 h12 h13 h23
      (by simp [hA1, hB1]) (by simp [hA2, hB2]) (by simp [hA3, hB3])
  omega

/-- The scan order covers `rows * cols` positions. -/
theorem allPositions_length (rows cols : Nat) :
    (allPositions rows cols).length = rows * cols := by
  unfold allPositions
  induction rows with
  | zero => simp
  | succ n ih =>
    rw [List.range_succ, List.flatMap_append, List.length_append, ih]
    simp [Nat.succ_mul]

/-- The scan order lists every position exactly once. -/
theorem allPositions_nodup (rows cols : Nat) :
    (allPositions rows cols).Nodup := by
  unfold allPositions
  refine List.nodup_flatMap.mpr ⟨?_, ?_⟩
  · intro r _
    exact (List.nodup_range cols).map fun c1 c2 h =>
      congrArg Prod.snd h
  · refine List.Pairwise.imp ?_ (List.pairwise_lt_range rows)
    intro r1 r2 hlt
    intro p hp1 hp2
    obtain ⟨c1, -, rfl⟩ := List.mem_map.mp hp1
    obtain ⟨c2, -, he⟩ := List.mem_map.mp hp2
    exact absurd (congrArg Prod.fst he).symm (by omega)

/-- Changing a predicate at one member of a duplicate-free list shifts the
count by the difference at that member. -/
theorem countP_update {α : Type} (l : List α) (hnd : l.Nodup) (e : α)
    (he : e ∈ l) (p q : α → Bool) (hpq : ∀ a ∈ l, a ≠ e → p a = q a) :
    l.countP q + (if p e then 1 else 0) =
      l.countP p + (if q e then 1 else 0) := by
  induction l with
  | nil => cases he
  | cons a l ih =>
    rw [List.countP_cons, List.countP_cons]
    rcases List.mem_cons.mp he with he2 | hel
    · have hnotin : a ∉ l := (List.nodup_cons.mp hnd).1
      have heq : l.countP p = l.countP q :=
        List.countP_congr fun x hx => by
          rw [hpq x (List.mem_cons_of_mem _ hx)
            (fun hxe => hnotin (he2 ▸ hxe ▸ hx))]
      rw [heq, ← he2]
      omega
    · have hnd' := (List.nodup_cons.mp hnd).2
      have hae : p a = q a := by
        by_cases hx : a = e
        · exact absurd (hx ▸ hel) (List.nodup_cons.mp hnd).1
        · exact hpq a (by simp) hx
      have hih := ih hnd' hel fun x hx hxe => hpq x (by simp [hx]) hxe
      rw [hae]
      omega

/-- How one write moves the live-cell count: the written position trades its
old occupancy for the occupancy of the new value. -/
theorem cellCount_setCellN (rows cols : Nat) (f : Field) (r c : Nat) (v : Cell)
    (hwf : wellFormed rows cols f) (hr : r < rows) (hc : c < cols) :
    cellCount rows cols (setCellN f r c v) +
      (if getCellN f r c ≠ emptyCell then 1 else 0) =
    cellCount rows cols f + (if v ≠ emptyCell then 1 else 0) := by
  unfold cellCount
  have hupd := countP_update (allPositions rows cols)
    (allPositions_nodup rows cols) (r, c)
    ((mem_allPositions rows cols r c).mpr ⟨hr, hc⟩)
    (fun rc => decide (getCellN f rc.1 rc.2 ≠ emptyCell))
    (fun rc => decide (getCellN (setCellN f r c v) rc.1 rc.2 ≠ emptyCell))
    (fun a _ hne => by
      obtain ⟨a1, a2⟩ := a
      dsimp only
      rw [getCellN_setCellN_ne f r c a1 a2 v
        (not_and_or.mp fun hh => hne (Prod.ext hh.1.symm hh.2.symm))])
  dsimp only at hupd
  rw [getCellN_setCellN_self f r c v (by rw [hwf.1]; exact hr)
    (by rw [row_length rows cols f hwf r hr]; exact hc)] at hupd
  simpa using hupd

/-- Dropping a cell within its column keeps the live-cell count unchanged:
the landing cell was empty and the vacated cell was occupied. -/
theorem gravDropLeft_cellCount (rows cols : Nat) (f : Field) (r c : Nat)
    (hwf : wellFormed rows cols f) (hr : r < rows - 1) (hc : c < cols)
    (hbelow : getCellN f (r + 1) c = emptyCell)
    (hcell : getCellN f r c ≠ emptyCell) :
    cellCount rows cols (gravDropLeft f rows r c) = cellCount rows cols f := by
  obtain ⟨l, hl⟩ : ∃ n, findDrop f rows c (r + 1) = n := ⟨_, rfl⟩
  have hge : r + 1 ≤ l := by rw [← hl]; exact findDrop_ge f rows c (r + 1)
  have hle : l ≤ rows - 1 := by
    rw [← hl]; exact findDrop_le f rows c (r + 1) (by omega)
  have hemp : getCellN f l c = emptyCell := by
    rw [← hl]; exact findDrop_empty f rows c (r + 1) hbelow
  have hwf1 : wellFormed rows cols (setCellN f l c (getCellN f r c)) :=
    wellFormed_setCellN rows cols f l c _ hwf
  have h1 := cellCount_setCellN rows cols f l c (getCellN f r c) hwf
    (by omega) hc
  rw [if_neg (fun hh => hh hemp), if_pos hcell] at h1
  have hget : getCellN (setCellN f l c (getCellN f r c)) r c =
      getCellN f r c :=
    getCellN_setCellN_ne f l c r c _ (Or.inl (by omega))
  have h2 := cellCount_setCellN rows cols
    (setCellN f l c (getCellN f r c)) r c emptyCell hwf1 (by omega) hc
  rw [hget, if_pos hcell, if_neg (fun hh => hh rfl)] at h2
  have hgoal : gravDropLeft f rows r c =
      setCellN (setCellN f l c (getCellN f r c)) r c emptyCell := by
    unfold gravDropLeft
    rw [hl]
  rw [hgoal]
  omega

/-- Dragging the right half never increases the live-cell count: the vacated
cell was occupied, while the landing cell may be overwritten. -/
theorem gravDropRight_cellCount_le (rows cols : Nat) (f2 : Field) (r c : Nat)
    (hwf : wellFormed rows cols f2) (hr : r < rows - 1) (hc : c + 1 < cols)
    (hv : getCellN f2 r (c + 1) ≠ emptyCell) :
    cellCount rows cols (gravDropRight f2 rows r c) ≤ cellCount rows cols f2 := by
  obtain ⟨m, hm⟩ : ∃ n, findDrop f2 rows (c + 1) (r + 1) = n := ⟨_, rfl⟩
  have hge : r + 1 ≤ m := by rw [← hm]; exact findDrop_ge f2 rows (c + 1) (r + 1)
  have hle : m ≤ rows - 1 := by
    rw [← hm]; exact findDrop_le f2 rows (c + 1) (r + 1) (by omega)
  have hwf3 : wellFormed rows cols
      (setCellN f2 m (c + 1) (getCellN f2 r (c + 1))) :=
    wellFormed_setCellN rows cols f2 m (c + 1) _ hwf
  have h3 := cellCount_setCellN rows cols f2 m (c + 1)
    (getCellN f2 r (c + 1)) hwf (by omega) hc
  rw [if_pos hv] at h3
  have hget : getCellN (setCellN f2 m (c + 1) (getCellN f2 r (c + 1))) r
      (c + 1) = getCellN f2 r (c + 1) :=
    getCellN_setCellN_ne f2 m (c + 1) r (c + 1) _ (Or.inl (by omega))
  have h4 := cellCount_setCellN rows cols
    (setCellN f2 m (c + 1) (getCellN f2 r (c + 1))) r (c + 1) emptyCell hwf3
    (by omega) hc
  rw [hget, if_pos hv, if_neg (fun hh => hh rfl)] at h4
  have hgoal : gravDropRight f2 rows r c =
      setCellN (setCellN f2 m (c + 1) (getCellN f2 r (c + 1))) r (c + 1)
        emptyCell := by
    unfold gravDropRight
    rw [hm]
  rw [hgoal]
  by_cases hold : getCellN f2 m (c + 1) ≠ emptyCell
  · rw [if_pos hold] at h3
    omega
  · rw [if_neg hold] at h3
    omega

/-- A gravity scan step never increases the live-cell count. -/
theorem fieldGravityStep_cellCount (rows cols : Nat) (f : Field) (b : Bool)
    (r c : Nat) (hwf : wellFormed rows cols f) (hr : r < rows - 1)
    (hc : c < cols) :
    cellCount rows cols (fieldGravityStep rows cols (f, b) (r, c)).1 ≤
      cellCount rows cols f := by
  by_cases hpf : processableCell (getCellN f r c) ∧ r < rows - 1 ∧
      getCellN f (r + 1) c = emptyCell
  case neg =>
    rw [fieldGravityStep_skip rows cols f b r c (by tauto)]
  case pos =>
    obtain ⟨hp, -, hbelow⟩ := hpf
    have hleft : cellCount rows cols (gravDropLeft f rows r c) =
        cellCount rows cols f :=
      gravDropLeft_cellCount rows cols f r c hwf hr hc hbelow hp.1
    by_cases hdrag : isHorizontalCell (getCellN f r c) ∧ c + 1 < cols ∧
        getCellN (gravDropLeft f rows r c) r (c + 1) ≠ emptyCell
    · rw [fieldGravityStep_move_drag rows cols f b r c hp ⟨hr, hbelow⟩
        hdrag.1 ⟨hdrag.2.1, hdrag.2.2⟩]
      calc cellCount rows cols (gravDropRight (gravDropLeft f rows r c) rows r c)
          ≤ cellCount rows cols (gravDropLeft f rows r c) :=
            gravDropRight_cellCount_le rows cols _ r c
              (gravDropLeft_wf rows cols f r c hwf) hr hdrag.2.1 hdrag.2.2
        _ = cellCount rows cols f := hleft
    · rw [fieldGravityStep_move_plain rows cols f b r c hp ⟨hr, hbelow⟩
        (by tauto)]
      exact le_of_eq hleft

/-- `_apply_field_gravity` never increases the live-cell count. -/
theorem applyFieldGravity_cellCount (rows cols : Nat) (f : Field)
    (hwf : wellFormed rows cols f) :
    cellCount rows cols (_apply_field_gravity rows cols f).1 ≤
      cellCount rows cols f := by
  unfold _apply_field_gravity
  exact (foldl_hold (fieldGravityStep rows cols)
    (fun x => wellFormed rows cols x.1 ∧
      cellCount rows cols x.1 ≤ cellCount rows cols f) _
    (fun fb a ha hb => by
      obtain ⟨r, c⟩ := a
      obtain ⟨hr, hc⟩ := (mem_gravityPositions rows cols r c).mp ha
      exact ⟨fieldGravityStep_wf rows cols fb (r, c) hb.1,
        le_trans
          (fieldGravityStep_cellCount rows cols fb.1 fb.2 r c hb.1 hr hc)
          hb.2⟩)
    (f, false) ⟨hwf, le_rfl⟩).2

/-- A marked cell is occupied. -/
theorem starred_ne_empty (cell : Cell) (h : starred cell) : cell ≠ emptyCell :=
  fun he => emptyCell_not_starred (he ▸ h)

/-- The mark-removal pass removes exactly the marked cells from the
live-cell count. -/
theorem removeMarked_cellCount (rows cols : Nat) (g : Field)
    (hwf : wellFormed rows cols g) :
    cellCount rows cols (removeMarked rows cols g).1 + starCount rows cols g =
      cellCount rows cols g := by
  unfold cellCount starCount
  have hnew : ((allPositions rows cols).countP fun rc =>
      decide (getCellN (removeMarked rows cols g).1 rc.1 rc.2 ≠ emptyCell)) =
      (allPositions rows cols).countP fun rc =>
        decide (getCellN g rc.1 rc.2 ≠ emptyCell) &&
          !decide (starred (getCellN g rc.1 rc.2)) := by
    refine List.countP_congr fun a ha => ?_
    obtain ⟨a1, a2⟩ := a
    obtain ⟨ha1, ha2⟩ := (mem_allPositions rows cols a1 a2).mp ha
    dsimp only
    rw [removeMarked_getCell rows cols g hwf a1 a2 ha1 ha2]
    by_cases hst : starred (getCellN g a1 a2)
    · rw [if_pos hst]
      simp [hst]
    · rw [if_neg hst]
      simp [hst]
  rw [hnew]
  have hsplit := countP_split (allPositions rows cols)
    (fun rc => decide (getCellN g rc.1 rc.2 ≠ emptyCell))
    (fun rc => decide (starred (getCellN g rc.1 rc.2)))
  have hstar : ((allPositions rows cols).countP fun rc =>
      decide (getCellN g rc.1 rc.2 ≠ emptyCell) &&
        decide (starred (getCellN g rc.1 rc.2))) =
      (allPositions rows cols).countP fun rc =>
        decide (starred (getCellN g rc.1 rc.2)) := by
    refine List.countP_congr fun a _ => ?_
    simp only [Bool.and_eq_true, decide_eq_true_eq]
    exact ⟨fun h => h.2, fun h => ⟨starred_ne_empty _ h, h⟩⟩
  omega

/-! ### Cascade termination: every found match marks three distinct cells -/

/-- Every position a scan accepts holds a non-empty cell. -/
theorem scanDir_nonempty (rows cols : Nat) (f : Field) (color : Cell)
    (dr dc : Int) :
    ∀ (fuel : Nat) (r c : Int) (p : Int × Int),
      p ∈ scanDir rows cols f color dr dc r c fuel →
      getCell f p.1 p.2 ≠ emptyCell := by
  intro fuel
  induction fuel with
  | zero => intro r c p hp; cases hp
  | succ m ih =>
    intro r c p hp
    simp only [scanDir] at hp
    split at hp
    · split at hp
      · rename_i hcell
        rcases List.mem_cons.mp hp with rfl | hp2
        · exact hcell.1
        · exact ih _ _ p hp2
      · cases hp
    · cases hp

/-- `_check_match` returns either the empty list or one of the four direction
candidates, and a candidate only when the origin cell is occupied. -/
theorem check_match_cases (rows cols : Nat) (g : Field) (r c : Nat) :
    _check_match rows cols g r c = [] ∨
    (getCellN g r c ≠ emptyCell ∧
     ∃ d : Int × Int,
       d ∈ ([(0, 1), (1, 0), (1, 1), (1, -1)] : List (Int × Int)) ∧
       _check_match rows cols g r c =
         checkMatchDir rows cols g (baseColor (getCellN g r c)) r c d.1 d.2) := by
  have hgen : ∀ (F : Int × Int → List (Int × Int))
      (dirs : List (Int × Int)) (best : List (Int × Int)),
      (dirs.foldl (fun best d =>
        if 3 ≤ (F d).length ∧ best.length < (F d).length then F d
        else best) best = best) ∨
      ∃ d ∈ dirs, dirs.foldl (fun best d =>
        if 3 ≤ (F d).length ∧ best.length < (F d).length then F d
        else best) best = F d := by
    intro F dirs
    induction dirs with
    | nil => intro best; exact Or.inl rfl
    | cons d dirs ih =>
      intro best
      rw [List.foldl_cons]
      by_cases hrep : 3 ≤ (F d).length ∧ best.length < (F d).length
      · rw [if_pos hrep]
        rcases ih (F d) with h | ⟨d', hd', h⟩
        · exact Or.inr ⟨d, by simp, h⟩
        · exact Or.inr ⟨d', by simp [hd'], h⟩
      · rw [if_neg hrep]
        rcases ih best with h | ⟨d', hd', h⟩
        · exact Or.inl h
        · exact Or.inr ⟨d', by simp [hd'], h⟩
  by_cases hne : getCellN g r c = emptyCell
  · left
    simp only [_check_match]
    rw [if_pos hne]
  · have hu : _check_match rows cols g r c =
        ([(0, 1), (1, 0), (1, 1), (1, -1)] : List (Int × Int)).foldl
          (fun best d =>
            if 3 ≤ (checkMatchDir rows cols g (baseColor (getCellN g r c))
                (r : Int) (c : Int) d.1 d.2).length ∧
              best.length < (checkMatchDir rows cols g
                (baseColor (getCellN g r c)) (r : Int) (c : Int) d.1
                d.2).length then
              checkMatchDir rows cols g (baseColor (getCellN g r c)) (r : Int)
                (c : Int) d.1 d.2
            else best) [] := by
      simp only [_check_match]
      rw [if_neg hne]
    rcases hgen (fun d => checkMatchDir rows cols g
        (baseColor (getCellN g r c)) (r : Int) (c : Int) d.1 d.2)
        [(0, 1), (1, 0), (1, 1), (1, -1)] [] with h | ⟨d, hd, h⟩
    · left
      rw [hu]
      exact h
    · right
      refine ⟨hne, d, hd, ?_⟩
      rw [hu]
      exact h

/-- Along a scan, the direction-aligned linear form `dr*row + dc*col` never
decreases, and it strictly increases from entry to entry. -/
theorem scanDir_phi (rows cols : Nat) (f : Field) (color : Cell) (dr dc : Int)
    (hpos : 0 < dr * dr + dc * dc) :
    ∀ (fuel : Nat) (r c : Int),
      (∀ p ∈ scanDir rows cols f color dr dc r c fuel,
        dr * r + dc * c ≤ dr * p.1 + dc * p.2) ∧
      (scanDir rows cols f color dr dc r c fuel).Pairwise
        (fun p q => dr * p.1 + dc * p.2 < dr * q.1 + dc * q.2) := by
  intro fuel
  induction fuel with
  | zero => intro r c; exact ⟨fun p hp => absurd hp (by simp [scanDir]), by
      simp [scanDir]⟩
  | succ m ih =>
    intro r c
    simp only [scanDir]
    split
    · split
      · have hid : dr * (r + dr) + dc * (c + dc) =
            dr * r + dc * c + (dr * dr + dc * dc) := by ring
        constructor
        · intro p hp
          rcases List.mem_cons.mp hp with rfl | hp2
          · exact le_refl _
          · have := (ih (r + dr) (c + dc)).1 p hp2
            omega
        · rw [List.pairwise_cons]
          constructor
          · intro q hq
            have := (ih (r + dr) (c + dc)).1 q hq
            show dr * r + dc * c < dr * q.1 + dc * q.2
            omega
          · exact (ih (r + dr) (c + dc)).2
      · exact ⟨fun p hp => absurd hp (by simp), by simp⟩
    · exact ⟨fun p hp => absurd hp (by simp), by simp⟩

/-- A direction candidate of `_check_match` never repeats a position: the
linear form `dr*row + dc*col` is strictly monotone along it. -/
theorem checkMatchDir_nodup (rows cols : Nat) (f : Field) (color : Cell)
    (r c dr dc : Int) (hpos : 0 < dr * dr + dc * dc) :
    (checkMatchDir rows cols f color r c dr dc).Nodup := by
  have hneg : (0 : Int) < -dr * -dr + -dc * -dc := by
    have : -dr * -dr + -dc * -dc = dr * dr + dc * dc := by ring
    omega
  have hpo := scanDir_phi rows cols f color dr dc hpos (rows + cols)
    (r + dr) (c + dc)
  have hng := scanDir_phi rows cols f color (-dr) (-dc) hneg (rows + cols)
    (r - dr) (c - dc)
  have hidp : dr * (r + dr) + dc * (c + dc) =
      dr * r + dc * c + (dr * dr + dc * dc) := by ring
  have hidn : -dr * (r - dr) + -dc * (c - dc) =
      -(dr * r + dc * c) + (dr * dr + dc * dc) := by ring
  have hpair : (checkMatchDir rows cols f color r c dr dc).Pairwise
      (fun p q => dr * p.1 + dc * p.2 < dr * q.1 + dc * q.2) := by
    unfold checkMatchDir
    rw [List.pairwise_append]
    refine ⟨?_, ?_, ?_⟩
    · rw [List.pairwise_reverse]
      refine hng.2.imp ?_
      intro p q h
      have h1 : -dr * p.1 + -dc * p.2 = -(dr * p.1 + dc * p.2) := by ring
      have h2 : -dr * q.1 + -dc * q.2 = -(dr * q.1 + dc * q.2) := by ring
      show dr * q.1 + dc * q.2 < dr * p.1 + dc * p.2
      omega
    · rw [List.pairwise_cons]
      constructor
      · intro q hq
        have := hpo.1 q hq
        show dr * r + dc * c < dr * q.1 + dc * q.2
        omega
      · exact hpo.2
    · intro p hp q hq
      have hφp := hng.1 p (List.mem_reverse.mp hp)
      have h1 : -dr * p.1 + -dc * p.2 = -(dr * p.1 + dc * p.2) := by ring
      rcases List.mem_cons.mp hq with rfl | hq2
      · show dr * p.1 + dc * p.2 < dr * r + dc * c
        omega
      · have hφq := hpo.1 q hq2
        omega
  refine hpair.imp ?_
  intro p q h he
  rw [he] at h
  exact lt_irrefl _ h

/-- A duplicate-free list of length at least three holds three pairwise
distinct members. -/
theorem three_distinct_of_nodup {α : Type} (l : List α) (hnd : l.Nodup)
    (hlen : 3 ≤ l.length) :
    ∃ x1 x2 x3, x1 ∈ l ∧ x2 ∈ l ∧ x3 ∈ l ∧ x1 ≠ x2 ∧ x1 ≠ x3 ∧ x2 ≠ x3 := by
  obtain ⟨x1, t1, rfl⟩ : ∃ y t, l = y :: t := by
    cases l with
    | nil => simp at hlen
    | cons a t => exact ⟨a, t, rfl⟩
  obtain ⟨x2, t2, rfl⟩ : ∃ y t, t1 = y :: t := by
    cases t1 with
    | nil => simp at hlen
    | cons a t => exact ⟨a, t, rfl⟩
  obtain ⟨x3, t3, rfl⟩ : ∃ y t, t2 = y :: t := by
    cases t2 with
    | nil => simp at hlen
    | cons a t => exact ⟨a, t, rfl⟩
  simp only [List.nodup_cons, List.mem_cons, not_or] at hnd
  exact ⟨x1, x2, x3, by simp, by simp, by simp,
    hnd.1.1, hnd.1.2.1, hnd.2.1.1⟩

/-- On in-bounds positions, the `Int → Nat` coordinate conversion is
injective. -/
theorem inBounds_toNat_inj (rows cols : Nat) (p q : Int × Int)
    (hp : inBounds rows cols p.1 p.2) (hq : inBounds rows cols q.1 q.2)
    (hne : p ≠ q) : (p.1.toNat, p.2.toNat) ≠ (q.1.toNat, q.2.toNat) := by
  intro he
  apply hne
  have h1 : p.1.toNat = q.1.toNat := congrArg Prod.fst he
  have h2 : p.2.toNat = q.2.toNat := congrArg Prod.snd he
  obtain ⟨hp1, -, hp2, -⟩ := hp
  obtain ⟨hq1, -, hq2, -⟩ := hq
  exact Prod.ext (by omega) (by omega)

/-- The match-processing step that first raises the found flag has just
marked at least three pairwise distinct in-bounds cells. -/
theorem processMatchStep_flip (rows cols : Nat) (f : Field)
    (hwf : wellFormed rows cols f) (a : Nat × Nat)
    (ha : a.1 < rows ∧ a.2 < cols)
    (hflip : (processMatchStep rows cols (f, false) a).2 = true) :
    ∃ q1 q2 q3 : Nat × Nat,
      q1 ≠ q2 ∧ q1 ≠ q3 ∧ q2 ≠ q3 ∧
      (q1.1 < rows ∧ q1.2 < cols) ∧ (q2.1 < rows ∧ q2.2 < cols) ∧
      (q3.1 < rows ∧ q3.2 < cols) ∧
      starred (getCellN (processMatchStep rows cols (f, false) a).1 q1.1 q1.2) ∧
      starred (getCellN (processMatchStep rows cols (f, false) a).1 q2.1 q2.2) ∧
      starred (getCellN (processMatchStep rows cols (f, false) a).1 q3.1
        q3.2) := by
  by_cases hg : getCellN f a.1 a.2 ≠ emptyCell ∧ ¬ starred (getCellN f a.1 a.2)
  case neg =>
    have hno : processMatchStep rows cols (f, false) a = (f, false) := by
      simp only [processMatchStep]
      rw [if_neg hg]
    rw [hno] at hflip
    simp at hflip
  case pos =>
  by_cases hlen : 3 ≤ (_check_match rows cols f a.1 a.2).length
  case neg =>
    have hno : processMatchStep rows cols (f, false) a = (f, false) := by
      simp only [processMatchStep]
      rw [if_pos hg, if_neg hlen]
    rw [hno] at hflip
    simp at hflip
  case pos =>
  have hstep : processMatchStep rows cols (f, false) a =
      (_check_match rows cols f a.1 a.2).foldl markStep (f, false) := by
    simp only [processMatchStep]
    rw [if_pos hg, if_pos hlen]
  have hin0 : inBounds rows cols (a.1 : Int) (a.2 : Int) := by
    unfold inBounds
    omega
  rcases check_match_cases rows cols f a.1 a.2 with hnil | ⟨-, d, hd, hdir⟩
  · rw [hnil] at hlen
    simp at hlen
  · have hpos : (0 : Int) < d.1 * d.1 + d.2 * d.2 := by
      simp only [List.mem_cons, List.not_mem_nil, or_false] at hd
      rcases hd with rfl | rfl | rfl | rfl <;> decide
    have hnd : (_check_match rows cols f a.1 a.2).Nodup := by
      rw [hdir]
      exact checkMatchDir_nodup rows cols f _ _ _ d.1 d.2 hpos
    have hbounds : ∀ p ∈ _check_match rows cols f a.1 a.2,
        inBounds rows cols p.1 p.2 := by
      rw [hdir]
      intro p hp
      exact checkMatchDir_bounds rows cols f _ _ _ d.1 d.2 hin0 p hp
    obtain ⟨p1, p2, p3, hm1, hm2, hm3, h12, h13, h23⟩ :=
      three_distinct_of_nodup _ hnd hlen
    have hstars := markFold_stars_mem rows cols
      (_check_match rows cols f a.1 a.2) (f, false) hwf hbounds
    have hnat : ∀ p : Int × Int, p ∈ _check_match rows cols f a.1 a.2 →
        p.1.toNat < rows ∧ p.2.toNat < cols := by
      intro p hp
      have := hbounds p hp
      unfold inBounds at this
      omega
    refine ⟨(p1.1.toNat, p1.2.toNat), (p2.1.toNat, p2.2.toNat),
      (p3.1.toNat, p3.2.toNat),
      inBounds_toNat_inj rows cols p1 p2 (hbounds p1 hm1) (hbounds p2 hm2) h12,
      inBounds_toNat_inj rows cols p1 p3 (hbounds p1 hm1) (hbounds p3 hm3) h13,
      inBounds_toNat_inj rows cols p2 p3 (hbounds p2 hm2) (hbounds p3 hm3) h23,
      hnat p1 hm1, hnat p2 hm2, hnat p3 hm3, ?_, ?_, ?_⟩
    · rw [hstep]
      exact hstars p1 hm1
    · rw [hstep]
      exact hstars p2 hm2
    · rw [hstep]
      exact hstars p3 hm3

/-- The match-processing fold never removes a star. -/
theorem processFold_preserves_star (rows cols : Nat) :
    ∀ (l : List (Nat × Nat)) (fb : Field × Bool) (r c : Nat),
    starred (getCellN fb.1 r c) →
    starred (getCellN (l.foldl (processMatchStep rows cols) fb).1 r c) := by
  intro l
  induction l with
  | nil => intro fb r c h; exact h
  | cons a l ih =>
    intro fb r c h
    rw [List.foldl_cons]
    exact ih _ r c (processMatchStep_preserves_star rows cols fb a r c h)

/-- If the match-processing fold raises the found flag, its result carries at
least three pairwise distinct marked in-bounds cells. -/
theorem processFold_flip_stars (rows cols : Nat) (f : Field)
    (hwf : wellFormed rows cols f) :
    ∀ l : List (Nat × Nat), (∀ p ∈ l, p.1 < rows ∧ p.2 < cols) →
    (l.foldl (processMatchStep rows cols) (f, false)).2 = true →
    ∃ q1 q2 q3 : Nat × Nat,
      q1 ≠ q2 ∧ q1 ≠ q3 ∧ q2 ≠ q3 ∧
      (q1.1 < rows ∧ q1.2 < cols) ∧ (q2.1 < rows ∧ q2.2 < cols) ∧
      (q3.1 < rows ∧ q3.2 < cols) ∧
      starred (getCellN (l.foldl (processMatchStep rows cols) (f, false)).1
        q1.1 q1.2) ∧
      starred (getCellN (l.foldl (processMatchStep rows cols) (f, false)).1
        q2.1 q2.2) ∧
      starred (getCellN (l.foldl (processMatchStep rows cols) (f, false)).1
        q3.1 q3.2) := by
  intro l
  induction l with
  | nil =>
    intro _ hflag
    simp at hflag
  | cons a l ih =>
    intro hl hflag
    rw [List.foldl_cons] at hflag ⊢
    cases hsa : (processMatchStep rows cols (f, false) a).2
    · have hfix := processMatchStep_false_fixed rows cols (f, false) a hsa
      rw [hfix] at hflag ⊢
      exact ih (fun p hp => hl p (by simp [hp])) hflag
    · obtain ⟨q1, q2, q3, h12, h13, h23, hb1, hb2, hb3, hs1, hs2, hs3⟩ :=
        processMatchStep_flip rows cols f hwf a (hl a (by simp)) hsa
      exact ⟨q1, q2, q3, h12, h13, h23, hb1, hb2, hb3,
        processFold_preserves_star rows cols l _ q1.1 q1.2 hs1,
        processFold_preserves_star rows cols l _ q2.1 q2.2 hs2,
        processFold_preserves_star rows cols l _ q3.1 q3.2 hs3⟩

/-- `_process_matches` reports a find only after marking at least three
pairwise distinct in-bounds cells. -/
theorem processMatches_stars (rows cols : Nat) (f : Field)
    (hwf : wellFormed rows cols f)
    (hpm : (_process_matches rows cols f).2 = true) :
    ∃ q1 q2 q3 : Nat × Nat,
      q1 ≠ q2 ∧ q1 ≠ q3 ∧ q2 ≠ q3 ∧
      (q1.1 < rows ∧ q1.2 < cols) ∧ (q2.1 < rows ∧ q2.2 < cols) ∧
      (q3.1 < rows ∧ q3.2 < cols) ∧
      starred (getCellN (_process_matches rows cols f).1 q1.1 q1.2) ∧
      starred (getCellN (_process_matches rows cols f).1 q2.1 q2.2) ∧
      starred (getCellN (_process_matches rows cols f).1 q3.1 q3.2) := by
  unfold _process_matches at hpm ⊢
  exact processFold_flip_stars rows cols f hwf (allPositions rows cols)
    (fun p hp => (mem_allPositions rows cols p.1 p.2).mp hp) hpm

/-! ### Cascade termination: marking preserves the emptiness pattern -/

/-- A marking step touches only its own position. -/
theorem markStep_get_ne (fb : Field × Bool) (q : Int × Int) (a b : Nat)
    (h : ¬ (q.1.toNat = a ∧ q.2.toNat = b)) :
    getCellN (markStep fb q).1 a b = getCellN fb.1 a b := by
  simp only [markStep]
  split
  · unfold setCell
    exact getCellN_setCellN_ne fb.1 q.1.toNat q.2.toNat a b _ (not_and_or.mp h)
  · rfl

/-- Every member of a direction candidate is in bounds and occupied. -/
theorem check_match_members (rows cols : Nat) (g : Field) (r c : Nat)
    (hr : r < rows) (hc : c < cols) :
    ∀ p ∈ _check_match rows cols g r c,
      inBounds rows cols p.1 p.2 ∧ getCell g p.1 p.2 ≠ emptyCell := by
  rcases check_match_cases rows cols g r c with hnil | ⟨hne, d, -, hdir⟩
  · rw [hnil]
    intro p hp
    cases hp
  · have hin0 : inBounds rows cols (r : Int) (c : Int) := by
      unfold inBounds
      omega
    rw [hdir]
    intro p hp
    refine ⟨checkMatchDir_bounds rows cols g _ _ _ d.1 d.2 hin0 p hp, ?_⟩
    unfold checkMatchDir at hp
    rcases List.mem_append.mp hp with h | h
    · exact scanDir_nonempty rows cols g _ (-d.1) (-d.2) _ _ _ p
        (List.mem_reverse.mp h)
    · rcases List.mem_cons.mp h with rfl | h2
      · rw [getCell_natCast]
        exact hne
      · exact scanDir_nonempty rows cols g _ d.1 d.2 _ _ _ p h2

/-- Marking a set of occupied positions leaves the emptiness pattern of the
field unchanged. -/
theorem markFold_pattern :
    ∀ (l : List (Int × Int)) (fb : Field × Bool),
    (∀ p ∈ l, getCellN fb.1 p.1.toNat p.2.toNat ≠ emptyCell) →
    ∀ a b : Nat,
      (getCellN (l.foldl markStep fb).1 a b = emptyCell ↔
       getCellN fb.1 a b = emptyCell) := by
  intro l
  induction l with
  | nil => intro fb _ a b; exact Iff.rfl
  | cons q l ih =>
    intro fb hne a b
    rw [List.foldl_cons]
    have hstep : ∀ x y : Nat,
        (getCellN (markStep fb q).1 x y = emptyCell ↔
         getCellN fb.1 x y = emptyCell) := by
      intro x y
      by_cases hxy : q.1.toNat = x ∧ q.2.toNat = y
      · have hold : getCellN fb.1 x y ≠ emptyCell := by
          have := hne q (by simp)
          rwa [hxy.1, hxy.2] at this
        have hnewv : getCellN (markStep fb q).1 x y ≠ emptyCell := by
          rcases markStep_pointwise fb q x y with heq | ⟨-, heq⟩
          · rw [heq]
            exact hold
          · rw [heq]
            exact starred_ne_empty _ (markCell_starred _)
        exact ⟨fun h => absurd h hnewv, fun h => absurd h hold⟩
      · rw [markStep_get_ne fb q x y hxy]
    have hne' : ∀ p ∈ l,
        getCellN (markStep fb q).1 p.1.toNat p.2.toNat ≠ emptyCell := by
      intro p hp he
      exact hne p (by simp [hp]) ((hstep _ _).mp he)
    rw [ih (markStep fb q) hne' a b, hstep a b]

/-- A match-processing step leaves the emptiness pattern unchanged. -/
theorem processMatchStep_pattern (rows cols : Nat) (fb : Field × Bool)
    (a : Nat × Nat) (ha : a.1 < rows ∧ a.2 < cols) (x y : Nat) :
    getCellN (processMatchStep rows cols fb a).1 x y = emptyCell ↔
      getCellN fb.1 x y = emptyCell := by
  by_cases hg : getCellN fb.1 a.1 a.2 ≠ emptyCell ∧
      ¬ starred (getCellN fb.1 a.1 a.2)
  · by_cases hlen : 3 ≤ (_check_match rows cols fb.1 a.1 a.2).length
    · have hstep : processMatchStep rows cols fb a =
          (_check_match rows cols fb.1 a.1 a.2).foldl markStep fb := by
        simp only [processMatchStep]
        rw [if_pos hg, if_pos hlen]
      rw [hstep]
      refine markFold_pattern _ fb ?_ x y
      intro p hp
      exact (check_match_members rows cols fb.1 a.1 a.2 ha.1 ha.2 p hp).2
    · have hno : processMatchStep rows cols fb a = fb := by
        simp only [processMatchStep]
        rw [if_pos hg, if_neg hlen]
      rw [hno]
  · have hno : processMatchStep rows cols fb a = fb := by
      simp only [processMatchStep]
      rw [if_neg hg]
    rw [hno]

/-- `_process_matches` leaves the emptiness pattern of the field
unchanged. -/
theorem processMatches_pattern (rows cols : Nat) (f : Field)
    (hwf : wellFormed rows cols f) (x y : Nat) :
    getCellN (_process_matches rows cols f).1 x y = emptyCell ↔
      getCellN f x y = emptyCell := by
  unfold _process_matches
  exact (foldl_hold (processMatchStep rows cols)
    (fun fb => wellFormed rows cols fb.1 ∧
      (getCellN fb.1 x y = emptyCell ↔ getCellN f x y = emptyCell))
    (allPositions rows cols)
    (fun fb a ha hfb => ⟨processMatchStep_wf rows cols fb a hfb.1,
      Iff.trans (processMatchStep_pattern rows cols fb a
        ((mem_allPositions rows cols a.1 a.2).mp ha) x y) hfb.2⟩)
    (f, false) ⟨hwf, Iff.rfl⟩).2

/-- A resolution pass that finds a match loses at least three live cells
once its marks are removed. -/
theorem processMatches_remove_count (rows cols : Nat) (f : Field)
    (hwf : wellFormed rows cols f)
    (hpm : (_process_matches rows cols f).2 = true) :
    cellCount rows cols
      (removeMarked rows cols (_process_matches rows cols f).1).1 + 3 ≤
      cellCount rows cols f := by
  obtain ⟨q1, q2, q3, h12, h13, h23, hb1, hb2, hb3, hs1, hs2, hs3⟩ :=
    processMatches_stars rows cols f hwf hpm
  have hpmwf : wellFormed rows cols (_process_matches rows cols f).1 :=
    processMatches_wf rows cols f hwf
  unfold cellCount
  refine countP_add_three_le (allPositions rows cols)
    (allPositions_nodup rows cols)
    (fun rc => decide (getCellN f rc.1 rc.2 ≠ emptyCell))
    (fun rc => decide (getCellN
      (removeMarked rows cols (_process_matches rows cols f).1).1 rc.1 rc.2
      ≠ emptyCell))
    ?_ q1 q2 q3
    ((mem_allPositions rows cols q1.1 q1.2).mpr hb1)
    ((mem_allPositions rows cols q2.1 q2.2).mpr hb2)
    ((mem_allPositions rows cols q3.1 q3.2).mpr hb3)
    h12 h13 h23 ?_ ?_ ?_ ?_ ?_ ?_
  · intro p hp h
    obtain ⟨hp1, hp2⟩ := (mem_allPositions rows cols p.1 p.2).mp hp
    simp only [decide_eq_true_eq] at h ⊢
    intro hfe
    apply h
    rw [removeMarked_getCell rows cols _ hpmwf p.1 p.2 hp1 hp2,
      (processMatches_pattern rows cols f hwf p.1 p.2).mpr hfe,
      if_neg emptyCell_not_starred]
  · simp only [decide_eq_true_eq]
    intro hfe
    exact starred_ne_empty _ hs1
      ((processMatches_pattern rows cols f hwf q1.1 q1.2).mpr hfe)
  · simp only [decide_eq_true_eq]
    intro hfe
    exact starred_ne_empty _ hs2
      ((processMatches_pattern rows cols f hwf q2.1 q2.2).mpr hfe)
  · simp only [decide_eq_true_eq]
    intro hfe
    exact starred_ne_empty _ hs3
      ((processMatches_pattern rows cols f hwf q3.1 q3.2).mpr hfe)
  · have he : getCellN
        (removeMarked rows cols (_process_matches rows cols f).1).1 q1.1 q1.2
        = emptyCell := by
      rw [removeMarked_getCell rows cols _ hpmwf q1.1 q1.2 hb1.1 hb1.2,
        if_pos hs1]
    simp [he]
  · have he : getCellN
        (removeMarked rows cols (_process_matches rows cols f).1).1 q2.1 q2.2
        = emptyCell := by
      rw [removeMarked_getCell rows cols _ hpmwf q2.1 q2.2 hb2.1 hb2.2,
        if_pos hs2]
    simp [he]
  · have he : getCellN
        (removeMarked rows cols (_process_matches rows cols f).1).1 q3.1 q3.2
        = emptyCell := by
      rw [removeMarked_getCell rows cols _ hpmwf q3.1 q3.2 hb3.1 hb3.2,
        if_pos hs3]
    simp [he]

/-! ### Cascade termination: the loop -/

/-- Gravity applied after a mark-removal pass yields a well-formed, settled,
unmarked field. -/
theorem gravityRemoveGood (rows cols : Nat) (g0 : Field)
    (hwf : wellFormed rows cols g0) :
    wellFormed rows cols
      (_apply_field_gravity rows cols (removeMarked rows cols g0).1).1 ∧
    settled rows cols
      (_apply_field_gravity rows cols (removeMarked rows cols g0).1).1 ∧
    unmarked rows cols
      (_apply_field_gravity rows cols (removeMarked rows cols g0).1).1 :=
  ⟨applyFieldGravity_wf rows cols _ (removeMarked_wf rows cols g0 hwf),
   applyFieldGravity_settles rows cols _ (removeMarked_wf rows cols g0 hwf),
   applyFieldGravity_unmarked rows cols _ (removeMarked_wf rows cols g0 hwf)
     (removeMarked_result_unmarked rows cols g0 hwf)⟩

/-- Every cascade iteration leaves a well-formed, settled, unmarked field:
both exit paths of the loop body end with gravity applied after a
mark-removal pass. -/
theorem cascadeStep_good (rows cols : Nat) (f : Field)
    (hwf : wellFormed rows cols f) :
    wellFormed rows cols (cascadeStep rows cols f).1 ∧
    settled rows cols (cascadeStep rows cols f).1 ∧
    unmarked rows cols (cascadeStep rows cols f).1 := by
  have hg0wf : wellFormed rows cols
      (_apply_field_gravity rows cols (removeMarked rows cols f).1).1 :=
    applyFieldGravity_wf rows cols _ (removeMarked_wf rows cols f hwf)
  have hpmwf : wellFormed rows cols
      (_process_matches rows cols (_apply_field_gravity rows cols
        (removeMarked rows cols f).1).1).1 :=
    processMatches_wf rows cols _ hg0wf
  unfold cascadeStep
  simp only
  split
  · exact ⟨applyFieldGravity_wf rows cols _
      (removeMarked_wf rows cols _ hpmwf),
      applyFieldGravity_settles rows cols _
        (removeMarked_wf rows cols _ hpmwf),
      applyFieldGravity_unmarked rows cols _
        (removeMarked_wf rows cols _ hpmwf)
        (removeMarked_result_unmarked rows cols _ hpmwf)⟩
  · rename_i hpm
    have hpm' : (_process_matches rows cols (_apply_field_gravity rows cols
        (removeMarked rows cols f).1).1).2 = false := by
      cases h : (_process_matches rows cols (_apply_field_gravity rows cols
        (removeMarked rows cols f).1).1).2
      · rfl
      · exact absurd h hpm
    have hfix := processMatches_false_fixed rows cols _ hpm'
    split
    · rw [hfix]
      exact gravityRemoveGood rows cols f hwf
    · rw [hfix]
      exact gravityRemoveGood rows cols f hwf

/-- On a settled, unmarked field with a match, the cascade iteration takes
the match branch: marks are removed and gravity is applied again. -/
theorem cascadeStep_match (rows cols : Nat) (f : Field)
    (hs : settled rows cols f) (hu : unmarked rows cols f)
    (hpm : (_process_matches rows cols f).2 = true) :
    cascadeStep rows cols f =
      ((_apply_field_gravity rows cols
        (removeMarked rows cols (_process_matches rows cols f).1).1).1,
       true) := by
  unfold cascadeStep
  rw [removeMarked_unmarked rows cols f hu]
  simp only
  rw [applyFieldGravity_settled rows cols f hs]
  simp only
  rw [if_pos hpm]

/-- On a settled, unmarked field, a cascade iteration that continues removes
at least three live cells. -/
theorem cascadeStep_settled_decrease (rows cols : Nat) (f : Field)
    (hwf : wellFormed rows cols f) (hs : settled rows cols f)
    (hu : unmarked rows cols f)
    (hcont : (cascadeStep rows cols f).2 = true) :
    cellCount rows cols (cascadeStep rows cols f).1 + 3 ≤
      cellCount rows cols f := by
  cases hpm : (_process_matches rows cols f).2
  · rw [cascadeStep_stable rows cols f hs hu hpm] at hcont
    simp at hcont
  · rw [cascadeStep_match rows cols f hs hu hpm]
    have hc1 : cellCount rows cols (_apply_field_gravity rows cols
        (removeMarked rows cols (_process_matches rows cols f).1).1).1 ≤
        cellCount rows cols (removeMarked rows cols
          (_process_matches rows cols f).1).1 :=
      applyFieldGravity_cellCount rows cols _
        (removeMarked_wf rows cols _ (processMatches_wf rows cols f hwf))
    have hc2 := processMatches_remove_count rows cols f hwf hpm
    show cellCount rows cols (_apply_field_gravity rows cols
        (removeMarked rows cols (_process_matches rows cols f).1).1).1 + 3 ≤
      cellCount rows cols f
    omega

/-- Fuel induction: from a settled, unmarked, well-formed field holding at
most `3 * k` live cells, the cascade loop reaches its `break` within `k + 1`
iterations. -/
theorem cascadeLoop_exits (rows cols : Nat) :
    ∀ (k : Nat) (f : Field), wellFormed rows cols f → settled rows cols f →
    unmarked rows cols f → cellCount rows cols f ≤ 3 * k →
    (cascadeLoop rows cols f (k + 1)).2 = true := by
  intro k
  induction k with
  | zero =>
    intro f hwf hs hu hc
    unfold cascadeLoop
    by_cases hst : (cascadeStep rows cols f).2 = true
    · exfalso
      have := cascadeStep_settled_decrease rows cols f hwf hs hu hst
      omega
    · rw [if_neg hst]
  | succ k ih =>
    intro f hwf hs hu hc
    unfold cascadeLoop
    by_cases hst : (cascadeStep rows cols f).2 = true
    · rw [if_pos hst]
      have hgood := cascadeStep_good rows cols f hwf
      have hdec := cascadeStep_settled_decrease rows cols f hwf hs hu hst
      exact ih (cascadeStep rows cols f).1 hgood.1 hgood.2.1 hgood.2.2
        (by omega)
    · rw [if_neg hst]

/-- The live-cell count never exceeds the board size. -/
theorem cellCount_le (rows cols : Nat) (f : Field) :
    cellCount rows cols f ≤ rows * cols := by
  unfold cellCount
  calc List.countP _ (allPositions rows cols) ≤
      (allPositions rows cols).length := List.countP_le_length _
    _ = rows * cols := allPositions_length rows cols

/-- C8: For every finite field configuration — any well-formed field at the
game's valid dimensions (`rows ≥ 4`, `cols ≥ 3`) — the internal `while True`
cascade loop of `apply_gravity` terminates, reaching a stable state with no
further matches or falls within at most `rows * cols` internal passes: run
with fuel `rows * cols`, the fuelled loop exits through its `break`
(returned flag `true`) rather than exhausting the fuel, so every
`apply_gravity` call returns.  After the first pass the field is settled and
unmarked, and every further pass that does not break removes at least three
live cells, so at most `2 + (rows * cols) / 3 ≤ rows * cols` passes can
run. -/
theorem cascade_terminates (rows cols : Nat) (f : Field)
    (hwf : wellFormed rows cols f) (hrows : 4 ≤ rows) (hcols : 3 ≤ cols) :
    (cascadeLoop rows cols f (rows * cols)).2 = true := by
  have h12 : 12 ≤ rows * cols :=
    le_trans (by norm_num) (Nat.mul_le_mul hrows hcols)
  obtain ⟨n, hn⟩ : ∃ n, rows * cols = n + 2 := ⟨rows * cols - 2, by omega⟩
  rw [hn]
  unfold cascadeLoop
  by_cases hst : (cascadeStep rows cols f).2 = true
  · rw [if_pos hst]
    have hgood := cascadeStep_good rows cols f hwf
    have hle : cellCount rows cols (cascadeStep rows cols f).1 ≤ rows * cols :=
      cellCount_le rows cols _
    exact cascadeLoop_exits rows cols n (cascadeStep rows cols f).1 hgood.1
      hgood.2.1 hgood.2.2 (by omega)
  · rw [if_neg hst]

/-- Witness for `cascade_terminates`: the 4×5 field `c7grav`, whose cascade
clears a red run and compacts the cell above before stabilising. -/
theorem cascade_terminates_witness :
    wellFormed 4 5 c7grav ∧ (cascadeLoop 4 5 c7grav (4 * 5)).2 = true :=
  ⟨by decide, cascade_terminates 4 5 c7grav (by decide) (by omega) (by omega)⟩

end DrMario
